import Mathlib

/-! # react-markdown: markdown token stream ⇄ document tree

A shallow embedding of `src/client/components/serializer/MarkdownParser.js`
(the tree builder `Children` / `StateRender` / `MDParser`) and of
`src/client/components/serializer/MarkdownRenderer.js` (the serializer `Markdown`
with its `RULES`).

Conventions of the embedding.

* JavaScript `undefined` / `null` is `Option.none`.
* A JavaScript exception (a `TypeError` on a property of `null`/`undefined`) is
  `Except.error`; the builder and the serializer therefore live in `Except String`.
* Mutable module state (`StateRender`, `abbreviations`, `hasNewAbbr`) is passed
  explicitly.
* The tokenizer (`markdown.parse`) is an external collaborator: it is a parameter
  `tokenize : String → Except String (List Token)`.
* The Slate record layer (`Raw.deserialize`) between parser and serializer is taken
  to preserve the tree: the serializer is run on the nodes the parser built. The
  normalisation Slate applies to a tree (adjacent runs with equal marks are merged,
  empty runs and empty inline nodes are dropped, a mark without type is refused) is
  not modelled.
-/

namespace ReactMarkdown

/-! ## Data model -/

/-- Value of a token attribute: markdown-it stores strings, except the `start`
attribute of an ordered list, which is a number. -/
inductive AttrVal where
  | str (s : String)
  | num (n : Nat)
deriving DecidableEq, Repr

/-- JavaScript truthiness of an attribute value. -/
def AttrVal.truthy : AttrVal → Bool
  | .str s => s != ""
  | .num n => n != 0

/-- Template-literal rendering of an attribute value. -/
def AttrVal.toStr : AttrVal → String
  | .str s => s
  | .num n => toString n

abbrev Attrs := List (String × AttrVal)

/-- The `meta` object of a token: `label` for footnote anchors, `id` for
autocomplete placeholders. -/
structure Meta where
  label : Option String := none
  id : Option String := none
deriving DecidableEq, Repr

/-- An inline (child) token: the fields `Children` reads. -/
structure InlineToken where
  type : String
  markup : String := ""
  content : String := ""
  attrs : Option Attrs := none
  tmeta : Option Meta := none  -- the field `meta`
deriving DecidableEq, Repr

/-- A block-level token of the stream. -/
structure Token where
  type : String
  tag : String := ""
  markup : String := ""
  level : Int := 0
  content : String := ""
  attrs : Option Attrs := none
  tmeta : Option Meta := none
  children : Option (List InlineToken) := none
deriving DecidableEq, Repr

/-- A JavaScript number as far as `itemNum` needs it: `none` is `NaN`. -/
abbrev JSNum := Option Nat

/-- The open `data` mapping of a node, as a record of the keys the code uses. -/
structure Data where
  markup : Option String := none
  level : Option Int := none
  parent : Option String := none
  itemNum : Option JSNum := none
  label : Option String := none
  id : Option String := none
  href : Option String := none
  title : Option String := none
  src : Option String := none
  alt : Option String := none
deriving DecidableEq, Repr

/-- A mark descriptor `{type, data: {markup}}`; `type` is `markups[markup]`, which
is `undefined` for a delimiter outside the table. -/
structure Mark where
  type : Option String
  markup : String
deriving DecidableEq, Repr

/-- A text run; `marks` is `undefined` when the constructor set none. -/
structure TextBlock where
  text : String
  marks : Option (List Mark) := none
deriving DecidableEq, Repr

/-- Tree nodes: `kind` is the constructor. `type` of a block is always set by the
builder; `tag` and `attrs` are the extra fields `BlockNode` carries. -/
inductive Node where
  | text (ranges : List TextBlock) (data : Option Data)
  | inline (type : String) (isVoid : Bool) (nodes : List Node) (data : Option Data)
  | block (type : String) (nodes : List Node) (data : Option Data) (isVoid : Bool)
      (tag : Option String) (attrs : Option Attrs)
deriving Repr

/-- The document `{nodes: fragment}` returned by `MDParser.parse`. -/
structure Document where
  nodes : List Node

/-- Field `node.type` (`undefined` for a text node). -/
def Node.type? : Node → Option String
  | .text _ _ => none
  | .inline t _ _ _ => some t
  | .block t _ _ _ _ _ => some t

/-- Field `node.nodes` (`undefined` for a text node). -/
def Node.nodes? : Node → Option (List Node)
  | .text _ _ => none
  | .inline _ _ ns _ => some ns
  | .block _ ns _ _ _ _ => some ns

/-- Field `node.data`. -/
def Node.data? : Node → Option Data
  | .text _ d => d
  | .inline _ _ _ d => d
  | .block _ _ d _ _ _ => d

/-- Field `node.attrs` (the parsed attributes; only a `BlockNode` has them). -/
def Node.attrs? : Node → Option Attrs
  | .block _ _ _ _ _ a => a
  | _ => none

/-- Assignment `node.nodes = ns`. -/
def Node.setNodes (ns : List Node) : Node → Node
  | .text r d => .text r d
  | .inline t v _ d => .inline t v ns d
  | .block t _ d v tag a => .block t ns d v tag a

/-- Assignment `node.data = d`. -/
def Node.setData (d : Data) : Node → Node
  | .text r _ => .text r (some d)
  | .inline t v ns _ => .inline t v ns (some d)
  | .block t ns _ v tag a => .block t ns (some d) v tag a

/-- Assignment `node.type = t` (only blocks are retagged). -/
def Node.setType (t : String) : Node → Node
  | .text r d => .text r d
  | .inline _ v ns d => .inline t v ns d
  | .block _ ns d v tag a => .block t ns d v tag a

/-- The method call `node.nodes.push(child)`. -/
def Node.pushNode (node child : Node) : Node :=
  match node with
  | .text r d => .text r d
  | .inline t v ns d => .inline t v (ns ++ [child]) d
  | .block t ns d v tag a => .block t (ns ++ [child]) d v tag a

/-! ## `MarkdownParser.js`: tables -/

/-- The table `types`: tag ↦ block type. -/
def types : List (String × String) :=
  [("h1", "heading1"), ("h2", "heading2"), ("h3", "heading3"), ("h4", "heading4"),
   ("h5", "heading5"), ("h6", "heading6"), ("p", "paragraph"),
   ("blockquote", "blockquote"), ("li", "list-item"), ("ul", "unordered-list"),
   ("ol", "ordered-list"), ("hr", "horizontal-rule"), ("table", "table"),
   ("thead", "thead"), ("tr", "tr"), ("th", "th"), ("tbody", "tbody"), ("td", "td"),
   ("code", "code"), ("dd", "dd"), ("dt", "dt"), ("dl", "dl"), ("anchor", "anchor"),
   ("empty", "empty"), ("abbr-def", "abbr-def")]

/-- The table `markups`: delimiter ↦ mark type. -/
def markups : List (String × String) :=
  [("**", "bold"), ("__", "bold"), ("++", "underline"), ("==", "mark"),
   ("*", "italic"), ("^", "sup"), ("_", "italic"), ("~~", "strikethrough"),
   ("~", "sub"), ("`", "code"), ("linkify", "linkify"),
   ("autocomplete", "autocomplete")]

/-- Lookup `tbl[k]` in one of the two tables above. Tags and delimiters come from the
tokenizer and never name a property inherited from `Object.prototype`, so only the
own entries are modelled. -/
def lookup (tbl : List (String × String)) (k : String) : Option String :=
  (tbl.find? (fun p => p.1 == k)).map (·.2)

def LISTS_BLOCKQUOTES : List String := ["ordered-list", "unordered-list", "blockquote"]

def TABLES : List String := ["table", "thead", "tbody"]

/-- Lookup `parseAttrs(attrs)[k]`: a later pair with the same key overwrites an earlier. -/
def attrLookup (attrs : Attrs) (k : String) : Option AttrVal :=
  (attrs.reverse.find? (fun p => p.1 == k)).map (·.2)

/-- The constructor `new BlockNode(token, isDefault)`. `data.level` is always set:
a token's `level` is a number. `Object.assign(data, token.meta)` copies the meta
keys. -/
def BlockNode (token : Token) (isDefault : Bool) : Node :=
  let type := if isDefault then "default" else (lookup types token.tag).getD "default"
  let markup : Option String :=
    if (token.type == "list_item_open" || token.type == "hr" || token.type == "fence")
        && token.markup != "" then some token.markup else none
  let isVoid := token.tag == "hr" || token.tag == "empty" || token.tag == "abbr-def"
  let data : Data := { markup := markup, level := some token.level }
  let data : Data := match token.tmeta with
    | some m => { data with
        label := match m.label with | some l => some l | none => data.label
        id := match m.id with | some i => some i | none => data.id }
    | none => data
  .block type [] (some data) isVoid (some token.tag) token.attrs

/-- The function `getBlockNode(token)`: a tag outside `types` gives a `default` block. -/
def getBlockNode (token : Token) : Node :=
  if (lookup types token.tag).isSome then BlockNode token false else BlockNode token true

/-! ## Inline builder (`Children`) -/

/-- The function `getLastElemTokenType(token)`: the last `_`-separated piece of the type. -/
def getLastElemTokenType (type : String) : String :=
  String.mk (type.data.foldl (fun acc c => if c == '_' then [] else acc ++ [c]) [])

/-- The constructor `new TextBlock(token)` followed by `setText(text)`; `new TextBlock({})`
is the case of an empty type and markup. -/
def TextBlock.new (type markup text : String) : TextBlock :=
  if type == "emoji" then
    { text := text, marks := some [{ type := some "emoji", markup := markup }] }
  else if markup != "" && (lookup markups markup).isSome then
    { text := text, marks := some [{ type := lookup markups markup, markup := markup }] }
  else
    { text := text, marks := none }

/-- The array index a property key stands for, if any: the key is the decimal numeral,
without a leading zero, of a number below `2^32 - 1`. -/
def arrayIndex? (key : String) : Option Nat :=
  let cs := key.data
  if cs != [] && cs.all Char.isDigit && (cs.length == 1 || cs.head? != some '0') then
    let n := cs.foldl (fun acc c => 10 * acc + (c.toNat - 48)) 0
    if n < 4294967295 then some n else none
  else none

/-- Insertion of an index key into a list of index keys in ascending order. -/
def insertIndexKey (p : Nat × String) : List (Nat × String) → List (Nat × String)
  | [] => [p]
  | q :: qs => if p.1 < q.1 then p :: q :: qs else q :: insertIndexKey p qs

/-- The order in which `for (let key in object)` visits the own keys of a plain object,
`keys` being the keys in the order of their creation: the array indices in ascending
order, then the other keys in the order of their creation. -/
def forInOrder (keys : List String) : List String :=
  ((keys.filterMap (fun k => (arrayIndex? k).map (fun n => (n, k)))).foldr
      insertIndexKey []).map (·.2)
    ++ keys.filter (fun k => (arrayIndex? k).isNone)

/-- The method `TextBlock.setMarks(marks)`: one descriptor per key of the object
`marks`, in the order of `for ... in`; `marks` lists the own keys in the order of their
creation. (For a key that names a member of `Object.prototype` the value
`markups[mark]` is that member; only the own entries of `markups` are modelled, see
`lookup`.) -/
def TextBlock.setMarks (tb : TextBlock) (marks : List String) : TextBlock :=
  { tb with marks := some (((forInOrder marks).filter (· != "")).map
      (fun m => { type := lookup markups m, markup := m })) }

/-- State of a `Children` instance; `marks` holds the own keys of the object
`this.marks` in the order of their creation. -/
structure Children where
  _nodes : List Node := []
  currNode : Option Node := none
  currTextBlock : Option TextBlock := none
  marks : List String := []

/-- The initial text child `[{kind: "text", ranges: [{text: ''}]}]` of a link, abbr or
autocomplete node. -/
def emptyLabel : List Node := [.text [{ text := "" }] none]

/-- The constructor `new LinkNode(link, title)`. -/
def LinkNode (link title : String) : Node :=
  .inline "link" false emptyLabel
    (some { href := some link, title := if title != "" then some title else none })

/-- The constructor `new AbbrNode(title)`. -/
def AbbrNode (title : String) : Node :=
  .inline "abbr" false emptyLabel (some { title := some title })

/-- The constructor `new AutocompleteNode(id)`; `id` is `token.meta.id`, possibly `undefined`. -/
def AutocompleteNode (id : Option String) : Node :=
  .inline "autocomplete" false emptyLabel (some { id := id })

/-- The constructor `new ImageNode(title, src, alt)`. -/
def ImageNode (title src alt : String) : Node :=
  .inline "image" true []
    (some { title := some title, src := some src,
            alt := if alt != "" then some alt else none })

/-- The constructor `new SoftBreakNode()`: no `data` field. -/
def SoftBreakNode : Node := .inline "softbreak" true [] none

/-- The method `addText(text)` of link/abbr/autocomplete nodes:
`this.nodes[0].ranges[0].text = text` (the label is overwritten). -/
def Node.addText (text : String) : Node → Except String Node
  | .inline t v (.text (r :: rs) d :: ns) dd =>
      .ok (.inline t v (.text ({ r with text := text } :: rs) d :: ns) dd)
  | _ => .error "TypeError: addText"

namespace Children

/-- The method `addTextBlock()`: `this.currNode.addTextBlock(...)` exists only on a `TextNode`. -/
def addTextBlock (c : Children) : Except String Children :=
  match c.currTextBlock with
  | none => .ok c
  | some tb =>
    match c.currNode with
    | some (.text ranges d) =>
        .ok { c with currNode := some (.text (ranges ++ [tb]) d), currTextBlock := none }
    | _ => .error "TypeError: this.currNode.addTextBlock is not a function"

/-- The method `addCurrNode()`. -/
def addCurrNode (c : Children) : Except String Children :=
  match c.currNode with
  | none => .ok c
  | some (.text r d) => do
      let c1 ← addTextBlock c
      match c1.currNode with
      | some n => .ok { c1 with _nodes := c1._nodes ++ [n], currNode := none }
      | none => .ok { c1 with _nodes := c1._nodes ++ [.text r d], currNode := none }
  | some n => .ok { c with _nodes := c._nodes ++ [n], currNode := none }

/-- String value of an attribute (attribute values of inline tokens are strings). -/
def attrStr (attrs : Attrs) (k : String) (first : Bool) : String :=
  let hits := attrs.filter (fun p => p.1 == k)
  match (if first then hits.head? else hits.getLast?) with
  | some p => p.2.toStr
  | none => ""

/-- The method `createLink(token)`; `for (let attr of token.attrs)` throws on `null`. -/
def createLink (c : Children) (token : InlineToken) : Except String Children := do
  let c1 ← addCurrNode c
  match token.attrs with
  | none => .error "TypeError: token.attrs is not iterable"
  | some attrs =>
      .ok { c1 with currNode := some (LinkNode (attrStr attrs "href" false)
                                                (attrStr attrs "title" false)) }

/-- The method `createAbbr(token)`: the first `title` attribute is taken. -/
def createAbbr (c : Children) (token : InlineToken) : Except String Children := do
  let c1 ← addCurrNode c
  match token.attrs with
  | none => .error "TypeError: token.attrs is not iterable"
  | some attrs => .ok { c1 with currNode := some (AbbrNode (attrStr attrs "title" true)) }

/-- The method `createImage(token)`: `currNode` is assigned without a preceding
`addCurrNode()`. -/
def createImage (c : Children) (token : InlineToken) : Except String Children :=
  match token.attrs with
  | none => .error "TypeError: token.attrs is not iterable"
  | some attrs =>
      addCurrNode { c with currNode := some (ImageNode token.content
        (attrStr attrs "src" false) (attrStr attrs "title" false)) }

/-- The method `createAutocomplete(token)`; `token.meta.id` throws when `meta` is `null`. -/
def createAutocomplete (c : Children) (token : InlineToken) : Except String Children := do
  let c1 ← addCurrNode c
  match token.tmeta with
  | none => .error "TypeError: token.meta is null"
  | some m => do
      let n ← (AutocompleteNode m.id).addText token.content
      addCurrNode { c1 with currNode := some n }

/-- The method `createSoftbreak()`. -/
def createSoftbreak (c : Children) : Except String Children := do
  let c1 ← addCurrNode c
  addCurrNode { c1 with currNode := some SoftBreakNode }

/-- The method `addTextToNode(token)`. The guard `this.marks !== {}` compares two
distinct objects and is always true, so `setMarks` is always called on a text token.
The assignment `this.marks[token.markup] = true` creates a key unless the key exists;
for the key `__proto__` it runs the inherited setter, which ignores the value `true`,
and no key is created. -/
def addTextToNode (c : Children) (token : InlineToken) : Except String Children := do
  let lastElem := getLastElemTokenType token.type
  let c := match c.currNode with
    | none => { c with currNode := some (.text [] none) }
    | some _ => c
  let c ← if token.type == "code_inline" || token.type == "emoji" then do
      let c1 ← addTextBlock c
      addTextBlock { c1 with
        currTextBlock := some (TextBlock.new token.type token.markup token.content) }
    else .ok c
  let c := if lastElem == "open" && token.markup != "" then
      (if c.marks.contains token.markup || token.markup == "__proto__" then c
       else { c with marks := c.marks ++ [token.markup] })
    else c
  let tb := TextBlock.setMarks (TextBlock.new token.type token.markup token.content) c.marks
  let c ← if token.type == "text" then addTextBlock { c with currTextBlock := some tb }
    else .ok c
  let c := if lastElem == "close" && token.markup != "" then
      { c with marks := c.marks.filter (· != token.markup) }
    else c
  return c

/-- One iteration of the loop of `createNodes`: the `link_open` test is a separate
`if`, so a `link_open` token also runs through the `else if` chain below it. -/
def step (c : Children) (token : InlineToken) : Except String Children := do
  let c ← if token.type == "link_open" then createLink c token else .ok c
  if token.type == "abbr_open" then createAbbr c token
  else if token.type == "image" then createImage c token
  else if token.type == "autocomplete" then createAutocomplete c token
  else if token.type == "softbreak" then createSoftbreak c
  else if token.type == "text" &&
      (match c.currNode with
       | some n => n.type? == some "link" || n.type? == some "abbr"
       | none => false) then
    match c.currNode with
    | some n => do
        let n1 ← n.addText token.content
        .ok { c with currNode := some n1 }
    | none => .ok c
  else if token.type == "link_close" || token.type == "abbr_close" then addCurrNode c
  else addTextToNode c token

/-- The token loop of `createNodes`. -/
def loop (c : Children) : List InlineToken → Except String Children
  | [] => .ok c
  | t :: ts => do
      let c1 ← step c t
      loop c1 ts

/-- The method `createNodes(tokens)` run from the constructor; the result is `nodes`. -/
def createNodes (tokens : List InlineToken) : Except String (List Node) := do
  let c ← loop {} tokens
  match c.currNode with
  | none => .ok c._nodes
  | some _ => do
      let c1 ← if c.currTextBlock.isSome then addTextBlock c else .ok c
      let c2 ← addCurrNode c1
      .ok c2._nodes

end Children

/-! ## Block tree builder (`StateRender`) -/

/-- The module object `StateRender`; the default value is the state after `init()`. -/
structure StateRender where
  stack : List Node := []
  level : Int := 0
  currentBlock : Option Node := none
  blocks : List Node := []
  parentBlock : Option Node := none

/-- The replacement `content.replace(/\n$/, '')`: one line feed at the very end is removed. -/
def trimTrailingNewline (content : String) : String :=
  match content.data.reverse with
  | '\n' :: rest => String.mk rest.reverse
  | _ => content

/-- The five nesting counters of `preprocessing`. -/
structure Levels where
  blockquoteLevel : Int := 0
  bulletListLevel : Int := 0
  orderedListLevel : Int := 0
  ddLevel : Int := 0
  anchorLevel : Int := 0

/-- The final `else` branch of the loop body of `preprocessing`: counter update, or
the trim of code content; the position then advances. -/
def Levels.update (l : Levels) (token : Token) : Levels × Token :=
  if token.type == "blockquote_open" then ({ l with blockquoteLevel := l.blockquoteLevel + 1 }, token)
  else if token.type == "blockquote_close" then ({ l with blockquoteLevel := l.blockquoteLevel - 1 }, token)
  else if token.type == "bullet_list_open" then ({ l with bulletListLevel := l.bulletListLevel + 1 }, token)
  else if token.type == "bullet_list_close" then ({ l with bulletListLevel := l.bulletListLevel - 1 }, token)
  else if token.type == "ordered_list_open" then ({ l with orderedListLevel := l.orderedListLevel + 1 }, token)
  else if token.type == "ordered_list_close" then ({ l with orderedListLevel := l.orderedListLevel - 1 }, token)
  else if token.type == "dd_open" then ({ l with ddLevel := l.ddLevel + 1 }, token)
  else if token.type == "dd_close" then ({ l with ddLevel := l.ddLevel - 1 }, token)
  else if token.type == "anchor_open" then ({ l with anchorLevel := l.anchorLevel + 1 }, token)
  else if token.type == "anchor_close" then ({ l with anchorLevel := l.anchorLevel - 1 }, token)
  else if token.type == "code_block" || token.type == "fence" then
    (l, { token with content := trimTrailingNewline token.content })
  else (l, token)

/-- The loop of `preprocessing` from position `i` on, as a function of the tokens from
`i` on: the loop runs while `i + 1 < tokens.length`, so a last token is not visited. -/
def preprocessingFrom (l : Levels) : List Token → List Token
  | [] => []
  | [t] => [t]
  | token :: next :: rest =>
    if token.type == "empty" && token.level > 0 then
      preprocessingFrom l (next :: rest)
    else if (l.blockquoteLevel > 0 || l.bulletListLevel > 0 || l.orderedListLevel > 0
              || l.ddLevel > 0 || l.anchorLevel > 0)
            && (token.type == "paragraph_open" || token.type == "paragraph_close") then
      preprocessingFrom l (next :: rest)
    else if l.bulletListLevel > 1 && token.type == "bullet_list_close"
            && next.type == "bullet_list_open" then
      preprocessingFrom l rest
    else
      (l.update token).2 :: preprocessingFrom (l.update token).1 (next :: rest)

namespace StateRender

/-- The method `preprocessing(tokens)`; the array is edited in place, the result is
its final content. -/
def preprocessing (tokens : List Token) : List Token :=
  preprocessingFrom {} tokens

mutual
/-- The method `setRecursiveParent(nodes, parent)`. -/
def setRecursiveParent (parent : String) : List Node → List Node
  | [] => []
  | item :: rest => setRecursiveParentItem parent item :: setRecursiveParent parent rest
/-- The loop body of `setRecursiveParent` for one item. -/
def setRecursiveParentItem (parent : String) : Node → Node
  | .text r d => .text r (some { (d.getD {}) with parent := some parent })
  | .inline t v ns d =>
      .inline t v (setRecursiveParent (if TABLES.contains t then t else parent) ns)
        (some { (d.getD {}) with parent := some parent })
  | .block t ns d v tag a =>
      .block t (setRecursiveParent (if TABLES.contains t then t else parent) ns)
        (some { (d.getD {}) with parent := some parent }) v tag a
end

/-- Map with failure: the body of a `for ... of` loop that may throw. -/
def mapE {α β : Type} (f : α → Except String β) : List α → Except String (List β)
  | [] => .ok []
  | a :: as => do
      let b ← f a
      let bs ← mapE f as
      .ok (b :: bs)

/-- The initial value of `num`: `token.attrs && token.attrs.start ? token.attrs.start : 1`
for an ordered list, `1` otherwise. A string value is converted by `num++`; `Number(s)`
is modelled for decimal digit strings, anything else is `NaN`. -/
def startNum (token : Node) : JSNum :=
  if token.type? == some "ordered-list" then
    match token.attrs? with
    | some attrs =>
      match attrLookup attrs "start" with
      | some (.num n) => if n != 0 then some n else some 1
      | some (.str s) => if s != "" then s.toNat? else some 1
      | none => some 1
    | none => some 1
  else some 1

/-- The loop over the items of a list or blockquote in `postprocessing`:
`item.data.itemNum = num++` for an ordered list, then `postprocessing(item.nodes)`
(here `post`) when the item has a `nodes` field. -/
def itemsLoop (post : List Node → Except String (List Node)) (ordered : Bool) :
    JSNum → List Node → Except String (List Node)
  | _, [] => .ok []
  | num, item :: rest => do
      let item := item.setData (item.data?.getD {})
      let item := if ordered then
          item.setData { (item.data?.getD {}) with itemNum := some num } else item
      let item ← match item.nodes? with
        | some ns => do
            let ns1 ← post ns
            pure (item.setNodes ns1)
        | none => pure item
      let rest1 ← itemsLoop post ordered (if ordered then num.map (· + 1) else num) rest
      .ok (item :: rest1)

/-- The second loop of the `dl` case: retag `dt`/`dd` and replace the children of a
`dd` by `item.nodes[0].nodes`; with no first child the property access throws. A
first child without `nodes` (a text node) leaves `undefined`, modelled as `[]`. -/
def simplifyItem (item : Node) : Except String Node :=
  if item.type? == some "dt" then .ok (item.setType "dt-simple")
  else if item.type? == some "dd" then
    match (item.nodes?.getD []).head? with
    | some first => .ok ((item.setType "dd-simple").setNodes (first.nodes?.getD []))
    | none => .error "TypeError: Cannot read property 'nodes' of undefined"
  else .ok item

/-- The loop body of `postprocessing` for one token: `switch (token.type)`; `post` is
the recursive call `this.postprocessing` on the children of an item. -/
def postToken (post : List Node → Except String (List Node)) (token : Node) :
    Except String Node :=
  match token.type? with
  | none => .ok token
  | some type =>
    if TABLES.contains type then
      .ok (token.setNodes (setRecursiveParent type (token.nodes?.getD [])))
    else if LISTS_BLOCKQUOTES.contains type then do
      let items ← itemsLoop post (type == "ordered-list")
        (startNum token) (setRecursiveParent type (token.nodes?.getD []))
      .ok (token.setNodes items)
    else if type == "dl" then
      let isSimple := !(token.nodes?.getD []).any
        (fun item => item.type? == some "dd" && (item.nodes?.getD []).length > 1)
      if isSimple then do
        let items ← mapE simplifyItem (token.nodes?.getD [])
        .ok ((token.setType "dl-simple").setNodes items)
      else .ok token
    else .ok token

/-- The method `postprocessing(tokens)`, with the recursion depth as an explicit
bound (`postprocessing` below supplies the depth of the forest). -/
def postprocessingAux : Nat → List Node → Except String (List Node)
  | 0, tokens => .ok tokens
  | fuel + 1, tokens => mapE (postToken (postprocessingAux fuel)) tokens

mutual
/-- Nesting depth of a node. -/
def depth : Node → Nat
  | .text _ _ => 1
  | .inline _ _ ns _ => depthList ns + 1
  | .block _ ns _ _ _ _ => depthList ns + 1
/-- Nesting depth of a forest. -/
def depthList : List Node → Nat
  | [] => 0
  | n :: ns => max (depth n) (depthList ns)
end

/-- The method `postprocessing(tokens)`. -/
def postprocessing (tokens : List Node) : Except String (List Node) :=
  postprocessingAux (depthList tokens + 1) tokens

/-- The method `saveCurrentBlock()`. -/
def saveCurrentBlock (s : StateRender) : StateRender :=
  match s.currentBlock with
  | some cur =>
    match s.parentBlock with
    | some par => { s with parentBlock := some (par.pushNode cur), currentBlock := none }
    | none => { s with blocks := s.blocks ++ [cur], currentBlock := none }
  | none => s

/-- The method `moveParentBlockToCurrent()`; `stack.pop()` takes the last pushed block. -/
def moveParentBlockToCurrent (s : StateRender) : StateRender :=
  let s := match s.parentBlock with
    | some par => { s with currentBlock := some par, parentBlock := none }
    | none => s
  match s.stack.reverse with
  | top :: below => { s with parentBlock := some top, stack := below.reverse }
  | [] => s

/-- The method `createBlock(token)`. -/
def createBlock (s : StateRender) (token : Token) : StateRender :=
  let s := match s.currentBlock with
    | some cur =>
      let s := match s.parentBlock with
        | some par => { s with stack := s.stack ++ [par] }
        | none => s
      { s with parentBlock := some cur }
    | none => s
  { s with currentBlock := some (getBlockNode token), level := s.level + 1 }

/-- The method `closeBlock()`. -/
def closeBlock (s : StateRender) : StateRender :=
  moveParentBlockToCurrent (saveCurrentBlock { s with level := s.level - 1 })

/-- The method `addInlineToBlock(token)` (called after `token.tag = 'p'`); the caller
has read `this.currentBlock.type`, so `currentBlock` is set. -/
def addInlineToBlock (s : StateRender) (token : Token) : Except String StateRender := do
  let node := getBlockNode token
  let node ← match token.children with
    | some children => do
        let ns ← Children.createNodes children
        pure (node.setNodes ns)
    | none => pure node
  match s.currentBlock with
  | some cur => .ok { s with currentBlock := some (cur.pushNode node) }
  | none => .error "TypeError: Cannot read property 'nodes' of null"

/-- The method `addInlineText(token)`. -/
def addInlineText (s : StateRender) (token : Token) : Except String StateRender :=
  match token.children with
  | some children => do
      let ns ← Children.createNodes children
      match s.currentBlock with
      | some cur => .ok { s with currentBlock := some (cur.setNodes ns) }
      | none => .error "TypeError: Cannot set property 'nodes' of null"
  | none => .ok s

/-- The method `addCodeBlock(token)`. -/
def addCodeBlock (s : StateRender) (token : Token) : Except String StateRender :=
  let blockNode := (getBlockNode token).pushNode
    (.text [TextBlock.new "" "" token.content] none)
  if s.level == 0 then
    .ok (saveCurrentBlock { s with currentBlock := some blockNode })
  else
    match s.currentBlock with
    | some cur => .ok { s with currentBlock := some (cur.pushNode blockNode) }
    | none => .error "TypeError: Cannot read property 'nodes' of null"

/-- The method `addHRBlock(token)`: `currentBlock` is assigned, then saved. -/
def addHRBlock (s : StateRender) (token : Token) : StateRender :=
  saveCurrentBlock { s with currentBlock := some (getBlockNode token) }

/-- The loop body of `processing` for one token, given `previousType`. -/
def processToken (s : StateRender) (previousType : String) (token : Token) :
    Except String StateRender :=
  if token.type != "" then
    let lastElem := getLastElemTokenType token.type
    if lastElem == "open" then .ok (createBlock s token)
    else if token.type == "inline" && previousType != "empty" then
      match s.currentBlock with
      | none => .error "TypeError: Cannot read property 'type' of null"
      | some cur =>
        if cur.type? == some "dd" || cur.type? == some "blockquote" then
          addInlineToBlock s { token with tag := "p" }
        else addInlineText s token
    else if lastElem == "close" then .ok (closeBlock s)
    else if token.tag == "code" then addCodeBlock s token
    else if token.type == "hr" || token.type == "empty" || token.type == "abbr-def" then
      .ok (addHRBlock s token)
    else .ok s
  else .ok s

/-- The method `processing(tokens)`, started with the given `previousType`. -/
def processingFrom (s : StateRender) (previousType : String) :
    List Token → Except String StateRender
  | [] => .ok s
  | token :: rest => do
      let s1 ← processToken s previousType token
      processingFrom s1 token.type rest

/-- The method `processing(tokens)`. -/
def processing (s : StateRender) (tokens : List Token) : Except String StateRender :=
  processingFrom s "" tokens

/-- The method `parse(tokens)`: preprocessing, processing, postprocessing of
`this.blocks`; the result is `this.blocks`. -/
def parse (s : StateRender) (tokens : List Token) : Except String (List Node) := do
  let s1 ← processing s (preprocessing tokens)
  postprocessing s1.blocks

/-- The method `render(markdownData, rules)`: `init()`, tokenization by the external
tokenizer, `parse`. -/
def render (tokenize : String → Except String (List Token)) (markdownData : String) :
    Except String (List Node) := do
  let tokens ← tokenize markdownData
  parse {} tokens

end StateRender

/-! ## Parse entry (`MDParser`) -/

/-- The literal fragment assigned in both fallback branches of `MDParser.parse`. -/
def emptyParagraph : List Node :=
  [.block "paragraph" [.text [{ text := "" }] none] none false none none]

/-- The function `MDParser.parse(src, options)`; `options` only reaches the tokenizer. -/
def MDParser.parse (tokenize : String → Except String (List Token)) (src : String) :
    Document :=
  if src == "" then { nodes := emptyParagraph }
  else
    match StateRender.render tokenize src with
    | .ok fragment => { nodes := fragment }
    | .error _ => { nodes := emptyParagraph }

/-! ## `MarkdownRenderer.js`: string helpers -/

/-- The pieces of `s.split(sep)` for a one-character separator, on characters. -/
def splitChars (sep : Char) : List Char → List (List Char)
  | [] => [[]]
  | c :: cs =>
    if c == sep then [] :: splitChars sep cs
    else
      match splitChars sep cs with
      | [] => [[c]]
      | piece :: pieces => (c :: piece) :: pieces

/-- The call `s.split('\n')`. -/
def splitLines (s : String) : List String :=
  (splitChars '\n' s.data).map String.mk

/-- The call `arr.join(sep)`. -/
def jsJoin (sep : String) : List String → String
  | [] => ""
  | [a] => a
  | a :: b :: rest => a ++ sep ++ jsJoin sep (b :: rest)

/-- The call `s.replace('\n\n', '\n')` with a string pattern: only the first occurrence
is replaced. -/
def replaceFirstBlank : List Char → List Char
  | '\n' :: '\n' :: rest => '\n' :: rest
  | c :: rest => c :: replaceFirstBlank rest
  | [] => []

/-- White space and line terminators, as `String.prototype.trim` strips them. -/
def isJsSpace (c : Char) : Bool :=
  c == ' ' || c == '\t' || c == '\n' || c == '\r' || c.toNat == 0x0B || c.toNat == 0x0C
  || c.toNat == 0xA0 || c.toNat == 0x1680 || (0x2000 ≤ c.toNat && c.toNat ≤ 0x200A)
  || c.toNat == 0x2028 || c.toNat == 0x2029 || c.toNat == 0x202F || c.toNat == 0x205F
  || c.toNat == 0x3000 || c.toNat == 0xFEFF

/-- The call `s.trimRight()`. -/
def jsTrimRight (s : String) : String :=
  String.mk (s.data.reverse.dropWhile isJsSpace).reverse

/-- The call `s.trim()`. -/
def jsTrim (s : String) : String :=
  String.mk ((s.data.dropWhile isJsSpace).reverse.dropWhile isJsSpace).reverse

/-- Template-literal interpolation of a possibly `undefined` string. -/
def interp (v : Option String) : String := v.getD "undefined"

/-! ## Leaf-text escaping (`serializeString`) -/

/-- After the marker alternative of the first pattern: `( |$)`. -/
def spaceOrEnd : List Char → Bool
  | [] => true
  | c :: _ => c == ' '

/-- The alternatives ` +\+`, ` +-`, ` +\*`, ` +[0-9]\.`, ` +[0-9]\)`, ` +[a-z]\.`, ` +[a-z]\)`,
` +[A-Z]\.`, ` +[A-Z]\)` after the run of spaces, each followed by `( |$)`. -/
def markerAfterSpaces : List Char → Bool
  | c :: rest =>
    ((c == '+' || c == '-' || c == '*') && spaceOrEnd rest)
    || ((('0' ≤ c && c ≤ '9') || ('a' ≤ c && c ≤ 'z') || ('A' ≤ c && c ≤ 'Z'))
        && (match rest with
            | d :: rest2 => (d == '.' || d == ')') && spaceOrEnd rest2
            | [] => false))
  | [] => false

/-- Whether the first pattern of `serializeString`,
`/^((#+|(> *)+| +\+| +-| +\*| +[0-9]\.| +[0-9]\)| +[a-z]\.| +[a-z]\)| +[A-Z]\.| +[A-Z]\))( |$))/`,
matches the text. `#+`: the whole run of `#` must be followed by a space or the end.
`(> *)+`: the groups cover the longest prefix made of `>` and spaces; a match exists
when that prefix is the whole text or holds a space (the last group gives it back).
The other alternatives need at least one leading space. -/
def leadingMarker (cs : List Char) : Bool :=
  match cs with
  | '#' :: _ => spaceOrEnd (cs.dropWhile (· == '#'))
  | '>' :: _ =>
    let pre := cs.takeWhile (fun c => c == '>' || c == ' ')
    pre.contains ' ' || pre.length == cs.length
  | ' ' :: _ => markerAfterSpaces (cs.dropWhile (· == ' '))
  | _ => false

/-- The first replacement: `'\\$1'` puts one backslash before the match, which starts
the text. -/
def escapeLeading (cs : List Char) : List Char :=
  if leadingMarker cs then '\\' :: cs else cs

/-- The delimiter alternatives of the second pattern, in their order. -/
def delimiters : List (List Char) :=
  [['+', '+'], ['+'], ['-', '-'], ['-'], ['*', '*'], ['*'], ['`'], ['~', '~'], ['~'], ['^']]

/-- Line terminators: the characters `.` does not match. -/
def isLineTerminator (c : Char) : Bool :=
  c == '\n' || c == '\r' || c.toNat == 0x2028 || c.toNat == 0x2029

/-- The largest `k` such that `d` occurs at offset `k` of `cs`. -/
def lastOccurrence (d : List Char) : List Char → Option Nat
  | [] => none
  | c :: cs =>
    match lastOccurrence d cs with
    | some k => some (k + 1)
    | none => if d.isPrefixOf (c :: cs) then some 0 else none

/-- A match of `d(.+)d` at the start of `cs` for one delimiter `d`: the greedy `.+`
ends before the last occurrence of `d` on the line; the result is the body and the
text after the closing delimiter. -/
def matchDelimiter (d cs : List Char) : Option (List Char × List Char) :=
  if d.isPrefixOf cs then
    let after := cs.drop d.length
    match after.takeWhile (fun c => !isLineTerminator c) with
    | [] => none
    | _ :: line =>
      match lastOccurrence d line with
      | some k => some (after.take (k + 1), after.drop (k + 1 + d.length))
      | none => none
  else none

/-- A match of the second pattern at the start of `cs`: the first alternative that
matches. -/
def matchWrapped (cs : List Char) : List (List Char) → Option (List Char × List Char × List Char)
  | [] => none
  | d :: ds =>
    match matchDelimiter d cs with
    | some (body, rest) => some (d, body, rest)
    | none => matchWrapped cs ds

/-- The second replacement, `/(\+\+|\+|--|-|\*\*|\*|`|~~|~|\^)(.+)\1/g` by `'\\$1$2\\$1'`,
scanning from the left; `fuel` bounds the number of steps (the length suffices). -/
def escapeWrappedAux : Nat → List Char → List Char
  | 0, cs => cs
  | _, [] => []
  | fuel + 1, c :: cs =>
    match matchWrapped (c :: cs) delimiters with
    | some (d, body, rest) => ('\\' :: d) ++ body ++ ('\\' :: d) ++ escapeWrappedAux fuel rest
    | none => c :: escapeWrappedAux fuel cs

/-- The second replacement of `serializeString`. -/
def escapeWrapped (cs : List Char) : List Char :=
  escapeWrappedAux (cs.length + 1) cs

/-- The eight typographic replacements, each global. -/
def typographic (c : Char) : List Char :=
  if c == '©' then "(C)".data
  else if c == '®' then "(R)".data
  else if c == '™' then "(TM)".data
  else if c == '§' then "(P)".data
  else if c == '±' then "+-".data
  else if c == '–' then "--".data
  else if c == '—' then "---".data
  else if c == '…' then "...".data
  else [c]

/-- The value `strVal` of `serializeString` after all replacements. -/
def escapeText (text : String) : String :=
  String.mk ((escapeWrapped (escapeLeading text.data)).flatMap typographic)

/-- The method `serializeString(string)`: only the first rule (`kind === 'string'`)
answers, and an empty `strVal` is falsy, so the result is `undefined`. -/
def serializeString (text : String) : Option String :=
  if escapeText text != "" then some (escapeText text) else none

/-! ## Serializer rules (`RULES`) -/

/-- The mark rule (`obj.kind === 'mark'`): `children` may be `undefined` and is then
interpolated as the text `undefined`; a type without a case gives `undefined`. -/
def markRule (mark : Mark) (children : Option String) : Option String :=
  let markup := mark.markup
  match mark.type with
  | some "bold" =>
      let markup := if markup != "" then markup else "**"
      some (markup ++ interp children ++ markup)
  | some "italic" =>
      let markup := if markup != "" then markup else "*"
      some (markup ++ interp children ++ markup)
  | some "code" => some ("`" ++ interp children ++ "`")
  | some "insert" => some ("++" ++ interp children ++ "++")
  | some "sup" => some ("^" ++ interp children ++ "^")
  | some "sub" => some ("~" ++ interp children ++ "~")
  | some "strikethrough" => some ("~~" ++ interp children ++ "~~")
  | some "mark" => some ("==" ++ interp children ++ "==")
  | _ => none

/-- The method `serializeRange(range)`: the marks are folded over the escaped text;
a range without marks has the empty set. -/
def serializeRange (range : TextBlock) : Option String :=
  (range.marks.getD []).foldl (fun children mark => markRule mark children)
    (serializeString range.text)

/-- The bullet table of the `list-item` rule. -/
def bullets : List String := ["+", "+", "-", "-", "*", "*", "-", "+", "-", "*"]

/-- The bullet `[...][mod]` with `mod = level % 10`: `undefined` when the level is
missing (`NaN`) or the remainder is negative. -/
def levelBullet (level : Option Int) : Option String :=
  match level with
  | some l => if 0 ≤ l.tmod 10 then bullets.get? (l.tmod 10).toNat else none
  | none => none

/-- The prefix `pref` of an unordered list item: the recorded markup when truthy,
else the bullet of the level. -/
def bulletPrefix (data : Data) : String :=
  if (data.markup.getD "") != "" then data.markup.getD "" else interp (levelBullet data.level)

/-- Template-literal rendering of `data.itemNum`. -/
def itemNumStr (data : Data) : String :=
  match data.itemNum with
  | some (some n) => toString n
  | some none => "NaN"
  | none => "undefined"

/-- The `blockquote` case: every line is prefixed by `> `. -/
def blockquoteRule (children : String) : String :=
  "\n" ++ jsJoin "\n" ((splitLines children).map (fun l => "> " ++ l))

/-- The `ordered-list` / `unordered-list` case. -/
def listRule (children : String) : String :=
  let children := String.mk (replaceFirstBlank children.data)
  let arrChildren := (splitLines children).map (fun l => if l != "" then "    " ++ l else l)
  let children := jsJoin "\n" arrChildren
  let children := String.mk (replaceFirstBlank children.data)
  "\n" ++ children

/-- The `dd` case: the first line gets `:    `, later non-empty lines five spaces. -/
def ddRule (children : String) : String :=
  let arrChildren := (splitLines children).enum.map (fun (i, l) =>
    if l != "" then (if i == 0 then ":    " ++ l else "     " ++ l) else l)
  jsJoin "\n" arrChildren ++ "\n"

/-- The count `obj.nodes.get(0).nodes.size` of the `thead` case; without a first
child, or with a first child that has no `nodes`, the access throws. -/
def columnsCount (nodes : List Node) : Except String Nat :=
  match nodes with
  | first :: _ =>
    match first.nodes? with
    | some ns => .ok ns.length
    | none => .error "TypeError: Cannot read property 'size' of undefined"
  | [] => .error "TypeError: Cannot read property 'nodes' of undefined"

/-- The block rule (`obj.kind === 'block'`): `switch (obj.type)`. -/
def blockRule (type : String) (nodes : List Node) (data : Data) (children : String) :
    Except String (Option String) :=
  match type with
  | "heading1" => .ok (some ("# " ++ children))
  | "heading2" => .ok (some ("## " ++ children))
  | "heading3" => .ok (some ("### " ++ children))
  | "heading4" => .ok (some ("#### " ++ children))
  | "heading5" => .ok (some ("##### " ++ children))
  | "heading6" => .ok (some ("###### " ++ children))
  | "paragraph" => .ok (some (children ++ "\n"))
  | "horizontal-rule" => .ok (some "---")
  | "hr" => .ok (some "---")
  | "code" => .ok (some ("```\n" ++ children ++ "\n```\n"))
  | "blockquote" => .ok (some (blockquoteRule children))
  | "ordered-list" => .ok (some (listRule children))
  | "unordered-list" => .ok (some (listRule children))
  | "list-item" =>
      if data.parent == some "unordered-list" then
        .ok (some (bulletPrefix data ++ " " ++ children ++ "\n"))
      else .ok (some (itemNumStr data ++ ". " ++ children ++ "\n"))
  | "table" => .ok (some children)
  | "thead" => do
      let n ← columnsCount nodes
      .ok (some (children ++ "|" ++ String.join (List.replicate n " --------- |")))
  | "tbody" => .ok (some ("\n" ++ children))
  | "tr" => .ok (some ("| " ++ children ++ "\n"))
  | "th" => .ok (some (children ++ " |"))
  | "td" => .ok (some (children ++ " |"))
  | "dl-simple" => .ok (some children)
  | "dl" => .ok (some children)
  | "dt-simple" => .ok (some (children ++ "\n"))
  | "dt" => .ok (some (children ++ "\n"))
  | "dd-simple" => .ok (some ("  ~ " ++ children ++ "\n"))
  | "dd" => .ok (some (ddRule children))
  | "anchor" => .ok (some ("[^" ++ interp data.label ++ "]: " ++ children))
  | _ => .ok none

/-- One entry `{title, use}` of the table `abbreviations`. -/
structure Abbr where
  title : Option String
  use : Bool
deriving DecidableEq, Repr

/-- The module state of the serializer: the table `abbreviations` and the flag
`hasNewAbbr`. The default value is the state at module load. The keys are kept in
insertion order, which is the order in which `for (let key in abbreviations)` visits
keys that are not integer-like. -/
structure AbbrState where
  abbreviations : List (String × Abbr) := []
  hasNewAbbr : Bool := false
deriving DecidableEq, Repr

/-- The property names every object inherits from `Object.prototype`: for these keys
`abbreviations[key]` is truthy although nothing was stored. -/
def objectPrototypeKeys : List String :=
  ["constructor", "toString", "toLocaleString", "valueOf", "hasOwnProperty",
   "isPrototypeOf", "propertyIsEnumerable", "__proto__", "__defineGetter__",
   "__defineSetter__", "__lookupGetter__", "__lookupSetter__"]

/-- Truthiness of `abbreviations[key]`. -/
def AbbrState.has (st : AbbrState) (key : String) : Bool :=
  st.abbreviations.any (fun e => e.1 == key) || objectPrototypeKeys.contains key

/-- The inline rule (`obj.kind === 'inline'`) with its effect on the module state. -/
def inlineRule (st : AbbrState) (type : String) (data : Data) (children : String) :
    Option String × AbbrState :=
  match type with
  | "link" => (some ("[" ++ children ++ "](" ++ interp data.href ++ ")"), st)
  | "abbr" =>
      let st := if !st.has children then
          { abbreviations := st.abbreviations ++ [(children, { title := data.title, use := false })],
            hasNewAbbr := true }
        else st
      (some children, st)
  | "image" =>
      (some ("![" ++ interp data.title ++ "](" ++ interp data.src ++ " \"" ++ interp data.alt ++ "\")"), st)
  | _ => (none, st)

/-- The definition lines appended for the unused entries, in key order. -/
def abbrLines (abbreviations : List (String × Abbr)) : String :=
  String.join ((abbreviations.filter (fun e => !e.2.use)).map
    (fun e => "*[" ++ e.1 ++ "]: " ++ interp e.2.title ++ "\n"))

/-- The tail of the rule loop of `serializeNode` for a truthy `ret`: when the node has
`data.level === 0` and `hasNewAbbr` is set, the unused definitions are appended and
marked used. -/
def appendAbbrs (st : AbbrState) (data : Data) (ret : String) : String × AbbrState :=
  if data.level == some 0 && st.hasNewAbbr then
    (ret ++ abbrLines st.abbreviations,
     { abbreviations := st.abbreviations.map (fun e => (e.1, { e.2 with use := true })),
       hasNewAbbr := false })
  else (ret, st)

/-- The test `if (ret)` of the rule loop: an empty string is falsy and no later rule
answers for the node, so the result is `undefined`. -/
def finishNode (st : AbbrState) (data : Data) (ret : Option String) :
    Option String × AbbrState :=
  match ret with
  | some r => if r != "" then ((appendAbbrs st data r).1 |> some, (appendAbbrs st data r).2)
              else (none, st)
  | none => (none, st)

/-- The value `children.flatten().join('')`: `undefined` entries join as empty text. -/
def joinDefined : List (Option String) → String
  | [] => ""
  | r :: rets => r.getD "" ++ joinDefined rets

mutual
/-- The method `serializeNode(node)`: a text node gives the list of its serialized
ranges, any other node the one value of its rule (or `undefined`). -/
def serializeNode (st : AbbrState) : Node → Except String (List (Option String) × AbbrState)
  | .text ranges _ => .ok (ranges.map serializeRange, st)
  | .inline type _ nodes data => do
      let r ← serializeNodes st nodes
      let out := inlineRule r.2 type (data.getD {}) r.1
      let fin := finishNode out.2 (data.getD {}) out.1
      .ok ([fin.1], fin.2)
  | .block type nodes data _ _ _ => do
      let r ← serializeNodes st nodes
      let ret ← blockRule type nodes (data.getD {}) r.1
      let fin := finishNode r.2 (data.getD {}) ret
      .ok ([fin.1], fin.2)
/-- The value `children` of `serializeNode`: the children serialized in order and joined. -/
def serializeNodes (st : AbbrState) : List Node → Except String (String × AbbrState)
  | [] => .ok ("", st)
  | n :: ns => do
      let r ← serializeNode st n
      let rs ← serializeNodes r.2 ns
      .ok (joinDefined r.1 ++ rs.1, rs.2)
end

/-- The map `document.nodes.map(this.serializeNode)` of `serialize`, one text per
top-level node (`undefined` joins as empty text). -/
def serializeElements (st : AbbrState) : List Node → Except String (List String × AbbrState)
  | [] => .ok ([], st)
  | n :: ns => do
      let r ← serializeNode st n
      let rs ← serializeElements r.2 ns
      .ok (joinDefined r.1 :: rs.1, rs.2)

/-- The method `serialize(state)`: the elements joined by a line break, trimmed;
the module state on entry is `st`, the state left behind is returned with the text. -/
def serialize (st : AbbrState) (document : Document) : Except String (String × AbbrState) := do
  let r ← serializeElements st document.nodes
  .ok (jsTrim (jsJoin "\n" r.1), r.2)

/-! ## The serializer test (`RichMarkdownSerializer.spec.js`) -/

/-- The test helper `trimStr(str)`: `trimRight()` on every line. -/
def trimStr (str : String) : String :=
  jsJoin "\n" ((splitLines str).map jsTrimRight)

/-- The test helper `reparser(str)`: `serialize(deserialize(str))` on a freshly loaded
serializer. `deserialize` is `MDParser.parse` followed by `Raw.deserialize`, which is
taken to hand over the tree as built (it does so for blocks that hold one plain run). -/
def reparser (tokenize : String → Except String (List Token)) (str : String) :
    Except String String :=
  (serialize {} (MDParser.parse tokenize str)).map (·.1)

/-! ## Token streams used in the statements -/

/-- A text token. -/
def textToken (t : String) : InlineToken := { type := "text", content := t }

/-- The inline token of a block whose content is the plain text `t`. -/
def inlineToken (level : Int) (t : String) : Token :=
  { type := "inline", level := level, content := t, children := some [textToken t] }

/-- The text of `n` characters `#`. -/
def hashes (n : Nat) : String := String.mk (List.replicate n '#')

/-- The token stream of a level-`n` heading with text `t`: heading open with tag
`hn`, one inline token with the single text child `t`, heading close. -/
def headingTokens (n : Nat) (t : String) : List Token :=
  [{ type := "heading_open", tag := "h" ++ toString n, markup := hashes n },
   inlineToken 1 t,
   { type := "heading_close", tag := "h" ++ toString n, markup := hashes n }]

/-- The token stream of a top-level paragraph with text `t`. -/
def paragraphTokens (t : String) : List Token :=
  [{ type := "paragraph_open", tag := "p" }, inlineToken 1 t,
   { type := "paragraph_close", tag := "p" }]

/-- A token stream on which tree construction fails: an `inline` token with no open
block (`this.currentBlock.type` is read on `null`). -/
def strayInline : List Token := [inlineToken 0 "x"]

/-- A token stream with a definition list whose description has no child block, as
for a description that holds only a link reference definition. -/
def emptyDescriptionTokens : List Token :=
  [{ type := "dl_open", tag := "dl" },
   { type := "dt_open", tag := "dt", level := 1 }, inlineToken 2 "Term",
   { type := "dt_close", tag := "dt", level := 1 },
   { type := "dd_open", tag := "dd", level := 1 },
   { type := "dd_close", tag := "dd", level := 1 },
   { type := "dl_close", tag := "dl" }]

/-- The block built for a level-`n` heading with plain text `t`. -/
def headingBlock (n : Nat) (t : String) : Node :=
  .block ("heading" ++ toString n) [.text [{ text := t, marks := some [] }] none]
    (some { level := some 0 }) false (some ("h" ++ toString n)) none

/-- The block built for a top-level paragraph with plain text `t`. -/
def paragraphBlock (t : String) : Node :=
  .block "paragraph" [.text [{ text := t, marks := some [] }] none]
    (some { level := some 0 }) false (some "p") none

/-- Markdown text of a level-`n` heading line `h` followed by the paragraphs `ps`,
separated by one blank line. -/
def headingThenParagraphs (n : Nat) (h : String) (ps : List String) : String :=
  hashes n ++ " " ++ h ++ "\n" ++ jsJoin "\n\n" ps

/-- The token stream of that text: the heading, then each paragraph. -/
def headingThenParagraphsTokens (n : Nat) (h : String) (ps : List String) : List Token :=
  headingTokens n h ++ (ps.map paragraphTokens).flatten

/-- The text ends with a character that `trim` does not strip. -/
def endsVisible (t : String) : Bool :=
  match t.data.reverse with
  | c :: _ => !isJsSpace c
  | [] => false

/-- The token stream of a tight ordered list whose items are the plain texts `items`;
`start` is the declared start value (markdown-it records it as the attribute `start`
when the first marker is not `1`). -/
def orderedListTokens (start : Option Nat) (items : List String) : List Token :=
  [{ type := "ordered_list_open", tag := "ol", markup := ".",
     attrs := start.map (fun s => [("start", AttrVal.num s)]) }]
  ++ (items.map (fun t =>
      [{ type := "list_item_open", tag := "li", level := 1, markup := "." },
       { type := "paragraph_open", tag := "p", level := 2 },
       inlineToken 3 t,
       { type := "paragraph_close", tag := "p", level := 2 },
       { type := "list_item_close", tag := "li", level := 1, markup := "." }])).flatten
  ++ [{ type := "ordered_list_close", tag := "ol", markup := "." }]

/-- The values `data.itemNum` of the children of a node, in order. -/
def itemNums (list : Node) : List (Option JSNum) :=
  (list.nodes?.getD []).map (fun item => (item.data?.getD {}).itemNum)

mutual
/-- Whether an `abbr` inline node occurs in the node. -/
def hasAbbr : Node → Bool
  | .text _ _ => false
  | .inline type _ nodes _ => type == "abbr" || hasAbbrList nodes
  | .block _ nodes _ _ _ _ => hasAbbrList nodes
/-- Whether an `abbr` inline node occurs in the forest. -/
def hasAbbrList : List Node → Bool
  | [] => false
  | n :: ns => hasAbbr n || hasAbbrList ns
end

/-- The token stream of a top-level paragraph that is one abbreviation reference with
the given label and title. -/
def abbrParagraphTokens (label title : String) : List Token :=
  [{ type := "paragraph_open", tag := "p" },
   { type := "inline", level := 1, content := label,
     children := some [{ type := "abbr_open", attrs := some [("title", AttrVal.str title)] },
                       textToken label, { type := "abbr_close" }] },
   { type := "paragraph_close", tag := "p" }]

/-- The block built for that paragraph. -/
def abbrParagraph (label title : String) : Node :=
  .block "paragraph"
    [.inline "abbr" false [.text [{ text := label }] none] (some { title := some title })]
    (some { level := some 0 }) false (some "p") none

/-- The block types whose case of the block rule returns a text that is never empty. -/
def ruledBlockTypes : List String :=
  ["heading1", "heading2", "heading3", "heading4", "heading5", "heading6", "paragraph",
   "horizontal-rule", "hr", "code", "blockquote", "ordered-list", "unordered-list",
   "list-item", "tbody", "tr", "th", "td", "dt-simple", "dt", "dd-simple", "dd", "anchor"]

/-- The block types whose case of the block rule returns the children as they are. -/
def passThroughBlockTypes : List String := ["table", "dl-simple", "dl"]

/-- The void block types that have no case in the block rule. -/
def unruledVoidBlockTypes : List String := ["empty", "abbr-def"]

/-- The inline stream of a paragraph `a`, a custom placeholder `$term`, a soft break
and `b`. -/
def placeholderStream : List InlineToken :=
  [textToken "a",
   { type := "autocomplete", content := "$term", tmeta := some { id := some "term" } },
   { type := "softbreak" },
   textToken "b"]

/-- The inline nodes built for `placeholderStream`. -/
def placeholderNodes : List Node :=
  [.text [{ text := "a", marks := some [] }] none,
   .inline "autocomplete" false [.text [{ text := "$term" }] none] (some { id := some "term" }),
   SoftBreakNode,
   .text [{ text := "b", marks := some [] }] none]

/-- The inline stream of one marked text: open with markup `d`, text `t`, close with
markup `d`; `name` is the token name (`strong`, `em`, `ins`, `mark`, `sup`, `s`, `sub`). -/
def markStream (name d t : String) : List InlineToken :=
  [{ type := name ++ "_open", markup := d }, textToken t,
   { type := name ++ "_close", markup := d }]

/-- An image token with the given label and source and, when `title` is given, a
title attribute. -/
def imageToken (label src : String) (title : Option String) : InlineToken :=
  { type := "image", content := label,
    attrs := some ([("src", AttrVal.str src), ("alt", AttrVal.str "")]
      ++ (match title with
          | some t => [("title", AttrVal.str t)]
          | none => [])) }

/-- A fenced code token with the literal content `t`. -/
def fenceToken (t : String) : Token :=
  { type := "fence", tag := "code", markup := "```", content := t }

/-- The block built for a fenced code token with content `t`. -/
def codeBlock (t : String) : Node :=
  .block "code" [.text [{ text := t }] none]
    (some { markup := some "```", level := some 0 }) false (some "code") none

/-- A link-open token with the given target. -/
def linkOpen (href : String) : InlineToken :=
  { type := "link_open", attrs := some [("href", AttrVal.str href)] }

/-- The one-character delimiters of the second pattern of `serializeString`; every
delimiter is made of these characters. -/
def delimiterChars : List Char := ['+', '-', '*', '`', '~', '^']

/-- Token name and delimiter of the marks whose parser type has a case in the mark
rule: every delimiter of `markups` except `++`. -/
def ruledMarks : List (String × String) :=
  [("strong", "**"), ("strong", "__"), ("mark", "=="), ("em", "*"), ("em", "_"),
   ("sup", "^"), ("s", "~~"), ("sub", "~")]

/-- The token stream of a blockquote that holds a bullet list with one item `a`
(markdown `> - a`). -/
def blockquoteListTokens : List Token :=
  [{ type := "blockquote_open", tag := "blockquote", markup := ">" },
   { type := "bullet_list_open", tag := "ul", level := 1, markup := "-" },
   { type := "list_item_open", tag := "li", level := 2, markup := "-" },
   { type := "paragraph_open", tag := "p", level := 3 },
   inlineToken 4 "a",
   { type := "paragraph_close", tag := "p", level := 3 },
   { type := "list_item_close", tag := "li", level := 2, markup := "-" },
   { type := "bullet_list_close", tag := "ul", level := 1, markup := "-" },
   { type := "blockquote_close", tag := "blockquote", markup := ">" }]

/-- The forest built for `blockquoteListTokens`. -/
def blockquoteListForest : List Node :=
  [.block "blockquote"
    [.block "unordered-list"
      [.block "list-item"
        [.text [{ text := "a", marks := some [] }] (some { parent := some "blockquote" })]
        (some { markup := some "-", level := some 2, parent := some "blockquote" })
        false (some "li") none]
      (some { level := some 1, parent := some "blockquote" }) false (some "ul") none]
    (some { level := some 0 }) false (some "blockquote") none]

/-- The token stream of a blockquote that holds a paragraph `a` and a horizontal rule
(markdown `> a` / `>` / `> ***`). -/
def blockquoteRuleTokens : List Token :=
  [{ type := "blockquote_open", tag := "blockquote", markup := ">" },
   { type := "paragraph_open", tag := "p", level := 1 },
   inlineToken 2 "a",
   { type := "paragraph_close", tag := "p", level := 1 },
   { type := "hr", tag := "hr", level := 1, markup := "***" },
   { type := "blockquote_close", tag := "blockquote", markup := ">" }]

/-- The inline stream of `see `, an autolinked address (link tokens with markup
`linkify`) and ` now`. -/
def linkifyStream : List InlineToken :=
  [textToken "see ",
   { type := "link_open", markup := "linkify",
     attrs := some [("href", AttrVal.str "http://x.com")] },
   textToken "http://x.com",
   { type := "link_close", markup := "linkify" },
   textToken " now"]

mutual
/-- The node and all its descendants, each paired with the types of its proper
ancestors from the root down; `chain` holds the ancestors of the node itself. -/
def nodeDescendants (chain : List String) : Node → List (List String × Node)
  | .text r d => [(chain, .text r d)]
  | .inline t v ns d => (chain, .inline t v ns d) :: listDescendants (chain ++ [t]) ns
  | .block t ns d v tag a =>
      (chain, .block t ns d v tag a) :: listDescendants (chain ++ [t]) ns
/-- The descendants of the nodes of a list, whose ancestors are `chain`. -/
def listDescendants (chain : List String) : List Node → List (List String × Node)
  | [] => []
  | n :: ns => nodeDescendants chain n ++ listDescendants chain ns
end

/-- The type of the nearest ancestor among table, thead and tbody, for the ancestor
types `chain` given from the root down. -/
def nearestTableAncestor (chain : List String) : Option String :=
  (chain.filter (fun t => TABLES.contains t)).getLast?

/-- The value `node.data.parent`. -/
def Node.parent? (n : Node) : Option String :=
  n.data?.bind (fun d => d.parent)

/-- A table with a header row and a body row whose cell holds a nested table. -/
def nestedTable : Node :=
  .block "table"
    [.block "thead"
       [.block "tr" [.block "th" [.text [{ text := "h" }] none] none false none none]
          none false none none]
       none false none none,
     .block "tbody"
       [.block "tr"
          [.block "td"
             [.block "table"
                [.block "tbody"
                   [.block "tr" [.block "td" [.text [{ text := "x" }] none] none false none none]
                      none false none none]
                   none false none none]
                none false none none]
             none false none none]
          none false none none]
       none false none none]
    (some { level := some 0 }) false (some "table") none

/-- The nesting structure of a stream made of open and close tokens: an open token,
the streams nested directly in it, and its close token. -/
inductive TokenTree where
  | node (opening closing : Token) (children : List TokenTree)

mutual
/-- The token stream of a tree: open token, nested streams, close token. -/
def TokenTree.tokens : TokenTree → List Token
  | .node o c children => o :: (forestTokens children ++ [c])
/-- The token stream of a forest, its trees in order. -/
def forestTokens : List TokenTree → List Token
  | [] => []
  | t :: ts => t.tokens ++ forestTokens ts
end

mutual
/-- The block of a tree: the block of its open token, whose children are the blocks
of the trees nested directly in it, in order. -/
def TokenTree.block : TokenTree → Node
  | .node o _ children => (getBlockNode o).setNodes (forestBlocks children)
/-- The blocks of a forest, in order. -/
def forestBlocks : List TokenTree → List Node
  | [] => []
  | t :: ts => t.block :: forestBlocks ts
end

mutual
/-- Every opening token of the tree has a type ending in `open`, every closing token a
type ending in `close`. -/
def TokenTree.wellFormed : TokenTree → Bool
  | .node o c children =>
      getLastElemTokenType o.type == "open" && getLastElemTokenType c.type == "close"
        && forestWellFormed children
/-- Well-formedness of every tree of a forest. -/
def forestWellFormed : List TokenTree → Bool
  | [] => true
  | t :: ts => t.wellFormed && forestWellFormed ts
end

/-- The state of `StateRender` while the blocks `ctx` are open, innermost first:
`currentBlock` is the innermost one, `parentBlock` the next, `stack` the others with
the outermost pushed first. -/
def openState (ctx : List Node) (blocks : List Node) (level : Int) : StateRender :=
  { stack := (ctx.drop 2).reverse, level := level, currentBlock := ctx.head?,
    blocks := blocks, parentBlock := (ctx.drop 1).head? }

/-- The state after one more block has been finished: it is appended to the innermost
open block, or to the top-level forest when no block is open. -/
def openStateWith (ctx : List Node) (blocks : List Node) (level : Int) (b : Node) :
    StateRender :=
  match ctx with
  | [] => openState [] (blocks ++ [b]) level
  | c :: rest => openState (c.pushNode b :: rest) blocks level

/-- The state after the blocks `bs` have been finished one after the other. -/
def openStateWithAll (ctx : List Node) (blocks : List Node) (level : Int) (bs : List Node) :
    StateRender :=
  match ctx with
  | [] => openState [] (blocks ++ bs) level
  | c :: rest => openState (bs.foldl Node.pushNode c :: rest) blocks level

/-- A blockquote holding two paragraphs' open/close pairs, followed by a list with an
item: a stream of open and close tokens only. -/
def sampleForest : List TokenTree :=
  [.node { type := "blockquote_open", tag := "blockquote" }
         { type := "blockquote_close", tag := "blockquote" }
     [.node { type := "paragraph_open", tag := "p", level := 1 }
            { type := "paragraph_close", tag := "p", level := 1 } [],
      .node { type := "paragraph_open", tag := "p", level := 1 }
            { type := "paragraph_close", tag := "p", level := 1 } []],
   .node { type := "bullet_list_open", tag := "ul" } { type := "bullet_list_close", tag := "ul" }
     [.node { type := "list_item_open", tag := "li", level := 1 }
            { type := "list_item_close", tag := "li", level := 1 } []]]

/-! ## Statement definitions: streams of mark tokens and text -/

/-- A mark-open token: the type ends in `open`, it is not the opening of a link or an
abbreviation, and it carries a delimiter. -/
def isMarkOpen (t : InlineToken) : Bool :=
  getLastElemTokenType t.type == "open" && t.type != "link_open" && t.type != "abbr_open"
    && t.markup != ""

/-- A mark-close token: the type ends in `close` and it is not the closing of a link or
an abbreviation. -/
def isMarkClose (t : InlineToken) : Bool :=
  getLastElemTokenType t.type == "close" && t.type != "link_close" && t.type != "abbr_close"

/-- A plain text token. -/
def isPlainText (t : InlineToken) : Bool := t.type == "text"

/-- An inline stream made only of mark-open, mark-close and plain text tokens. -/
def markStreamOnly (ts : List InlineToken) : Bool :=
  ts.all (fun t => isMarkOpen t || isMarkClose t || isPlainText t)

/-- Number of plain text tokens of a stream. -/
def textCount (ts : List InlineToken) : Nat := (ts.filter isPlainText).length

/-- The token `t` closes the delimiter `d`. -/
def closesDelimiter (d : String) (t : InlineToken) : Bool := isMarkClose t && t.markup == d

/-- The delimiters opened in `pre` and not closed by a later token of `pre`, in the
order of their opening. -/
def activeDelimiters : List InlineToken → List String
  | [] => []
  | t :: rest =>
      if isMarkOpen t && !(rest.any (closesDelimiter t.markup)) then
        t.markup :: activeDelimiters rest
      else activeDelimiters rest

/-- Marks open at the same time have distinct delimiters: no mark-open token of
`rest` carries a delimiter that is open at its position (`pre` is what precedes
`rest`). -/
def distinctOpenFrom (pre : List InlineToken) : List InlineToken → Bool
  | [] => true
  | t :: rest =>
      (!(isMarkOpen t) || !((activeDelimiters pre).contains t.markup))
        && distinctOpenFrom (pre ++ [t]) rest

/-- The mark descriptor of a delimiter. -/
def markOf (d : String) : Mark := { type := lookup markups d, markup := d }

/-- The runs expected of the text tokens of `rest`, preceded by `pre`. -/
def expectedRuns (pre : List InlineToken) : List InlineToken → List TextBlock
  | [] => []
  | t :: rest =>
      if isPlainText t then
        { text := t.content, marks := some ((activeDelimiters pre).map markOf) }
          :: expectedRuns (pre ++ [t]) rest
      else expectedRuns (pre ++ [t]) rest

/-- The state of the inline builder while it collects runs: one open text node. -/
def collecting (runs : List TextBlock) (marks : List String) : Children :=
  { _nodes := [], currNode := some (.text runs none), currTextBlock := none, marks := marks }

/-- A sample stream: `a **b *c* d** e`. -/
def nestedMarks : List InlineToken :=
  [textToken "a ", { type := "strong_open", markup := "**" }, textToken "b ",
   { type := "em_open", markup := "*" }, textToken "c", { type := "em_close", markup := "*" },
   textToken " d", { type := "strong_close", markup := "**" }, textToken " e"]

/-- A delimiter that is an ordinary key of a plain object: neither `__proto__` or
another property name of `Object.prototype`, nor a string of digits. -/
def ordinaryDelimiter (d : String) : Bool :=
  !objectPrototypeKeys.contains d && !(d.data.all Char.isDigit)

/-- The delimiter of every mark-open token of the stream is an ordinary key. -/
def ordinaryDelimiters (ts : List InlineToken) : Bool :=
  ts.all (fun t => !isMarkOpen t || ordinaryDelimiter t.markup)

/-- A stream with a mark whose delimiter is `__proto__`. -/
def protoMarks : List InlineToken :=
  [{ type := "strong_open", markup := "__proto__" }, textToken "a",
   { type := "strong_close", markup := "__proto__" }]

/-- A stream with two marks whose delimiters are the digits `2` and `1`. -/
def digitMarks : List InlineToken :=
  [{ type := "strong_open", markup := "2" }, { type := "em_open", markup := "1" },
   textToken "a", { type := "em_close", markup := "1" },
   { type := "strong_close", markup := "2" }]

/-! ## Statement definitions: well-nested streams and what preprocessing keeps -/

/-- The token without its `content`: preprocessing rewrites the content of code
tokens and nothing else of a token it keeps. -/
def eraseContent (t : Token) : Token := { t with content := "" }

/-- A nested empty-line marker: an `empty` token of level above 0. -/
def isNestedEmpty (t : Token) : Bool := t.type == "empty" && t.level > 0

/-- A paragraph-open or paragraph-close token. -/
def isParagraphToken (t : Token) : Bool :=
  t.type == "paragraph_open" || t.type == "paragraph_close"

/-- Number of blocks of one kind open after the tokens `seen`: its open tokens minus
its close tokens. -/
def openDepth (openType closeType : String) (seen : List Token) : Int :=
  (seen.countP (fun t => t.type == openType) : Int) - seen.countP (fun t => t.type == closeType)

/-- The open depth of each of the five kinds after the tokens `seen`. -/
def levelsOf (seen : List Token) : Levels :=
  { blockquoteLevel := openDepth "blockquote_open" "blockquote_close" seen
    bulletListLevel := openDepth "bullet_list_open" "bullet_list_close" seen
    orderedListLevel := openDepth "ordered_list_open" "ordered_list_close" seen
    ddLevel := openDepth "dd_open" "dd_close" seen
    anchorLevel := openDepth "anchor_open" "anchor_close" seen }

/-- One of the five counters is above 0. -/
def Levels.active (l : Levels) : Bool :=
  l.blockquoteLevel > 0 || l.bulletListLevel > 0 || l.orderedListLevel > 0
    || l.ddLevel > 0 || l.anchorLevel > 0

/-- The position after the tokens `seen` is enclosed by an open blockquote, bullet
list, ordered list, definition description or footnote anchor. -/
def enclosed (seen : List Token) : Bool := (levelsOf seen).active

/-- The tokens of a stream that are to be kept, `seen` being the tokens of the
original stream before it: a nested empty-line marker goes, a paragraph token at an
enclosed position goes, a bullet-list close directly followed by a bullet-list open at
bullet depth above 1 goes together with that open token, every other token stays. -/
def keptBySpec (seen : List Token) : List Token → List Token
  | [] => []
  | [t] => if isNestedEmpty t || (isParagraphToken t && enclosed seen) then [] else [t]
  | t :: n :: rest =>
      if isNestedEmpty t || (isParagraphToken t && enclosed seen) then
        keptBySpec (seen ++ [t]) (n :: rest)
      else if decide (openDepth "bullet_list_open" "bullet_list_close" seen > 1)
          && t.type == "bullet_list_close" && n.type == "bullet_list_open" then
        keptBySpec (seen ++ [t, n]) rest
      else t :: keptBySpec (seen ++ [t]) (n :: rest)

/-- The types `x_open` and `x_close` of one pair of tokens. -/
def pairTypes (o c : String) : Bool :=
  let stem := o.data.take (o.data.length - 5)
  o.data == stem ++ "_open".data && c.data == stem ++ "_close".data

/-- The open blocks (types of their open tokens, innermost first) after a stream read
with the open blocks `stack`; `none` when a close token does not match the innermost
open block or a token does not carry its nesting depth as `level`. -/
def nesting (stack : List String) : List Token → Option (List String)
  | [] => some stack
  | t :: rest =>
      if getLastElemTokenType t.type == "open" then
        if t.level == (stack.length : Int) then nesting (t.type :: stack) rest else none
      else if getLastElemTokenType t.type == "close" then
        match stack with
        | o :: s =>
            if pairTypes o t.type && t.level == (s.length : Int) then nesting s rest else none
        | [] => none
      else if t.level == (stack.length : Int) then nesting stack rest else none

/-- A well-nested stream: every open token is closed by the matching close token in
nesting order, nothing is left open, and every token carries its nesting depth. -/
def wellNested (tokens : List Token) : Bool := nesting [] tokens == some []

/-- The last token of a stream is not one that is to go (`seen` precedes the stream). -/
def lastStays (seen rest : List Token) : Prop :=
  ∀ (init : List Token) (last : Token), rest = init ++ [last] →
    (isNestedEmpty last || (isParagraphToken last && enclosed (seen ++ init))) = false

/-- A sample stream: a blockquote holding a paragraph, an empty line and a list with
two items, then a paragraph. -/
def quotedStream : List Token :=
  [{ type := "blockquote_open", tag := "blockquote", level := 0 },
   { type := "paragraph_open", tag := "p", level := 1 },
   { type := "inline", level := 2, content := "a" },
   { type := "paragraph_close", tag := "p", level := 1 },
   { type := "empty", tag := "empty", level := 1 },
   { type := "bullet_list_open", tag := "ul", level := 1 },
   { type := "list_item_open", tag := "li", level := 2 },
   { type := "paragraph_open", tag := "p", level := 3 },
   { type := "inline", level := 4, content := "b" },
   { type := "paragraph_close", tag := "p", level := 3 },
   { type := "list_item_close", tag := "li", level := 2 },
   { type := "bullet_list_close", tag := "ul", level := 1 },
   { type := "blockquote_close", tag := "blockquote", level := 0 },
   { type := "paragraph_open", tag := "p", level := 0 },
   { type := "inline", level := 1, content := "c" },
   { type := "paragraph_close", tag := "p", level := 0 }]

/-- A code-tagged leaf token: the tag is `code`, and the type is neither empty, nor
`inline`, nor one that ends in `open` or `close` (the types `fence` and `code_block`
are of this kind). -/
def isCodeLeaf (token : Token) : Bool :=
  token.tag == "code" && token.type != "" && token.type != "inline"
    && getLastElemTokenType token.type != "open"
    && getLastElemTokenType token.type != "close"

/-- The block `processing` builds for a code-tagged token: the block of the token,
with data `d`, holding one text node with one run, the content of the token. -/
def codeBlockOf (token : Token) (d : Data) : Node :=
  .block "code" [.text [{ text := token.content }] none] (some d) false (some "code")
    token.attrs

/-! # Theorems -/

/-! ## Parse entry: C1 – C3 -/

/-- C1. `MDParser.parse` applied to the empty string returns a document whose nodes
are exactly one block of type paragraph, whose only child is one text node holding
exactly one run with text `""` (whatever the tokenizer is: it is not called). -/
theorem C1_parse_empty (tokenize : String → Except String (List Token)) :
    (MDParser.parse tokenize "").nodes =
      [Node.block "paragraph" [Node.text [{ text := "", marks := none }] none]
        none false none none] := rfl

/-- C2. For every non-empty input text, if tokenization or tree construction (that is,
`StateRender.render`) raises a failure, `MDParser.parse` still returns a document, and
it is exactly the single-empty-paragraph document returned for the empty string. -/
theorem C2_parse_failure_fallback (tokenize : String → Except String (List Token))
    (src : String) (hsrc : src ≠ "") (e : String)
    (hfail : StateRender.render tokenize src = Except.error e) :
    MDParser.parse tokenize src = MDParser.parse tokenize "" ∧
    (MDParser.parse tokenize src).nodes =
      [Node.block "paragraph" [Node.text [{ text := "", marks := none }] none]
        none false none none] := by
  have hne : (src == "") = false := by simpa using hsrc
  have h : MDParser.parse tokenize src = { nodes := emptyParagraph } := by
    simp [MDParser.parse, hne, hfail]
  rw [h]
  exact ⟨rfl, rfl⟩

/-- Witness for C2, once with a failing tokenizer and once with a token stream on which
tree construction fails. -/
theorem C2_parse_failure_fallback_witness :
    ("x" ≠ "" ∧
      MDParser.parse (fun _ => Except.error "tokenizer failure") "x"
        = MDParser.parse (fun _ => Except.error "tokenizer failure") "" ∧
      (MDParser.parse (fun _ => Except.error "tokenizer failure") "x").nodes =
        [Node.block "paragraph" [Node.text [{ text := "", marks := none }] none]
          none false none none]) ∧
    (StateRender.render (fun _ => Except.ok strayInline) "x"
        = Except.error "TypeError: Cannot read property 'type' of null" ∧
      MDParser.parse (fun _ => Except.ok strayInline) "x"
        = MDParser.parse (fun _ => Except.ok strayInline) "") :=
  ⟨⟨by decide,
     C2_parse_failure_fallback (fun _ => Except.error "tokenizer failure") "x" (by decide)
       "tokenizer failure" rfl⟩,
   ⟨rfl,
     (C2_parse_failure_fallback (fun _ => Except.ok strayInline) "x" (by decide)
       "TypeError: Cannot read property 'type' of null" rfl).1⟩⟩

/-- C3 (the code at the failing input). For a non-empty text for which the tokenizer
returns a stream with no block tokens (for instance a lone link reference
definition), `MDParser.parse` returns a document whose `nodes` list is empty: the
single-paragraph fallback is taken only for the empty string and for a failure. -/
theorem C3_empty_stream_empty_document :
    (MDParser.parse (fun _ => Except.ok []) "[foo]: /url").nodes = [] := rfl

/-! ## Auxiliary lemmas -/

theorem append_ne_empty (a b : String) (ha : a ≠ "") : a ++ b ≠ "" := by
  intro h
  have h2 := congrArg String.data h
  rw [String.data_append] at h2
  have : a.data = [] := by
    cases hd : a.data with
    | nil => rfl
    | cons c cs => rw [hd] at h2; simp at h2
  exact ha (String.ext this)

theorem append_ne_empty_right (a b : String) (hb : b ≠ "") : a ++ b ≠ "" := by
  intro h
  have h2 := congrArg String.data h
  rw [String.data_append] at h2
  have : b.data = [] := by
    cases hd : b.data with
    | nil => rfl
    | cons c cs => rw [hd] at h2; simp at h2
  exact hb (String.ext this)

theorem serializeString_ne_empty (t : String) (ht : serializeString t = some t) : t ≠ "" := by
  intro h
  subst h
  exact absurd ht (by decide)

theorem finishNode_noNew (st : AbbrState) (hst : st.hasNewAbbr = false) (data : Data)
    (r : String) (hr : r ≠ "") : finishNode st data (some r) = (some r, st) := by
  have h : (r != "") = true := by simpa using hr
  simp [finishNode, h, appendAbbrs, hst]

theorem joinDefined_serializeString (t : String) (ht : escapeText t = t) :
    joinDefined [serializeString t] = t := by
  unfold serializeString
  rw [ht]
  by_cases h : (t != "") = true
  · simp [h, joinDefined]
  · have : t = "" := by simpa using h
    subst this
    rfl

theorem serializeNodes_plainText (st : AbbrState) (t : String) (d : Option Data)
    (ht : escapeText t = t) :
    serializeNodes st [Node.text [{ text := t, marks := some [] }] d] = Except.ok (t, st) := by
  have h1 : serializeNodes st [Node.text [{ text := t, marks := some [] }] d]
      = Except.ok (joinDefined [serializeString t] ++ "", st) := rfl
  rw [h1, joinDefined_serializeString t ht]
  simp

/-- A block whose only child is one plain text run is serialized by its rule alone
when no abbreviation is pending. -/
theorem serializeNode_plainBlock (st : AbbrState) (hst : st.hasNewAbbr = false)
    (t : String) (ht : escapeText t = t) (type : String) (data : Data)
    (v : Bool) (tag : Option String) (a : Option Attrs) (r : String) (hr : r ≠ "")
    (hrule : blockRule type [Node.text [{ text := t, marks := some [] }] none] data t
      = Except.ok (some r)) :
    serializeNode st (Node.block type [Node.text [{ text := t, marks := some [] }] none]
      (some data) v tag a) = Except.ok ([some r], st) := by
  have h1 : serializeNode st (Node.block type [Node.text [{ text := t, marks := some [] }] none]
      (some data) v tag a)
      = (do
          let x ← serializeNodes st [Node.text [{ text := t, marks := some [] }] none]
          let ret ← blockRule type [Node.text [{ text := t, marks := some [] }] none] data x.1
          let fin := finishNode x.2 data ret
          Except.ok ([fin.1], fin.2)) := rfl
  rw [h1, serializeNodes_plainText _ _ _ ht]
  show (do
          let ret ← blockRule type [Node.text [{ text := t, marks := some [] }] none] data t
          let fin := finishNode st data ret
          Except.ok ([fin.1], fin.2)) = _
  rw [hrule]
  show Except.ok ([(finishNode st data (some r)).1], (finishNode st data (some r)).2) = _
  rw [finishNode_noNew _ hst _ _ hr]

theorem parse_headingTokens (N : Nat) (h1 : 1 ≤ N) (h6 : N ≤ 6) (t : String) :
    StateRender.parse {} (headingTokens N t) = Except.ok [headingBlock N t] := by
  interval_cases N <;> rfl

theorem serializeNode_headingBlock (st : AbbrState) (hst : st.hasNewAbbr = false)
    (N : Nat) (h1 : 1 ≤ N) (h6 : N ≤ 6) (t : String) (ht : escapeText t = t) :
    serializeNode st (headingBlock N t) = Except.ok ([some (hashes N ++ " " ++ t)], st) := by
  interval_cases N
  all_goals
    exact serializeNode_plainBlock st hst t ht _ _ _ _ _ _
      (append_ne_empty _ _ (by decide)) rfl

theorem serializeNode_paragraphBlock (st : AbbrState) (hst : st.hasNewAbbr = false)
    (t : String) (ht : escapeText t = t) :
    serializeNode st (paragraphBlock t) = Except.ok ([some (t ++ "\n")], st) :=
  serializeNode_plainBlock st hst t ht _ _ _ _ _ _
    (append_ne_empty_right _ _ (by decide)) rfl

theorem serializeElements_cons (st st1 st2 : AbbrState) (n : Node) (ns : List Node)
    (r : List (Option String)) (rs : List String)
    (h1 : serializeNode st n = Except.ok (r, st1))
    (h2 : serializeElements st1 ns = Except.ok (rs, st2)) :
    serializeElements st (n :: ns) = Except.ok (joinDefined r :: rs, st2) := by
  have h : serializeElements st (n :: ns)
      = (do
          let x ← serializeNode st n
          let xs ← serializeElements x.2 ns
          Except.ok (joinDefined x.1 :: xs.1, xs.2)) := rfl
  rw [h, h1]
  show (do
          let xs ← serializeElements st1 ns
          Except.ok (joinDefined r :: xs.1, xs.2)) = _
  rw [h2]
  rfl

theorem serialize_of_elements (st st1 : AbbrState) (document : Document) (rs : List String)
    (h : serializeElements st document.nodes = Except.ok (rs, st1)) :
    serialize st document = Except.ok (jsTrim (jsJoin "\n" rs), st1) := by
  have h0 : serialize st document
      = (do
          let r ← serializeElements st document.nodes
          Except.ok (jsTrim (jsJoin "\n" r.1), r.2)) := rfl
  rw [h0, h]
  rfl

/-! ## Headings: C6 -/

/-- C6. For every N in 1..6 and every heading text `t` that leaf-text escaping leaves
unchanged, the tree built from the token stream of a level-N heading (heading open
with tag hN, one inline token with the single text child `t`, heading close) is one
heading block, and serializing that block yields exactly N characters `#`, one
space, then `t`; the document-level `serialize` returns that text trimmed. -/
theorem C6_heading_levels (N : Nat) (h1 : 1 ≤ N) (h6 : N ≤ 6) (t : String)
    (ht : escapeText t = t) :
    StateRender.parse {} (headingTokens N t) = Except.ok [headingBlock N t] ∧
    serializeNode {} (headingBlock N t) = Except.ok ([some (hashes N ++ " " ++ t)], {}) ∧
    serialize {} { nodes := [headingBlock N t] }
      = Except.ok (jsTrim (hashes N ++ " " ++ t), {}) := by
  refine ⟨parse_headingTokens N h1 h6 t, serializeNode_headingBlock {} rfl N h1 h6 t ht, ?_⟩
  have h := serialize_of_elements {} {} { nodes := [headingBlock N t] } _
    (serializeElements_cons {} {} {} _ [] _ [] (serializeNode_headingBlock {} rfl N h1 h6 t ht) rfl)
  rw [h]
  simp [joinDefined, jsJoin]

/-- Witness for C6: a level-3 heading with the text `Lists`. -/
theorem C6_heading_levels_witness :
    escapeText "Lists" = "Lists" ∧
    StateRender.parse {} (headingTokens 3 "Lists") = Except.ok [headingBlock 3 "Lists"] ∧
    serializeNode {} (headingBlock 3 "Lists")
      = Except.ok ([some (hashes 3 ++ " " ++ "Lists")], {}) ∧
    serialize {} { nodes := [headingBlock 3 "Lists"] }
      = Except.ok (jsTrim (hashes 3 ++ " " ++ "Lists"), {}) :=
  ⟨by decide, C6_heading_levels 3 (by decide) (by decide) "Lists" (by decide)⟩

/-! ## Heading followed by paragraphs: C5 -/

theorem preprocessingFrom_paragraph (p : String) (rest : List Token)
    (h : preprocessingFrom {} rest = rest) :
    preprocessingFrom {} (paragraphTokens p ++ rest) = paragraphTokens p ++ rest := by
  cases rest with
  | nil => rfl
  | cons r rs =>
    have h1 : preprocessingFrom {} (paragraphTokens p ++ r :: rs)
        = paragraphTokens p ++ preprocessingFrom {} (r :: rs) := rfl
    rw [h1, h]

theorem preprocessingFrom_paragraphs (ps : List String) :
    preprocessingFrom {} (ps.map paragraphTokens).flatten = (ps.map paragraphTokens).flatten := by
  induction ps with
  | nil => rfl
  | cons p ps ih =>
    simp only [List.map_cons, List.flatten_cons]
    exact preprocessingFrom_paragraph p _ ih

theorem preprocessingFrom_heading (N : Nat) (t : String) (rest : List Token)
    (h : preprocessingFrom {} rest = rest) :
    preprocessingFrom {} (headingTokens N t ++ rest) = headingTokens N t ++ rest := by
  cases rest with
  | nil => rfl
  | cons r rs =>
    have h1 : preprocessingFrom {} (headingTokens N t ++ r :: rs)
        = headingTokens N t ++ preprocessingFrom {} (r :: rs) := rfl
    rw [h1, h]


theorem processingFrom_paragraph (bs : List Node) (prev p : String) (rest : List Token) :
    StateRender.processingFrom { blocks := bs } prev (paragraphTokens p ++ rest)
      = StateRender.processingFrom { blocks := bs ++ [paragraphBlock p] } "paragraph_close" rest :=
  rfl

theorem processingFrom_paragraphs (ps : List String) (bs : List Node) (prev : String) :
    StateRender.processingFrom { blocks := bs } prev (ps.map paragraphTokens).flatten
      = Except.ok { blocks := bs ++ ps.map paragraphBlock } := by
  induction ps generalizing bs prev with
  | nil => simp [StateRender.processingFrom]
  | cons p ps ih =>
    simp only [List.map_cons, List.flatten_cons]
    rw [processingFrom_paragraph, ih]
    simp

theorem processingFrom_heading (N : Nat) (h1 : 1 ≤ N) (h6 : N ≤ 6) (t : String)
    (rest : List Token) :
    StateRender.processingFrom {} "" (headingTokens N t ++ rest)
      = StateRender.processingFrom { blocks := [headingBlock N t] } "heading_close" rest := by
  interval_cases N <;> rfl

theorem mapE_id {α : Type} (f : α → Except String α) (l : List α)
    (h : ∀ x ∈ l, f x = Except.ok x) : StateRender.mapE f l = Except.ok l := by
  induction l with
  | nil => rfl
  | cons a as ih =>
    have ha := h a (List.mem_cons_self a as)
    have has := ih (fun x hx => h x (List.mem_cons_of_mem a hx))
    show (do
            let b ← f a
            let bs ← StateRender.mapE f as
            Except.ok (b :: bs)) = _
    rw [ha]
    show (do
            let bs ← StateRender.mapE f as
            Except.ok (a :: bs)) = _
    rw [has]
    rfl

theorem postToken_headingBlock (post : List Node → Except String (List Node))
    (N : Nat) (h1 : 1 ≤ N) (h6 : N ≤ 6) (t : String) :
    StateRender.postToken post (headingBlock N t) = Except.ok (headingBlock N t) := by
  interval_cases N <;> rfl

theorem postprocessing_heading_paragraphs (N : Nat) (h1 : 1 ≤ N) (h6 : N ≤ 6) (t : String)
    (ps : List String) :
    StateRender.postprocessing (headingBlock N t :: ps.map paragraphBlock)
      = Except.ok (headingBlock N t :: ps.map paragraphBlock) := by
  unfold StateRender.postprocessing
  show StateRender.mapE (StateRender.postToken _) _ = _
  apply mapE_id
  intro x hx
  rcases List.mem_cons.1 hx with hx | hx
  · rw [hx]; exact postToken_headingBlock _ N h1 h6 t
  · obtain ⟨p, _, rfl⟩ := List.mem_map.1 hx
    rfl

theorem parse_heading_paragraphs (N : Nat) (h1 : 1 ≤ N) (h6 : N ≤ 6) (t : String)
    (ps : List String) :
    StateRender.parse {} (headingThenParagraphsTokens N t ps)
      = Except.ok (headingBlock N t :: ps.map paragraphBlock) := by
  have hpre : StateRender.preprocessing (headingThenParagraphsTokens N t ps)
      = headingThenParagraphsTokens N t ps :=
    preprocessingFrom_heading N t _ (preprocessingFrom_paragraphs ps)
  have hproc : StateRender.processing {} (headingThenParagraphsTokens N t ps)
      = Except.ok { blocks := headingBlock N t :: ps.map paragraphBlock } := by
    unfold StateRender.processing headingThenParagraphsTokens
    rw [processingFrom_heading N h1 h6, processingFrom_paragraphs]
    rfl
  unfold StateRender.parse
  rw [hpre, hproc]
  exact postprocessing_heading_paragraphs N h1 h6 t ps


theorem serializeElements_paragraphs (st : AbbrState) (hst : st.hasNewAbbr = false)
    (ps : List String) (hps : ∀ t ∈ ps, escapeText t = t) :
    serializeElements st (ps.map paragraphBlock)
      = Except.ok (ps.map (fun t => t ++ "\n"), st) := by
  induction ps with
  | nil => rfl
  | cons p ps ih =>
    have h1 := serializeNode_paragraphBlock st hst p (hps p (List.mem_cons_self p ps))
    have h2 := ih (fun t ht => hps t (List.mem_cons_of_mem p ht))
    have h3 := serializeElements_cons st st st _ _ _ _ h1 h2
    simpa [joinDefined] using h3

theorem jsJoin_lines (p : String) (ps : List String) :
    jsJoin "\n" ((p :: ps).map (fun t => t ++ "\n")) = jsJoin "\n\n" (p :: ps) ++ "\n" := by
  induction ps generalizing p with
  | nil => rfl
  | cons q qs ih =>
    have h1 : jsJoin "\n" ((p :: q :: qs).map (fun t => t ++ "\n"))
        = (p ++ "\n") ++ "\n" ++ jsJoin "\n" ((q :: qs).map (fun t => t ++ "\n")) := rfl
    have h2 : jsJoin "\n\n" (p :: q :: qs) = p ++ "\n\n" ++ jsJoin "\n\n" (q :: qs) := rfl
    have h3 : ("\n" : String) ++ "\n" = "\n\n" := by decide
    rw [h1, h2, ih q, String.append_assoc p "\n" "\n", h3]
    simp only [String.append_assoc]

theorem endsVisible_append (a b : String) (hb : endsVisible b = true) :
    endsVisible (a ++ b) = true := by
  unfold endsVisible at hb ⊢
  rw [String.data_append, List.reverse_append]
  cases hrev : b.data.reverse with
  | nil => rw [hrev] at hb; simp at hb
  | cons c r => rw [hrev] at hb; simpa using hb

theorem endsVisible_jsJoin (sep p : String) (ps : List String)
    (h : ∀ t ∈ p :: ps, endsVisible t = true) : endsVisible (jsJoin sep (p :: ps)) = true := by
  induction ps generalizing p with
  | nil => exact h p (List.mem_cons_self p [])
  | cons q qs ih =>
    show endsVisible (p ++ sep ++ jsJoin sep (q :: qs)) = true
    exact endsVisible_append _ _ (ih q (fun t ht => h t (List.mem_cons_of_mem p ht)))

theorem jsTrim_append_newline (s : String) (c : Char) (cs : List Char)
    (hstart : s.data = c :: cs) (hc : isJsSpace c = false) (hend : endsVisible s = true) :
    jsTrim (s ++ "\n") = s := by
  unfold jsTrim
  have hd : (s ++ "\n").data = c :: (cs ++ ['\n']) := by
    rw [String.data_append, hstart]; rfl
  rw [hd, List.dropWhile_cons_of_neg (by simp [hc])]
  have hr : (c :: (cs ++ ['\n'])).reverse = '\n' :: s.data.reverse := by
    rw [hstart]; simp
  rw [hr, List.dropWhile_cons_of_pos (by decide)]
  unfold endsVisible at hend
  cases hrev : s.data.reverse with
  | nil => rw [hrev] at hend; simp at hend
  | cons x r =>
    rw [hrev] at hend
    have hx : isJsSpace x = false := by simpa using hend
    rw [List.dropWhile_cons_of_neg (by simp [hx]), ← hrev, List.reverse_reverse]


theorem headingThenParagraphs_data (N : Nat) (h1 : 1 ≤ N) (h : String) (ps : List String) :
    ∃ cs, (headingThenParagraphs N h ps).data = '#' :: cs := by
  obtain ⟨n, rfl⟩ : ∃ n, N = n + 1 := ⟨N - 1, by omega⟩
  refine ⟨List.replicate n '#' ++ (" " ++ h ++ "\n" ++ jsJoin "\n\n" ps).data, ?_⟩
  simp [headingThenParagraphs, hashes, List.replicate_succ, String.data_append]

/-- C5 (counterexample). The text of a heading line followed by the plain-text
paragraph `well-known long-term plan`, with the token stream of that text: the escaping
of wrapped delimiters in `serializeString` puts a backslash before both hyphens, so
`serialize(deserialize(text))` differs from the text, also once trailing white space is
stripped from every line of both. -/
theorem C5_hyphenated_paragraph_changed :
    headingThenParagraphs 2 "Lists" ["well-known long-term plan"]
      = "## Lists\nwell-known long-term plan" ∧
    reparser
        (fun _ => Except.ok (headingThenParagraphsTokens 2 "Lists" ["well-known long-term plan"]))
        "## Lists\nwell-known long-term plan"
      = Except.ok "## Lists\nwell\\-known long\\-term plan" ∧
    trimStr "## Lists\nwell-known long-term plan"
      ≠ trimStr "## Lists\nwell\\-known long\\-term plan" := by
  refine ⟨by decide, rfl, by decide⟩

/-- C5 (amended). Text round trip asserted by the serializer test: for markdown made of
a level-N heading line `h` (N from 1 to 6) followed by plain-text paragraphs `p :: ps`
separated by a blank line, where leaf-text escaping leaves the heading text and every
paragraph unchanged and no paragraph ends in white space, and a tokenizer that returns
the token stream of that text, `serialize(deserialize(text))` succeeds and equals
`text`; in particular both are equal once trailing white space is stripped from every
line (`trimStr`). -/
theorem C5_heading_paragraphs_round_trip
    (tokenize : String → Except String (List Token))
    (N : Nat) (h1 : 1 ≤ N) (h6 : N ≤ 6) (h p : String) (ps : List String)
    (hh : escapeText h = h)
    (hps : ∀ t ∈ p :: ps, escapeText t = t ∧ endsVisible t = true)
    (htok : tokenize (headingThenParagraphs N h (p :: ps))
      = Except.ok (headingThenParagraphsTokens N h (p :: ps))) :
    ∃ repars, reparser tokenize (headingThenParagraphs N h (p :: ps)) = Except.ok repars ∧
      repars = headingThenParagraphs N h (p :: ps) ∧
      trimStr (headingThenParagraphs N h (p :: ps)) = trimStr repars := by
  obtain ⟨cs, hcs⟩ := headingThenParagraphs_data N h1 h (p :: ps)
  have hne : ((headingThenParagraphs N h (p :: ps)) == "") = false := by
    have : headingThenParagraphs N h (p :: ps) ≠ "" := by
      intro he
      rw [he] at hcs
      simp at hcs
    simpa using this
  have hparse : MDParser.parse tokenize (headingThenParagraphs N h (p :: ps))
      = { nodes := headingBlock N h :: (p :: ps).map paragraphBlock } := by
    simp only [MDParser.parse, hne, StateRender.render, htok]
    show (match StateRender.parse {} (headingThenParagraphsTokens N h (p :: ps)) with
      | Except.ok fragment => ({ nodes := fragment } : Document)
      | Except.error _ => { nodes := emptyParagraph }) = _
    rw [parse_heading_paragraphs N h1 h6 h (p :: ps)]
  have hel : serializeElements {} (headingBlock N h :: (p :: ps).map paragraphBlock)
      = Except.ok ((hashes N ++ " " ++ h) :: (p :: ps).map (fun t => t ++ "\n"), {}) := by
    have h3 := serializeElements_cons {} {} {} _ _ _ _
      (serializeNode_headingBlock {} rfl N h1 h6 h hh)
      (serializeElements_paragraphs {} rfl (p :: ps) (fun t ht => (hps t ht).1))
    simpa [joinDefined] using h3
  have hser := serialize_of_elements {} {}
    { nodes := headingBlock N h :: (p :: ps).map paragraphBlock } _ hel
  have hjoin : jsJoin "\n" ((hashes N ++ " " ++ h) :: (p :: ps).map (fun t => t ++ "\n"))
      = headingThenParagraphs N h (p :: ps) ++ "\n" := by
    have h1 : jsJoin "\n" ((hashes N ++ " " ++ h) :: (p :: ps).map (fun t => t ++ "\n"))
        = hashes N ++ " " ++ h ++ "\n" ++ jsJoin "\n" ((p :: ps).map (fun t => t ++ "\n")) := rfl
    rw [h1, jsJoin_lines]
    simp only [headingThenParagraphs, String.append_assoc]
  have hvis : endsVisible (headingThenParagraphs N h (p :: ps)) = true :=
    endsVisible_append _ _ (endsVisible_jsJoin _ p ps (fun t ht => (hps t ht).2))
  have htrim := jsTrim_append_newline _ '#' cs hcs (by decide) hvis
  refine ⟨headingThenParagraphs N h (p :: ps), ?_, rfl, rfl⟩
  unfold reparser
  rw [hparse, hser, hjoin, htrim]
  rfl

/-- Witness for C5 (amended): the text of the serializer test. -/
theorem C5_heading_paragraphs_round_trip_witness :
    headingThenParagraphs 2 "Lists" ["Unordered", "End list"]
      = "## Lists\nUnordered\n\nEnd list" ∧
    escapeText "Lists" = "Lists" ∧
    (∀ t ∈ ["Unordered", "End list"], escapeText t = t ∧ endsVisible t = true) ∧
    ∃ repars,
      reparser (fun _ => Except.ok (headingThenParagraphsTokens 2 "Lists" ["Unordered", "End list"]))
        (headingThenParagraphs 2 "Lists" ["Unordered", "End list"]) = Except.ok repars ∧
      repars = headingThenParagraphs 2 "Lists" ["Unordered", "End list"] ∧
      trimStr (headingThenParagraphs 2 "Lists" ["Unordered", "End list"]) = trimStr repars :=
  ⟨by decide, by decide, by decide,
   C5_heading_paragraphs_round_trip
     (fun _ => Except.ok (headingThenParagraphsTokens 2 "Lists" ["Unordered", "End list"]))
     2 (by decide) (by decide) "Lists" "Unordered" ["End list"] (by decide) (by decide) rfl⟩

/-! ## Ordered-list numbering and definition lists: C7, C8 -/

/-- C7 (the code at the failing input). An ordered list that declares the start value
0 (markdown `0. a` / `1. b`) has its two items numbered 1 and 2 by postprocessing, not
0 and 1: `token.attrs.start ? token.attrs.start : 1` takes the falsy 0 for a missing
start. The list-item rule then emits the prefixes `1. ` and `2. `. -/
theorem C7_start_zero_numbered_from_one :
    (StateRender.parse {} (orderedListTokens (some 0) ["a", "b"])).map
        (fun blocks => blocks.map itemNums) = Except.ok [[some (some 1), some (some 2)]] ∧
    ((StateRender.parse {} (orderedListTokens (some 0) ["a", "b"])).bind
        (fun blocks => serialize {} { nodes := blocks })).map (fun r => r.1)
      = Except.ok "1. a\n    2. b" := by
  constructor <;> rfl

/-- C8 (the code at the failing input). A definition list whose description has no
child block passes the simplicity test (`item.nodes.length > 1` is false), and the
unwrapping `item.nodes[0].nodes` then fails: postprocessing does not complete, and
`MDParser.parse` answers with the single-empty-paragraph fallback for the whole text. -/
theorem C8_empty_description_fails :
    StateRender.parse {} emptyDescriptionTokens
      = Except.error "TypeError: Cannot read property 'nodes' of undefined" ∧
    (MDParser.parse (fun _ => Except.ok emptyDescriptionTokens) "Term\n:   [foo]: /url").nodes
      = emptyParagraph := by
  constructor <;> rfl

/-! ## Abbreviation table: auxiliary lemmas -/

theorem finishNode_indep (st : AbbrState) (hst : st.hasNewAbbr = false) (data : Data)
    (ret : Option String) :
    finishNode st data ret = ((finishNode {} data ret).1, st) := by
  cases ret with
  | none => rfl
  | some r =>
    by_cases hr : (r != "") = true
    · simp [finishNode, hr, appendAbbrs, hst]
    · simp [finishNode, hr]

theorem inlineRule_indep (st : AbbrState) (type : String) (data : Data) (children : String)
    (ht : (type == "abbr") = false) :
    inlineRule st type data children = ((inlineRule {} type data children).1, st) := by
  have hne : type ≠ "abbr" := by simpa using ht
  unfold inlineRule
  split
  · rfl
  · exact absurd rfl hne
  · rfl
  · rfl

mutual
/-- A node without abbreviation references has a rendering that does not depend on
the table, and leaves a table without pending entries as it found it. -/
theorem serializeNode_noAbbr (n : Node) (hn : hasAbbr n = false) :
    ∃ res : Except String (List (Option String)),
      ∀ st : AbbrState, st.hasNewAbbr = false →
        serializeNode st n = res.map (fun r => (r, st)) := by
  cases n with
  | text ranges d => exact ⟨Except.ok (ranges.map serializeRange), fun st _ => rfl⟩
  | inline type v nodes d =>
    have hn1 : ((type == "abbr") || hasAbbrList nodes) = false := hn
    have ht : (type == "abbr") = false := by
      cases h : (type == "abbr") <;> simp_all
    have hns : hasAbbrList nodes = false := by
      cases h : hasAbbrList nodes <;> simp_all
    obtain ⟨resC, hC⟩ := serializeNodes_noAbbr nodes hns
    cases resC with
    | error e =>
      refine ⟨Except.error e, fun st hst => ?_⟩
      have h1 : serializeNode st (Node.inline type v nodes d)
          = (do
              let r ← serializeNodes st nodes
              let out := inlineRule r.2 type (d.getD {}) r.1
              let fin := finishNode out.2 (d.getD {}) out.1
              Except.ok ([fin.1], fin.2)) := rfl
      rw [h1, hC st hst]
      rfl
    | ok c =>
      refine ⟨Except.ok [(finishNode {} (d.getD {}) (inlineRule {} type (d.getD {}) c).1).1],
        fun st hst => ?_⟩
      have h1 : serializeNode st (Node.inline type v nodes d)
          = (do
              let r ← serializeNodes st nodes
              let out := inlineRule r.2 type (d.getD {}) r.1
              let fin := finishNode out.2 (d.getD {}) out.1
              Except.ok ([fin.1], fin.2)) := rfl
      rw [h1, hC st hst]
      show Except.ok ([(finishNode (inlineRule st type (d.getD {}) c).2 (d.getD {})
          (inlineRule st type (d.getD {}) c).1).1],
        (finishNode (inlineRule st type (d.getD {}) c).2 (d.getD {})
          (inlineRule st type (d.getD {}) c).1).2) = _
      rw [inlineRule_indep st type _ c ht, finishNode_indep st hst]
      rfl
  | block type nodes d v tag a =>
    have hns : hasAbbrList nodes = false := hn
    obtain ⟨resC, hC⟩ := serializeNodes_noAbbr nodes hns
    cases resC with
    | error e =>
      refine ⟨Except.error e, fun st hst => ?_⟩
      have h1 : serializeNode st (Node.block type nodes d v tag a)
          = (do
              let r ← serializeNodes st nodes
              let ret ← blockRule type nodes (d.getD {}) r.1
              let fin := finishNode r.2 (d.getD {}) ret
              Except.ok ([fin.1], fin.2)) := rfl
      rw [h1, hC st hst]
      rfl
    | ok c =>
      cases hrule : blockRule type nodes (d.getD {}) c with
      | error e =>
        refine ⟨Except.error e, fun st hst => ?_⟩
        have h1 : serializeNode st (Node.block type nodes d v tag a)
            = (do
                let r ← serializeNodes st nodes
                let ret ← blockRule type nodes (d.getD {}) r.1
                let fin := finishNode r.2 (d.getD {}) ret
                Except.ok ([fin.1], fin.2)) := rfl
        rw [h1, hC st hst]
        show (do
                let ret ← blockRule type nodes (d.getD {}) c
                let fin := finishNode st (d.getD {}) ret
                Except.ok ([fin.1], fin.2)) = _
        rw [hrule]
        rfl
      | ok ret =>
        refine ⟨Except.ok [(finishNode {} (d.getD {}) ret).1], fun st hst => ?_⟩
        have h1 : serializeNode st (Node.block type nodes d v tag a)
            = (do
                let r ← serializeNodes st nodes
                let ret ← blockRule type nodes (d.getD {}) r.1
                let fin := finishNode r.2 (d.getD {}) ret
                Except.ok ([fin.1], fin.2)) := rfl
        rw [h1, hC st hst]
        show (do
                let ret ← blockRule type nodes (d.getD {}) c
                let fin := finishNode st (d.getD {}) ret
                Except.ok ([fin.1], fin.2)) = _
        rw [hrule]
        show Except.ok ([(finishNode st (d.getD {}) ret).1], (finishNode st (d.getD {}) ret).2) = _
        rw [finishNode_indep st hst]
        rfl
/-- The list version of `serializeNode_noAbbr`, for the joined children. -/
theorem serializeNodes_noAbbr (ns : List Node) (hns : hasAbbrList ns = false) :
    ∃ res : Except String String,
      ∀ st : AbbrState, st.hasNewAbbr = false →
        serializeNodes st ns = res.map (fun r => (r, st)) := by
  cases ns with
  | nil => exact ⟨Except.ok "", fun st _ => rfl⟩
  | cons n rest =>
    have hn1 : (hasAbbr n || hasAbbrList rest) = false := hns
    have hn : hasAbbr n = false := by cases h : hasAbbr n <;> simp_all
    have hrest : hasAbbrList rest = false := by cases h : hasAbbrList rest <;> simp_all
    obtain ⟨r1, h1⟩ := serializeNode_noAbbr n hn
    obtain ⟨r2, h2⟩ := serializeNodes_noAbbr rest hrest
    have heq : ∀ st, serializeNodes st (n :: rest)
        = (do
            let r ← serializeNode st n
            let rs ← serializeNodes r.2 rest
            Except.ok (joinDefined r.1 ++ rs.1, rs.2)) := fun _ => rfl
    cases r1 with
    | error e =>
      refine ⟨Except.error e, fun st hst => ?_⟩
      rw [heq, h1 st hst]
      rfl
    | ok a =>
      cases r2 with
      | error e =>
        refine ⟨Except.error e, fun st hst => ?_⟩
        rw [heq, h1 st hst]
        show (do
                let rs ← serializeNodes st rest
                Except.ok (joinDefined a ++ rs.1, rs.2)) = _
        rw [h2 st hst]
        rfl
      | ok b =>
        refine ⟨Except.ok (joinDefined a ++ b), fun st hst => ?_⟩
        rw [heq, h1 st hst]
        show (do
                let rs ← serializeNodes st rest
                Except.ok (joinDefined a ++ rs.1, rs.2)) = _
        rw [h2 st hst]
        rfl
end


theorem serializeElements_noAbbr (ns : List Node) (hns : hasAbbrList ns = false) :
    ∃ res : Except String (List String),
      ∀ st : AbbrState, st.hasNewAbbr = false →
        serializeElements st ns = res.map (fun r => (r, st)) := by
  induction ns with
  | nil => exact ⟨Except.ok [], fun st _ => rfl⟩
  | cons n rest ih =>
    have hn1 : (hasAbbr n || hasAbbrList rest) = false := hns
    have hn : hasAbbr n = false := by cases h : hasAbbr n <;> simp_all
    have hrest : hasAbbrList rest = false := by cases h : hasAbbrList rest <;> simp_all
    obtain ⟨r1, h1⟩ := serializeNode_noAbbr n hn
    obtain ⟨r2, h2⟩ := ih hrest
    have heq : ∀ st, serializeElements st (n :: rest)
        = (do
            let r ← serializeNode st n
            let rs ← serializeElements r.2 rest
            Except.ok (joinDefined r.1 :: rs.1, rs.2)) := fun _ => rfl
    cases r1 with
    | error e =>
      refine ⟨Except.error e, fun st hst => ?_⟩
      rw [heq, h1 st hst]
      rfl
    | ok a =>
      cases r2 with
      | error e =>
        refine ⟨Except.error e, fun st hst => ?_⟩
        rw [heq, h1 st hst]
        show (do
                let rs ← serializeElements st rest
                Except.ok (joinDefined a :: rs.1, rs.2)) = _
        rw [h2 st hst]
        rfl
      | ok b =>
        refine ⟨Except.ok (joinDefined a :: b), fun st hst => ?_⟩
        rw [heq, h1 st hst]
        show (do
                let rs ← serializeElements st rest
                Except.ok (joinDefined a :: rs.1, rs.2)) = _
        rw [h2 st hst]
        rfl

/-! ## Abbreviation table: C9, C10 -/

/-- C9 (the code at the failing input). Two top-level paragraphs (data.level = 0), each
one abbreviation reference with the label `constructor` and the same title, serialized
from the empty table: the output holds no definition line at all and nothing is
registered, because `abbreviations[key]` is already truthy for a key that every object
inherits from `Object.prototype`. -/
theorem C9_inherited_key_never_defined :
    StateRender.parse {} (abbrParagraphTokens "constructor" "builds an object"
        ++ abbrParagraphTokens "constructor" "builds an object")
      = Except.ok [abbrParagraph "constructor" "builds an object",
                   abbrParagraph "constructor" "builds an object"] ∧
    serialize {} { nodes := [abbrParagraph "constructor" "builds an object",
                             abbrParagraph "constructor" "builds an object"] }
      = Except.ok ("constructor\n\nconstructor", {}) := by
  constructor <;> rfl

/-- C10 (counterexample). One paragraph with the abbreviation reference `HTML`,
serialized twice in succession starting from a freshly loaded serializer: the first
call appends the definition line and leaves the table filled, the second call,
entered with that table, returns a different text without the definition line. -/
theorem C10_second_serialize_differs :
    serialize {} { nodes := [abbrParagraph "HTML" "Hyper Text"] }
      = Except.ok ("HTML\n*[HTML]: Hyper Text",
          { abbreviations := [("HTML", { title := some "Hyper Text", use := true })],
            hasNewAbbr := false }) ∧
    serialize { abbreviations := [("HTML", { title := some "Hyper Text", use := true })],
                hasNewAbbr := false }
        { nodes := [abbrParagraph "HTML" "Hyper Text"] }
      = Except.ok ("HTML",
          { abbreviations := [("HTML", { title := some "Hyper Text", use := true })],
            hasNewAbbr := false }) ∧
    ("HTML\n*[HTML]: Hyper Text" : String) ≠ "HTML" := by
  refine ⟨rfl, rfl, by decide⟩

/-- C10 (amended). The abbreviation table is module state that `serialize` never
re-initializes: the result is a function of the document and of the table found on
entry. For every document without an abbreviation reference, entered with no pending
entry (`hasNewAbbr` unset), `serialize` returns the same text, or the same failure, as
a freshly loaded serializer, and it leaves the table as it found it. -/
theorem C10_abbr_free_serialize_independent (document : Document) (st : AbbrState)
    (hdoc : hasAbbrList document.nodes = false) (hst : st.hasNewAbbr = false) :
    serialize st document = (serialize {} document).map (fun r => (r.1, st)) := by
  obtain ⟨res, hres⟩ := serializeElements_noAbbr document.nodes hdoc
  have heq : ∀ s, serialize s document
      = (do
          let r ← serializeElements s document.nodes
          Except.ok (jsTrim (jsJoin "\n" r.1), r.2)) := fun _ => rfl
  rw [heq st, heq {}, hres st hst, hres {} rfl]
  cases res <;> rfl

/-- Witness for C10 (amended): a heading and a paragraph, serialized on the table left
behind by a document with the abbreviation `HTML`. -/
theorem C10_abbr_free_serialize_independent_witness :
    hasAbbrList [headingBlock 2 "Lists", paragraphBlock "Unordered"] = false ∧
    serialize { abbreviations := [("HTML", { title := some "Hyper Text", use := true })],
                hasNewAbbr := false }
        { nodes := [headingBlock 2 "Lists", paragraphBlock "Unordered"] }
      = (serialize {} { nodes := [headingBlock 2 "Lists", paragraphBlock "Unordered"] }).map
          (fun r => (r.1,
            ({ abbreviations := [("HTML", { title := some "Hyper Text", use := true })],
               hasNewAbbr := false } : AbbrState))) :=
  ⟨rfl, C10_abbr_free_serialize_independent
    { nodes := [headingBlock 2 "Lists", paragraphBlock "Unordered"] }
    { abbreviations := [("HTML", { title := some "Hyper Text", use := true })],
      hasNewAbbr := false } rfl rfl⟩

/-! ## The depth bound of `postprocessing` is never exhausted -/

theorem depth_le_depthList (x : Node) (l : List Node) (hx : x ∈ l) : StateRender.depth x ≤ StateRender.depthList l := by
  induction l with
  | nil => cases hx
  | cons a as ih =>
    have h : StateRender.depthList (a :: as) = max (StateRender.depth a) (StateRender.depthList as) := by simp [StateRender.depthList]
    rw [h]
    rcases List.mem_cons.1 hx with hx | hx
    · rw [hx]; exact le_max_left _ _
    · exact le_trans (ih hx) (le_max_right _ _)

theorem depthList_lt_of_nodes (item : Node) (ns : List Node) (h : item.nodes? = some ns) :
    StateRender.depthList ns < StateRender.depth item := by
  cases item with
  | text r d => cases h
  | inline t v ns1 d =>
    have : ns1 = ns := by simpa [Node.nodes?] using h
    subst this
    simp [StateRender.depth]
  | block t ns1 d v tag a =>
    have : ns1 = ns := by simpa [Node.nodes?] using h
    subst this
    simp [StateRender.depth]

mutual
theorem depth_setRecursiveParentItem (p : String) (n : Node) :
    StateRender.depth (StateRender.setRecursiveParentItem p n) = StateRender.depth n := by
  cases n with
  | text r d => simp [StateRender.setRecursiveParentItem, StateRender.depth]
  | inline t v ns d =>
    simp [StateRender.setRecursiveParentItem, StateRender.depth, depthList_setRecursiveParent _ ns]
  | block t ns d v tag a =>
    simp [StateRender.setRecursiveParentItem, StateRender.depth, depthList_setRecursiveParent _ ns]
theorem depthList_setRecursiveParent (p : String) (ns : List Node) :
    StateRender.depthList (StateRender.setRecursiveParent p ns) = StateRender.depthList ns := by
  cases ns with
  | nil => simp [StateRender.setRecursiveParent]
  | cons n rest =>
    simp [StateRender.setRecursiveParent, StateRender.depthList, depth_setRecursiveParentItem p n,
      depthList_setRecursiveParent p rest]
end

theorem nodes?_setData (d : Data) (n : Node) : (n.setData d).nodes? = n.nodes? := by
  cases n <;> rfl

theorem itemsLoop_congr (post1 post2 : List Node → Except String (List Node))
    (ordered : Bool) (items : List Node)
    (h : ∀ item ∈ items, ∀ ns, item.nodes? = some ns → post1 ns = post2 ns) (num : JSNum) :
    StateRender.itemsLoop post1 ordered num items = StateRender.itemsLoop post2 ordered num items := by
  induction items generalizing num with
  | nil => rfl
  | cons item rest ih =>
    have hrest := fun n => ih (fun i hi => h i (List.mem_cons_of_mem item hi)) n
    have hitem := h item (List.mem_cons_self item rest)
    simp only [StateRender.itemsLoop, hrest]
    cases hn : item.nodes? with
    | none =>
      cases ordered <;> simp [nodes?_setData, hn]
    | some ns =>
      have := hitem ns hn
      cases ordered <;> simp [nodes?_setData, hn, this]

end ReactMarkdown
namespace ReactMarkdown

theorem depth_pos (x : Node) : 1 ≤ StateRender.depth x := by
  cases x <;> simp [StateRender.depth]

theorem depthList_eq_zero (l : List Node) (h : StateRender.depthList l = 0) : l = [] := by
  cases l with
  | nil => rfl
  | cons a as =>
    have h1 := depth_le_depthList a (a :: as) (List.mem_cons_self a as)
    have h2 := depth_pos a
    omega

theorem mapE_congr {α β : Type} (f g : α → Except String β) (l : List α)
    (h : ∀ x ∈ l, f x = g x) : StateRender.mapE f l = StateRender.mapE g l := by
  induction l with
  | nil => rfl
  | cons a as ih =>
    simp only [StateRender.mapE, h a (List.mem_cons_self a as),
      ih (fun x hx => h x (List.mem_cons_of_mem a hx))]

theorem postToken_congr (post1 post2 : List Node → Except String (List Node)) (token : Node)
    (h : ∀ ns, StateRender.depthList ns + 2 ≤ StateRender.depth token → post1 ns = post2 ns) :
    StateRender.postToken post1 token = StateRender.postToken post2 token := by
  unfold StateRender.postToken
  cases htype : token.type? with
  | none => rfl
  | some type =>
    have hloop : ∀ num, StateRender.itemsLoop post1 (type == "ordered-list") num
          (StateRender.setRecursiveParent type (token.nodes?.getD []))
        = StateRender.itemsLoop post2 (type == "ordered-list") num
          (StateRender.setRecursiveParent type (token.nodes?.getD [])) := by
      intro num
      apply itemsLoop_congr
      intro item hitem ns hns
      apply h
      have h1 := depthList_lt_of_nodes item ns hns
      have h2 := depth_le_depthList item _ hitem
      rw [depthList_setRecursiveParent] at h2
      cases hn : token.nodes? with
      | none => rw [hn] at hitem; simp [StateRender.setRecursiveParent] at hitem
      | some cs =>
        have h3 := depthList_lt_of_nodes token cs hn
        rw [hn] at h2
        simp only [Option.getD_some] at h2
        omega
    simp only [hloop]

/-- Any bound at least the depth of the forest gives the same result: the bound that
`postprocessing` supplies never cuts the recursion short. -/
theorem postprocessingAux_fuel (n : Nat) : ∀ (tokens : List Node) (f1 f2 : Nat),
    StateRender.depthList tokens ≤ n → n ≤ f1 → n ≤ f2 →
    StateRender.postprocessingAux f1 tokens = StateRender.postprocessingAux f2 tokens := by
  induction n with
  | zero =>
    intro tokens f1 f2 hd _ _
    have : tokens = [] := depthList_eq_zero tokens (by omega)
    subst this
    cases f1 <;> cases f2 <;> rfl
  | succ m ih =>
    intro tokens f1 f2 hd h1 h2
    obtain ⟨a, rfl⟩ : ∃ a, f1 = a + 1 := ⟨f1 - 1, by omega⟩
    obtain ⟨b, rfl⟩ : ∃ b, f2 = b + 1 := ⟨f2 - 1, by omega⟩
    show StateRender.mapE _ tokens = StateRender.mapE _ tokens
    apply mapE_congr
    intro token htoken
    apply postToken_congr
    intro ns hns
    have h3 := depth_le_depthList token tokens htoken
    exact ih ns a b (by omega) (by omega) (by omega)

theorem postprocessing_eq_of_fuel (tokens : List Node) (fuel : Nat)
    (h : StateRender.depthList tokens ≤ fuel) :
    StateRender.postprocessingAux fuel tokens = StateRender.postprocessing tokens :=
  postprocessingAux_fuel (StateRender.depthList tokens) tokens _ _ (le_refl _) h
    (Nat.le_succ _)

/-! ## Ordered-list numbering for a truthy start -/

theorem data?_setData (d : Data) (n : Node) : (n.setData d).data? = some d := by
  cases n <;> rfl

theorem data?_setNodes (ns : List Node) (n : Node) : (n.setNodes ns).data? = n.data? := by
  cases n <;> rfl

/-- The item loop numbers the items of an ordered list consecutively from `num`. -/
theorem itemsLoop_itemNums (post : List Node → Except String (List Node)) (items : List Node) :
    ∀ (s : Nat) (res : List Node),
      StateRender.itemsLoop post true (some s) items = Except.ok res →
      res.map (fun item => (item.data?.getD {}).itemNum)
        = (List.range' s items.length).map (fun k => some (some k)) := by
  induction items with
  | nil =>
    intro s res h
    have : res = [] := by
      simp only [StateRender.itemsLoop] at h
      cases h
      rfl
    subst this
    rfl
  | cons item rest ih =>
    intro s res h
    simp only [StateRender.itemsLoop, if_true] at h
    cases hn : item.nodes? with
    | none =>
      simp only [nodes?_setData, hn] at h
      cases hrest : StateRender.itemsLoop post true (Option.map (· + 1) (some s)) rest with
      | error e => rw [hrest] at h; cases h
      | ok r =>
        rw [hrest] at h
        cases h
        have := ih (s + 1) r hrest
        simp [data?_setData, this, List.range'_succ]
    | some ns =>
      simp only [nodes?_setData, hn] at h
      cases hp : post ns with
      | error e => rw [hp] at h; cases h
      | ok ns1 =>
        rw [hp] at h
        cases hrest : StateRender.itemsLoop post true (Option.map (· + 1) (some s)) rest with
        | error e => rw [hrest] at h; cases h
        | ok r =>
          rw [hrest] at h
          cases h
          have := ih (s + 1) r hrest
          simp [data?_setData, data?_setNodes, this, List.range'_succ]

/-- The start value taken by `postprocessing`: a declared start `s ≥ 1` is honoured, a
declared start 0 and a missing start both give 1. -/
theorem startNum_orderedList (nodes : List Node) (d : Option Data) (v : Bool)
    (tag : Option String) (s : Nat) :
    StateRender.startNum (Node.block "ordered-list" nodes d v tag (some [("start", AttrVal.num s)]))
      = some (if s = 0 then 1 else s) ∧
    StateRender.startNum (Node.block "ordered-list" nodes d v tag none) = some 1 := by
  refine ⟨?_, rfl⟩
  by_cases hs : s = 0
  · subst hs; rfl
  · have h : (s != 0) = true := by simpa using hs
    have h1 : StateRender.startNum
        (Node.block "ordered-list" nodes d v tag (some [("start", AttrVal.num s)]))
        = if (s != 0) = true then some s else some 1 := rfl
    rw [h1, h, if_neg hs]
    rfl

/-! ## Abbreviation definitions for a label that is not an inherited key -/

theorem serializeNodes_label (st : AbbrState) (t : String) (d : Option Data)
    (ht : serializeString t = some t) :
    serializeNodes st [Node.text [{ text := t }] d] = Except.ok (t, st) := by
  have h1 : serializeNodes st [Node.text [{ text := t }] d]
      = Except.ok (joinDefined [serializeString t] ++ "", st) := rfl
  rw [h1, ht]
  simp [joinDefined]

/-- The paragraph of one abbreviation reference: its text, followed by the definition
line when the label is new, with the entry marked used afterwards; or its text alone
when the label is already in the table and no entry is pending. -/
theorem serializeNode_abbrParagraph (L T : String) (hL : serializeString L = some L) :
    (∀ st : AbbrState, st.has L = false →
      serializeNode st (abbrParagraph L T)
        = Except.ok ([some (L ++ "\n"
              ++ abbrLines (st.abbreviations ++ [(L, ({ title := some T, use := false } : Abbr))]))],
            { abbreviations := (st.abbreviations ++ [(L, ({ title := some T, use := false } : Abbr))]).map
                (fun e : String × Abbr => (e.1, { e.2 with use := true })),
              hasNewAbbr := false })) ∧
    (∀ st : AbbrState, st.has L = true → st.hasNewAbbr = false →
      serializeNode st (abbrParagraph L T) = Except.ok ([some (L ++ "\n")], st)) := by
  have hne : L ≠ "" := serializeString_ne_empty L hL
  have hLb : (L != "") = true := by simpa using hne
  have hpar : ((L ++ "\n") != "") = true := by
    simpa using append_ne_empty_right L "\n" (by decide)
  have hinner : ∀ st : AbbrState,
      serializeNode st (abbrParagraph L T)
        = Except.ok
            ([(finishNode (finishNode (inlineRule st "abbr" { title := some T } L).2
                  { title := some T } (inlineRule st "abbr" { title := some T } L).1).2
                { level := some 0 }
                (some (joinDefined [(finishNode (inlineRule st "abbr" { title := some T } L).2
                  { title := some T } (inlineRule st "abbr" { title := some T } L).1).1]
                  ++ "" ++ "\n"))).1],
             (finishNode (finishNode (inlineRule st "abbr" { title := some T } L).2
                  { title := some T } (inlineRule st "abbr" { title := some T } L).1).2
                { level := some 0 }
                (some (joinDefined [(finishNode (inlineRule st "abbr" { title := some T } L).2
                  { title := some T } (inlineRule st "abbr" { title := some T } L).1).1]
                  ++ "" ++ "\n"))).2) := by
    intro st
    have h1 : serializeNode st (abbrParagraph L T)
        = (do
            let r ← (do
              let x ← (do
                let c ← serializeNodes st [Node.text [{ text := L }] none]
                let out := inlineRule c.2 "abbr" { title := some T } c.1
                let fin := finishNode out.2 { title := some T } out.1
                Except.ok ([fin.1], fin.2))
              let xs ← serializeNodes x.2 []
              Except.ok (joinDefined x.1 ++ xs.1, xs.2))
            let ret ← blockRule "paragraph"
              [Node.inline "abbr" false [Node.text [{ text := L }] none]
                (some { title := some T })] { level := some 0 } r.1
            let fin := finishNode r.2 { level := some 0 } ret
            Except.ok ([fin.1], fin.2)) := rfl
    rw [h1, serializeNodes_label st L none hL]
    rfl
  have hfin1 : ∀ st : AbbrState, finishNode st { title := some T } (some L) = (some L, st) := by
    intro st
    simp [finishNode, hLb, appendAbbrs]
  have hjoin : joinDefined [some L] ++ "" ++ "\n" = L ++ "\n" := by simp [joinDefined]
  constructor
  · intro st hnew
    have hrule : inlineRule st "abbr" { title := some T } L
        = (some L, { abbreviations := st.abbreviations ++ [(L, ({ title := some T, use := false } : Abbr))],
                     hasNewAbbr := true }) := by
      simp [inlineRule, hnew]
    rw [hinner st, hrule]
    simp only [hfin1, hjoin]
    simp [finishNode, hpar, appendAbbrs]
  · intro st hold hst
    have hrule : inlineRule st "abbr" { title := some T } L = (some L, st) := by
      simp [inlineRule, hold]
    rw [hinner st, hrule]
    simp only [hfin1, hjoin]
    simp [finishNode, hpar, appendAbbrs, hst]


/-- Two top-level paragraphs referring to the same abbreviation, for a label that
escaping leaves unchanged and that is not an inherited key, serialized from the empty
table: the definition line is appended once, directly after the first paragraph. -/
theorem serialize_abbr_defined_once (L T : String) (hL : serializeString L = some L)
    (hkey : objectPrototypeKeys.contains L = false) :
    serialize {} { nodes := [abbrParagraph L T, abbrParagraph L T] }
      = Except.ok
          (jsTrim (jsJoin "\n" [L ++ "\n" ++ ("*[" ++ L ++ "]: " ++ T ++ "\n"), L ++ "\n"]),
           { abbreviations := [(L, { title := some T, use := true })], hasNewAbbr := false }) := by
  obtain ⟨hnew, hold⟩ := serializeNode_abbrParagraph L T hL
  have h1 := hnew {} (by simpa [AbbrState.has] using hkey)
  have h2 := hold
    { abbreviations := [(L, { title := some T, use := true })], hasNewAbbr := false }
    (by simp [AbbrState.has]) rfl
  have hlines : abbrLines (([] : List (String × Abbr)) ++ [(L, { title := some T, use := false })])
      = "*[" ++ L ++ "]: " ++ T ++ "\n" := by
    simp [abbrLines, interp, String.join]
  have h1' : serializeNode {} (abbrParagraph L T)
      = Except.ok ([some (L ++ "\n" ++ ("*[" ++ L ++ "]: " ++ T ++ "\n"))],
          { abbreviations := [(L, { title := some T, use := true })], hasNewAbbr := false }) := by
    rw [h1]
    have : ({} : AbbrState).abbreviations = [] := rfl
    rw [this, hlines]
    rfl
  have hel := serializeElements_cons _ _ _ _ _ _ _ h1'
    (serializeElements_cons _ _ _ _ [] _ [] h2 rfl)
  have hser := serialize_of_elements _ _
    { nodes := [abbrParagraph L T, abbrParagraph L T] } _ hel
  rw [hser]
  simp [joinDefined]

/-! ## Which nodes the rules answer for: C11 -/

theorem serializeNode_block_eq (st st1 : AbbrState) (type : String) (nodes : List Node)
    (data : Option Data) (v : Bool) (tag : Option String) (a : Option Attrs) (c : String)
    (hc : serializeNodes st nodes = Except.ok (c, st1)) :
    serializeNode st (Node.block type nodes data v tag a)
      = (blockRule type nodes (data.getD {}) c).map
          (fun ret => ([(finishNode st1 (data.getD {}) ret).1],
                       (finishNode st1 (data.getD {}) ret).2)) := by
  have h1 : serializeNode st (Node.block type nodes data v tag a)
      = (do
          let r ← serializeNodes st nodes
          let ret ← blockRule type nodes (data.getD {}) r.1
          let fin := finishNode r.2 (data.getD {}) ret
          Except.ok ([fin.1], fin.2)) := rfl
  rw [h1, hc]
  show (do
          let ret ← blockRule type nodes (data.getD {}) c
          let fin := finishNode st1 (data.getD {}) ret
          Except.ok ([fin.1], fin.2)) = _
  cases blockRule type nodes (data.getD {}) c <;> rfl

theorem serializeNode_inline_eq (st st1 : AbbrState) (type : String) (nodes : List Node)
    (data : Option Data) (v : Bool) (c : String)
    (hc : serializeNodes st nodes = Except.ok (c, st1)) :
    serializeNode st (Node.inline type v nodes data)
      = Except.ok
          ([(finishNode (inlineRule st1 type (data.getD {}) c).2 (data.getD {})
              (inlineRule st1 type (data.getD {}) c).1).1],
           (finishNode (inlineRule st1 type (data.getD {}) c).2 (data.getD {})
              (inlineRule st1 type (data.getD {}) c).1).2) := by
  have h1 : serializeNode st (Node.inline type v nodes data)
      = (do
          let r ← serializeNodes st nodes
          let out := inlineRule r.2 type (data.getD {}) r.1
          let fin := finishNode out.2 (data.getD {}) out.1
          Except.ok ([fin.1], fin.2)) := rfl
  rw [h1, hc]
  rfl

theorem finishNode_defined (st : AbbrState) (data : Data) (r : String) (hr : r ≠ "") :
    ∃ s, s ≠ "" ∧ (finishNode st data (some r)).1 = some s := by
  have h : (r != "") = true := by simpa using hr
  by_cases hl : (data.level == some 0 && st.hasNewAbbr) = true
  · refine ⟨r ++ abbrLines st.abbreviations, append_ne_empty _ _ hr, ?_⟩
    simp [finishNode, h, appendAbbrs, hl]
  · refine ⟨r, hr, ?_⟩
    simp [finishNode, h, appendAbbrs, hl]

end ReactMarkdown
namespace ReactMarkdown

theorem blockRule_ruled (type : String) (nodes : List Node) (d : Data) (c : String)
    (h : type ∈ ruledBlockTypes) :
    ∃ r, r ≠ "" ∧ blockRule type nodes d c = Except.ok (some r) := by
  simp only [ruledBlockTypes, List.mem_cons, List.mem_singleton, List.not_mem_nil,
    or_false] at h
  rcases h with rfl | rfl | rfl | rfl | rfl | rfl | rfl | rfl | rfl | rfl | rfl | rfl | rfl
    | rfl | rfl | rfl | rfl | rfl | rfl | rfl | rfl | rfl | rfl
  · exact ⟨"# " ++ c, append_ne_empty _ _ (by decide), rfl⟩
  · exact ⟨"## " ++ c, append_ne_empty _ _ (by decide), rfl⟩
  · exact ⟨"### " ++ c, append_ne_empty _ _ (by decide), rfl⟩
  · exact ⟨"#### " ++ c, append_ne_empty _ _ (by decide), rfl⟩
  · exact ⟨"##### " ++ c, append_ne_empty _ _ (by decide), rfl⟩
  · exact ⟨"###### " ++ c, append_ne_empty _ _ (by decide), rfl⟩
  · exact ⟨c ++ "\n", append_ne_empty_right _ _ (by decide), rfl⟩
  · exact ⟨"---", by decide, rfl⟩
  · exact ⟨"---", by decide, rfl⟩
  · exact ⟨"```\n" ++ c ++ "\n```\n", append_ne_empty_right _ _ (by decide), rfl⟩
  · exact ⟨blockquoteRule c, append_ne_empty "\n" _ (by decide), rfl⟩
  · exact ⟨listRule c, append_ne_empty "\n" _ (by decide), rfl⟩
  · exact ⟨listRule c, append_ne_empty "\n" _ (by decide), rfl⟩
  · by_cases hp : (d.parent == some "unordered-list") = true
    · refine ⟨bulletPrefix d ++ " " ++ c ++ "\n", append_ne_empty_right _ _ (by decide), ?_⟩
      have h1 : blockRule "list-item" nodes d c
          = if (d.parent == some "unordered-list") = true then
              Except.ok (some (bulletPrefix d ++ " " ++ c ++ "\n"))
            else Except.ok (some (itemNumStr d ++ ". " ++ c ++ "\n")) := rfl
      rw [h1, if_pos hp]
    · refine ⟨itemNumStr d ++ ". " ++ c ++ "\n", append_ne_empty_right _ _ (by decide), ?_⟩
      have h1 : blockRule "list-item" nodes d c
          = if (d.parent == some "unordered-list") = true then
              Except.ok (some (bulletPrefix d ++ " " ++ c ++ "\n"))
            else Except.ok (some (itemNumStr d ++ ". " ++ c ++ "\n")) := rfl
      rw [h1, if_neg hp]
  · exact ⟨"\n" ++ c, append_ne_empty _ _ (by decide), rfl⟩
  · exact ⟨"| " ++ c ++ "\n", append_ne_empty_right _ _ (by decide), rfl⟩
  · exact ⟨c ++ " |", append_ne_empty_right _ _ (by decide), rfl⟩
  · exact ⟨c ++ " |", append_ne_empty_right _ _ (by decide), rfl⟩
  · exact ⟨c ++ "\n", append_ne_empty_right _ _ (by decide), rfl⟩
  · exact ⟨c ++ "\n", append_ne_empty_right _ _ (by decide), rfl⟩
  · exact ⟨"  ~ " ++ c ++ "\n", append_ne_empty_right _ _ (by decide), rfl⟩
  · exact ⟨ddRule c, append_ne_empty_right _ "\n" (by decide), rfl⟩
  · exact ⟨"[^" ++ interp d.label ++ "]: " ++ c, append_ne_empty _ _
      (append_ne_empty _ _ (append_ne_empty _ _ (by decide))), rfl⟩

end ReactMarkdown
namespace ReactMarkdown

/-- C11 (counterexample). The inline nodes the builder makes for a custom placeholder
and for a soft break have no serializer rule: `serializeNode` returns `undefined` for
them, and the paragraph content `a`, placeholder `$term`, soft break, `b` is rendered as
`ab`, the placeholder label being dropped. The `default` block built for a token with
an unknown tag gives `undefined` too. -/
theorem C11_unruled_nodes_undefined :
    Children.createNodes placeholderStream = Except.ok placeholderNodes ∧
    serializeNodes {} placeholderNodes = Except.ok ("ab", {}) ∧
    serializeNode {} (Node.inline "autocomplete" false [Node.text [{ text := "$term" }] none]
        (some { id := some "term" })) = Except.ok ([none], {}) ∧
    serializeNode {} SoftBreakNode = Except.ok ([none], {}) ∧
    getBlockNode { type := "container_open", tag := "div" }
      = Node.block "default" [] (some { level := some 0 }) false (some "div") none ∧
    serializeNode {} (Node.block "default" [] (some { level := some 0 }) false (some "div") none)
      = Except.ok ([none], {}) := by
  refine ⟨rfl, rfl, rfl, rfl, rfl, rfl⟩

/-- C11 (amended). For a node whose children serialize without failure to the text `c`:
a block whose type is one of heading1..6, paragraph, horizontal-rule, code,
blockquote, ordered-list, unordered-list, list-item, tbody, tr, th, td, dt, dt-simple,
dd, dd-simple, anchor gets a defined non-empty string; table, dl and dl-simple get one
when `c` is not empty; thead gets one when the block has a first row; a link or image
inline node gets one, and an abbr node gets one when `c` is not empty. The void block
types empty and abbr-def have no rule: `serializeNode` returns `undefined` for them. -/
theorem C11_ruled_nodes_defined (st st1 : AbbrState) (type : String) (nodes : List Node)
    (data : Option Data) (v : Bool) (tag : Option String) (a : Option Attrs) (c : String)
    (hc : serializeNodes st nodes = Except.ok (c, st1)) :
    (type ∈ ruledBlockTypes → ∃ s st2, s ≠ "" ∧
      serializeNode st (Node.block type nodes data v tag a) = Except.ok ([some s], st2)) ∧
    (type ∈ passThroughBlockTypes → c ≠ "" → ∃ s st2, s ≠ "" ∧
      serializeNode st (Node.block type nodes data v tag a) = Except.ok ([some s], st2)) ∧
    (type = "thead" → (∃ first rest cols, nodes = first :: rest ∧ first.nodes? = some cols) →
      ∃ s st2, s ≠ "" ∧
      serializeNode st (Node.block type nodes data v tag a) = Except.ok ([some s], st2)) ∧
    (type ∈ unruledVoidBlockTypes →
      serializeNode st (Node.block type nodes data v tag a) = Except.ok ([none], st1)) ∧
    (type = "link" ∨ type = "image" → ∃ s st2, s ≠ "" ∧
      serializeNode st (Node.inline type v nodes data) = Except.ok ([some s], st2)) ∧
    (type = "abbr" → c ≠ "" → ∃ s st2, s ≠ "" ∧
      serializeNode st (Node.inline type v nodes data) = Except.ok ([some s], st2)) := by
  have key : ∀ r, r ≠ "" → blockRule type nodes (data.getD {}) c = Except.ok (some r) →
      ∃ s st2, s ≠ "" ∧
        serializeNode st (Node.block type nodes data v tag a) = Except.ok ([some s], st2) := by
    intro r hr hrule
    obtain ⟨s, hs, hfin⟩ := finishNode_defined st1 (data.getD {}) r hr
    refine ⟨s, (finishNode st1 (data.getD {}) (some r)).2, hs, ?_⟩
    rw [serializeNode_block_eq st st1 type nodes data v tag a c hc, hrule, ← hfin]
    rfl
  have ikey : ∀ st2 r, r ≠ "" → inlineRule st1 type (data.getD {}) c = (some r, st2) →
      ∃ s st3, s ≠ "" ∧
        serializeNode st (Node.inline type v nodes data) = Except.ok ([some s], st3) := by
    intro st2 r hr hrule
    obtain ⟨s, hs, hfin⟩ := finishNode_defined st2 (data.getD {}) r hr
    refine ⟨s, (finishNode st2 (data.getD {}) (some r)).2, hs, ?_⟩
    rw [serializeNode_inline_eq st st1 type nodes data v c hc, hrule, ← hfin]
  refine ⟨?_, ?_, ?_, ?_, ?_, ?_⟩
  · intro h
    obtain ⟨r, hr, hrule⟩ := blockRule_ruled type nodes (data.getD {}) c h
    exact key r hr hrule
  · intro h hcne
    simp only [passThroughBlockTypes, List.mem_cons, List.mem_singleton, List.not_mem_nil,
      or_false] at h
    rcases h with rfl | rfl | rfl <;> exact key c hcne rfl
  · intro h hrow
    subst h
    obtain ⟨first, rest, cols, rfl, hcols⟩ := hrow
    refine key (c ++ "|" ++ String.join (List.replicate cols.length " --------- |"))
      (append_ne_empty _ _ (append_ne_empty_right _ _ (by decide))) ?_
    have h1 : blockRule "thead" (first :: rest) (data.getD {}) c
        = (do
            let n ← columnsCount (first :: rest)
            Except.ok (some (c ++ "|" ++ String.join (List.replicate n " --------- |")))) := rfl
    have h2 : columnsCount (first :: rest) = Except.ok cols.length := by
      simp [columnsCount, hcols]
    rw [h1, h2]
    rfl
  · intro h
    simp only [unruledVoidBlockTypes, List.mem_cons, List.mem_singleton, List.not_mem_nil,
      or_false] at h
    rcases h with rfl | rfl <;>
      · rw [serializeNode_block_eq st st1 _ nodes data v tag a c hc]
        rfl
  · intro h
    rcases h with rfl | rfl
    · exact ikey st1 ("[" ++ c ++ "](" ++ interp (data.getD {}).href ++ ")")
        (append_ne_empty_right _ _ (by decide)) rfl
    · exact ikey st1 ("![" ++ interp (data.getD {}).title ++ "](" ++ interp (data.getD {}).src
          ++ " \"" ++ interp (data.getD {}).alt ++ "\")")
        (append_ne_empty_right _ _ (by decide)) rfl
  · intro h hcne
    subst h
    exact ikey _ c hcne rfl

/-- Witness for C11 (amended): a paragraph with one plain text run, and an `empty`
void block. -/
theorem C11_ruled_nodes_defined_witness :
    ("paragraph" ∈ ruledBlockTypes ∧
      ∃ s st2, s ≠ "" ∧
        serializeNode {} (Node.block "paragraph" [Node.text [{ text := "x" }] none]
          none false none none) = Except.ok ([some s], st2)) ∧
    ("empty" ∈ unruledVoidBlockTypes ∧
      serializeNode {} (Node.block "empty" [] none true none none) = Except.ok ([none], {})) :=
  ⟨⟨by decide,
    (C11_ruled_nodes_defined {} {} "paragraph" [Node.text [{ text := "x" }] none]
      none false none none "x" rfl).1 (by decide)⟩,
   ⟨by decide,
    (C11_ruled_nodes_defined {} {} "empty" [] none true none none "" rfl).2.2.2.1
      (by decide)⟩⟩

/-! ## Leading heading markers: C12 -/

theorem dropWhile_hashes (n : Nat) (X : List Char) (hX : spaceOrEnd X = true) :
    (List.replicate n '#' ++ X).dropWhile (· == '#') = X := by
  induction n with
  | zero =>
    cases X with
    | nil => rfl
    | cons c cs =>
      have hc : c = ' ' := by simpa [spaceOrEnd] using hX
      subst hc
      rfl
  | succ k ih =>
    rw [List.replicate_succ, List.cons_append, List.dropWhile_cons_of_pos (by decide)]
    exact ih

theorem leadingMarker_hashes (n : Nat) (X : List Char) (hX : spaceOrEnd X = true) :
    leadingMarker (List.replicate (n + 1) '#' ++ X) = true := by
  have h := dropWhile_hashes (n + 1) X hX
  rw [List.replicate_succ, List.cons_append] at h ⊢
  show spaceOrEnd (('#' :: (List.replicate n '#' ++ X)).dropWhile (· == '#')) = true
  rw [h]
  exact hX

theorem escapeWrappedAux_hash (f : Nat) (cs : List Char) :
    escapeWrappedAux (f + 1) ('#' :: cs) = '#' :: escapeWrappedAux f cs := rfl

theorem escapeWrappedAux_backslash (f : Nat) (cs : List Char) :
    escapeWrappedAux (f + 1) ('\\' :: cs) = '\\' :: escapeWrappedAux f cs := rfl

theorem escapeWrappedAux_hashes (n f : Nat) (X : List Char) :
    escapeWrappedAux (n + f) (List.replicate n '#' ++ X)
      = List.replicate n '#' ++ escapeWrappedAux f X := by
  induction n with
  | zero => simp
  | succ k ih =>
    have : k + 1 + f = (k + f) + 1 := by omega
    rw [this, List.replicate_succ, List.cons_append, escapeWrappedAux_hash, ih]
    rfl

theorem flatMap_typographic_hashes (n : Nat) (Y : List Char) :
    (List.replicate n '#' ++ Y).flatMap typographic
      = List.replicate n '#' ++ Y.flatMap typographic := by
  induction n with
  | zero => simp
  | succ k ih =>
    rw [List.replicate_succ, List.cons_append, List.flatMap_cons, ih]
    rfl

/-- The escaped text of `n + 1` characters `#` followed by a space or the end starts
with a backslash and the same run of `#`. -/
theorem escapeText_hashes (n : Nat) (X : List Char) (hX : spaceOrEnd X = true) :
    ∃ tail : List Char,
      escapeText (String.mk (List.replicate (n + 1) '#' ++ X))
        = String.mk ('\\' :: (List.replicate (n + 1) '#' ++ tail)) := by
  refine ⟨(escapeWrappedAux (X.length + 1) X).flatMap typographic, ?_⟩
  unfold escapeText escapeLeading
  rw [leadingMarker_hashes n X hX, if_pos rfl]
  unfold escapeWrapped
  have hlen : ('\\' :: (List.replicate (n + 1) '#' ++ X)).length + 1
      = ((n + 1) + (X.length + 1)) + 1 := by
    simp
    omega
  rw [hlen, escapeWrappedAux_backslash, escapeWrappedAux_hashes, List.flatMap_cons,
    flatMap_typographic_hashes]
  rfl

end ReactMarkdown
namespace ReactMarkdown

theorem serializeString_of_escapeText (s : String) (cs : List Char)
    (h : escapeText s = String.mk ('\\' :: cs)) :
    serializeString s = some ("\\" ++ String.mk cs) := by
  unfold serializeString
  rw [h]
  have hne : (String.mk ('\\' :: cs) != "") = true := by
    have : String.mk ('\\' :: cs) ≠ "" := by
      intro he
      have := congrArg String.data he
      simp at this
    simpa using this
  rw [if_pos hne]
  rfl

/-- C12. For every n ≥ 1 and every string `rest`, `serializeString` applied to n
characters `#` followed by a space and `rest`, or followed by the end of the text,
returns a string that begins with a backslash immediately followed by the n
characters `#`. -/
theorem C12_heading_marker_escaped (n : Nat) (hn : 1 ≤ n) (rest : String) :
    (∃ tail : String,
      serializeString (hashes n ++ " " ++ rest) = some ("\\" ++ hashes n ++ tail)) ∧
    (∃ tail : String, serializeString (hashes n) = some ("\\" ++ hashes n ++ tail)) := by
  obtain ⟨k, rfl⟩ : ∃ k, n = k + 1 := ⟨n - 1, by omega⟩
  constructor
  · obtain ⟨tail, ht⟩ := escapeText_hashes k (' ' :: rest.data) rfl
    have hs : hashes (k + 1) ++ " " ++ rest
        = String.mk (List.replicate (k + 1) '#' ++ ' ' :: rest.data) := by
      apply String.ext
      simp [hashes, String.data_append]
    refine ⟨String.mk tail, ?_⟩
    rw [hs, serializeString_of_escapeText _ _ ht]
    exact congrArg some (String.ext (by simp [hashes, String.data_append]))
  · obtain ⟨tail, ht⟩ := escapeText_hashes k [] rfl
    have hs : hashes (k + 1) = String.mk (List.replicate (k + 1) '#' ++ []) := by
      apply String.ext
      simp [hashes]
    refine ⟨String.mk tail, ?_⟩
    rw [hs, serializeString_of_escapeText _ _ ht]
    exact congrArg some (String.ext (by simp [hashes, String.data_append]))

/-- Witness for C12: the text `# not a heading`. -/
theorem C12_heading_marker_escaped_witness :
    serializeString "# not a heading" = some "\\# not a heading" ∧
    (∃ tail : String,
      serializeString (hashes 1 ++ " " ++ "not a heading") = some ("\\" ++ hashes 1 ++ tail)) ∧
    (∃ tail : String, serializeString (hashes 1) = some ("\\" ++ hashes 1 ++ tail)) :=
  ⟨by decide, C12_heading_marker_escaped 1 (by decide) "not a heading"⟩

/-! ## Escaping of list markers and of wrapped runs: C13, C14 -/

theorem matchDelimiter_head_ne (e1 : Char) (erest : List Char) (c : Char) (cs : List Char)
    (h : (e1 == c) = false) : matchDelimiter (e1 :: erest) (c :: cs) = none := by
  simp [matchDelimiter, List.isPrefixOf, h]

theorem matchDelimiter_double (d c0 : Char) (cs : List Char) (h : (d == c0) = false) :
    matchDelimiter [d, d] (d :: c0 :: cs) = none := by
  simp [matchDelimiter, List.isPrefixOf, h]

theorem lastOccurrence_end (d : Char) (s : List Char) :
    lastOccurrence [d] (s ++ [d]) = some s.length := by
  induction s with
  | nil => simp [lastOccurrence, List.isPrefixOf]
  | cons c cs ih => simp [lastOccurrence, ih]

theorem takeWhile_all {α : Type} (p : α → Bool) (l : List α) (h : ∀ x ∈ l, p x = true) :
    l.takeWhile p = l := by
  induction l with
  | nil => rfl
  | cons a as ih =>
    rw [List.takeWhile_cons_of_pos (h a (List.mem_cons_self a as)),
      ih (fun x hx => h x (List.mem_cons_of_mem a hx))]

theorem matchDelimiter_single (d c0 : Char) (s : List Char)
    (hd : isLineTerminator d = false)
    (hs : ∀ c ∈ c0 :: s, isLineTerminator c = false) :
    matchDelimiter [d] (d :: ((c0 :: s) ++ [d])) = some (c0 :: s, []) := by
  have hline : ((c0 :: s) ++ [d]).takeWhile (fun c => !isLineTerminator c) = (c0 :: s) ++ [d] := by
    apply takeWhile_all
    intro x hx
    rcases List.mem_append.1 hx with hx | hx
    · simp [hs x hx]
    · have : x = d := by simpa using hx
      simp [this, hd]
  have h1 : matchDelimiter [d] (d :: ((c0 :: s) ++ [d]))
      = (match ((c0 :: s) ++ [d]).takeWhile (fun c => !isLineTerminator c) with
          | [] => none
          | _ :: line =>
            match lastOccurrence [d] line with
            | some k => some (((c0 :: s) ++ [d]).take (k + 1), ((c0 :: s) ++ [d]).drop (k + 1 + 1))
            | none => none) := by
    simp [matchDelimiter, List.isPrefixOf]
  rw [h1, hline]
  show (match lastOccurrence [d] (s ++ [d]) with
          | some k => some (((c0 :: s) ++ [d]).take (k + 1), ((c0 :: s) ++ [d]).drop (k + 1 + 1))
          | none => none) = _
  rw [lastOccurrence_end]
  simp

end ReactMarkdown
namespace ReactMarkdown

theorem matchWrapped_single (d c0 : Char) (s : List Char) (hd : d ∈ delimiterChars)
    (hc0 : c0 ∉ delimiterChars)
    (hs : ∀ c ∈ c0 :: s, isLineTerminator c = false) :
    matchWrapped (d :: c0 :: (s ++ [d])) delimiters = some ([d], c0 :: s, []) := by
  have hne : (d == c0) = false := by
    have : d ≠ c0 := fun h => hc0 (h ▸ hd)
    simpa using this
  have hsingle : ∀ e : Char, isLineTerminator e = false →
      matchDelimiter [e] (e :: c0 :: (s ++ [e])) = some (c0 :: s, []) :=
    fun e he => matchDelimiter_single e c0 s he hs
  have hdouble : ∀ cs : List Char, matchDelimiter [d, d] (d :: c0 :: cs) = none :=
    fun cs => matchDelimiter_double d c0 cs hne
  simp only [delimiterChars, List.mem_cons, List.mem_singleton, List.not_mem_nil,
    or_false] at hd
  rcases hd with rfl | rfl | rfl | rfl | rfl | rfl
  all_goals
    simp only [matchWrapped, delimiters, List.cons_append]
    simp (disch := decide) only [matchDelimiter_head_ne, hdouble, hsingle]

end ReactMarkdown
namespace ReactMarkdown

theorem escapeWrappedAux_nil (f : Nat) : escapeWrappedAux f [] = [] := by
  cases f <;> rfl

theorem leadingMarker_delimiter (d : Char) (cs : List Char) (hd : d ∈ delimiterChars) :
    leadingMarker (d :: cs) = false := by
  simp only [delimiterChars, List.mem_cons, List.mem_singleton, List.not_mem_nil,
    or_false] at hd
  rcases hd with rfl | rfl | rfl | rfl | rfl | rfl <;> rfl

theorem typographic_delimiter (d : Char) (hd : d ∈ delimiterChars) : typographic d = [d] := by
  simp only [delimiterChars, List.mem_cons, List.mem_singleton, List.not_mem_nil,
    or_false] at hd
  rcases hd with rfl | rfl | rfl | rfl | rfl | rfl <;> rfl

theorem isLineTerminator_delimiter (d : Char) (hd : d ∈ delimiterChars) :
    isLineTerminator d = false := by
  simp only [delimiterChars, List.mem_cons, List.mem_singleton, List.not_mem_nil,
    or_false] at hd
  rcases hd with rfl | rfl | rfl | rfl | rfl | rfl <;> rfl

/-- The escaped text of a non-empty body without delimiter characters and line
terminators, wrapped in a one-character delimiter. -/
theorem escapeText_single (d c0 : Char) (s : List Char) (hd : d ∈ delimiterChars)
    (hc0 : c0 ∉ delimiterChars) (hs : ∀ c ∈ c0 :: s, isLineTerminator c = false) :
    escapeText (String.mk (d :: c0 :: (s ++ [d])))
      = String.mk ('\\' :: d :: ((c0 :: s).flatMap typographic ++ ['\\', d])) := by
  unfold escapeText escapeLeading
  rw [leadingMarker_delimiter d _ hd]
  simp only [Bool.false_eq_true, if_false]
  unfold escapeWrapped
  have h1 : escapeWrappedAux ((d :: c0 :: (s ++ [d])).length + 1) (d :: c0 :: (s ++ [d]))
      = (match matchWrapped (d :: c0 :: (s ++ [d])) delimiters with
          | some (e, body, rest) =>
              ('\\' :: e) ++ body ++ ('\\' :: e)
                ++ escapeWrappedAux (d :: c0 :: (s ++ [d])).length rest
          | none => d :: escapeWrappedAux (d :: c0 :: (s ++ [d])).length (c0 :: (s ++ [d]))) := rfl
  rw [h1, matchWrapped_single d c0 s hd hc0 hs]
  simp only [escapeWrappedAux_nil]
  simp [List.flatMap_append, typographic_delimiter d hd]
  rfl

end ReactMarkdown
namespace ReactMarkdown

/-- C13 (the code at the failing input). Leaf texts that begin with a list or ordinal
marker followed by a space are returned unchanged: the marker alternatives of the
first pattern all require at least one space before the marker. With a leading space
the backslash is put before that space, not before the marker. -/
theorem C13_list_marker_not_escaped :
    serializeString "- item" = some "- item" ∧
    serializeString "+ item" = some "+ item" ∧
    serializeString "* item" = some "* item" ∧
    serializeString "1. item" = some "1. item" ∧
    serializeString "1) item" = some "1) item" ∧
    serializeString " - item" = some "\\ - item" := by
  decide

/-- C14 (counterexample). For a two-character delimiter one backslash is put before
each occurrence, so the second character of both occurrences follows a delimiter
character, not a backslash; and a body holding a typographic character is changed. -/
theorem C14_double_delimiter_half_escaped :
    serializeString "**bold**" = some "\\**bold\\**" ∧
    serializeString "++ins++" = some "\\++ins\\++" ∧
    serializeString "~~gone~~" = some "\\~~gone\\~~" ∧
    serializeString "--x--" = some "\\--x\\--" ∧
    serializeString "*©*" = some "\\*(C)\\*" := by
  decide

/-- C14 (amended). For every one-character delimiter `d` in {+, -, *, backtick, ~, ^}
and every non-empty body `s` that contains no delimiter character and no line
terminator, `serializeString(d + s + d)` is a backslash, `d`, the body with its
typographic characters replaced by their ASCII equivalents, a backslash and `d`; when
the body holds no typographic character it is unchanged. -/
theorem C14_single_delimiter_escaped (d : Char) (hd : d ∈ delimiterChars) (s : String)
    (hne : s ≠ "")
    (hs : ∀ c ∈ s.data, c ∉ delimiterChars ∧ isLineTerminator c = false) :
    serializeString (String.mk [d] ++ s ++ String.mk [d])
      = some ("\\" ++ String.mk [d] ++ String.mk (s.data.flatMap typographic)
          ++ "\\" ++ String.mk [d]) ∧
    ((∀ c ∈ s.data, typographic c = [c]) →
      serializeString (String.mk [d] ++ s ++ String.mk [d])
        = some ("\\" ++ String.mk [d] ++ s ++ "\\" ++ String.mk [d])) := by
  obtain ⟨c0, cs, hdata⟩ : ∃ c0 cs, s.data = c0 :: cs := by
    cases h : s.data with
    | nil => exact absurd (String.ext h) hne
    | cons c0 cs => exact ⟨c0, cs, rfl⟩
  have hin : String.mk [d] ++ s ++ String.mk [d] = String.mk (d :: c0 :: (cs ++ [d])) := by
    apply String.ext
    simp [String.data_append, hdata]
  have hesc := escapeText_single d c0 cs hd
    ((hs c0 (by rw [hdata]; exact List.mem_cons_self c0 cs)).1)
    (fun c hc => (hs c (by rw [hdata]; exact hc)).2)
  have hmain : serializeString (String.mk [d] ++ s ++ String.mk [d])
      = some ("\\" ++ String.mk [d] ++ String.mk (s.data.flatMap typographic)
          ++ "\\" ++ String.mk [d]) := by
    rw [hin, serializeString_of_escapeText _ _ hesc]
    exact congrArg some (String.ext (by simp [String.data_append, hdata]))
  refine ⟨hmain, fun htyp => ?_⟩
  rw [hmain]
  have hflat : s.data.flatMap typographic = s.data := by
    have : ∀ l : List Char, (∀ c ∈ l, typographic c = [c]) → l.flatMap typographic = l := by
      intro l
      induction l with
      | nil => intro _; rfl
      | cons a as ih =>
        intro h
        rw [List.flatMap_cons, h a (List.mem_cons_self a as),
          ih (fun c hc => h c (List.mem_cons_of_mem a hc))]
        rfl
    exact this s.data htyp
  rw [hflat]

/-- Witness for C14 (amended): the text `*it*`. -/
theorem C14_single_delimiter_escaped_witness :
    '*' ∈ delimiterChars ∧
    serializeString (String.mk ['*'] ++ "it" ++ String.mk ['*'])
      = some ("\\" ++ String.mk ['*'] ++ "it" ++ "\\" ++ String.mk ['*']) ∧
    ("\\" ++ String.mk ['*'] ++ "it" ++ "\\" ++ String.mk ['*'] : String) = "\\*it\\*" :=
  ⟨by decide,
   (C14_single_delimiter_escaped '*' (by decide) "it" (by decide) (by decide)).2 (by decide),
   by decide⟩

/-! ## Marks, lists, images and code blocks in the serializer: C15 – C18 -/

/-- C15 (the code at the failing input). For the delimiter `++` the parser's mark table
gives the type `underline`, for which the mark rule has no case (its case is named
`insert`): `serializeRange` returns `undefined` for the run, so the text is not emitted
as `++new++` but dropped from the rendered children. -/
theorem C15_underline_mark_not_serialized :
    Children.createNodes (markStream "ins" "++" "new")
      = Except.ok [Node.text
          [{ text := "new", marks := some [{ type := some "underline", markup := "++" }] }]
          none] ∧
    serializeRange
        { text := "new", marks := some [{ type := some "underline", markup := "++" }] }
      = none ∧
    serializeNodes {} [Node.text
          [{ text := "new", marks := some [{ type := some "underline", markup := "++" }] }]
          none]
      = Except.ok ("", {}) := by
  refine ⟨rfl, rfl, rfl⟩

/-- The other delimiters of the mark table round-trip: the run built for open, text
`t`, close is serialized as `d + t + d`. -/
theorem ruledMarks_round_trip (name d t : String) (h : (name, d) ∈ ruledMarks)
    (ht : serializeString t = some t) :
    ∃ type, Children.createNodes (markStream name d t)
        = Except.ok [Node.text [{ text := t, marks := some [{ type := some type, markup := d }] }]
            none] ∧
      serializeRange { text := t, marks := some [{ type := some type, markup := d }] }
        = some (d ++ t ++ d) := by
  have key : ∀ type : String, ∀ mk : String,
      markRule { type := some type, markup := mk } (some t) = some (mk ++ t ++ mk) →
      serializeRange { text := t, marks := some [{ type := some type, markup := mk }] }
        = some (mk ++ t ++ mk) := by
    intro type mk hrule
    have h1 : serializeRange { text := t, marks := some [{ type := some type, markup := mk }] }
        = markRule { type := some type, markup := mk } (serializeString t) := rfl
    rw [h1, ht, hrule]
  simp only [ruledMarks, List.mem_cons, List.mem_singleton, List.not_mem_nil, or_false,
    Prod.mk.injEq] at h
  rcases h with ⟨rfl, rfl⟩ | ⟨rfl, rfl⟩ | ⟨rfl, rfl⟩ | ⟨rfl, rfl⟩ | ⟨rfl, rfl⟩ | ⟨rfl, rfl⟩
    | ⟨rfl, rfl⟩ | ⟨rfl, rfl⟩
  · exact ⟨"bold", rfl, key _ _ rfl⟩
  · exact ⟨"bold", rfl, key _ _ rfl⟩
  · exact ⟨"mark", rfl, key _ _ rfl⟩
  · exact ⟨"italic", rfl, key _ _ rfl⟩
  · exact ⟨"italic", rfl, key _ _ rfl⟩
  · exact ⟨"sup", rfl, key _ _ rfl⟩
  · exact ⟨"strikethrough", rfl, key _ _ rfl⟩
  · exact ⟨"sub", rfl, key _ _ rfl⟩

/-- C16 (the code at the failing input). `children.replace('\n\n', '\n')` replaces the
first occurrence only, once before and once after the indentation: with three blank
lines in the children one doubled line break is left in the result. -/
theorem C16_doubled_blank_line_left :
    listRule "a\n\nb\n\nc\n\nd" = "\n    a\n    b\n    c\n\n    d" ∧
    listRule "+ a\n    + x\n\n+ b\n    + y\n\n+ c\n    + z\n\n+ d\n    + w\n\n"
      = "\n    + a\n        + x\n    + b\n        + y\n    + c\n        + z\n\n    + d\n        + w\n\n" := by
  decide

/-- C17 (the code at the failing input). For an image token without a title attribute
the builder leaves `data.alt` out, and the image rule interpolates the missing value:
the output holds the text `undefined` between the quotes instead of nothing. -/
theorem C17_image_without_alt :
    Children.createNodes [imageToken "logo" "/logo.png" none]
      = Except.ok [Node.inline "image" true []
          (some { title := some "logo", src := some "/logo.png" })] ∧
    serializeNode {} (Node.inline "image" true []
        (some { title := some "logo", src := some "/logo.png" }))
      = Except.ok ([some "![logo](/logo.png \"undefined\")"], {}) := by
  refine ⟨rfl, rfl⟩


theorem joinDefined_serializeString_eq (t : String) :
    joinDefined [serializeString t] = escapeText t := by
  unfold serializeString
  by_cases h : (escapeText t != "") = true
  · simp [h, joinDefined]
  · have : escapeText t = "" := by simpa using h
    simp [this, joinDefined]

/-- C18 (counterexample). The content of a code block goes through leaf-text escaping
like any other text run: the stored content `# comment` is emitted with a backslash
before the `#`, and `a * b * c` with backslashes before both `*`. -/
theorem C18_code_content_escaped :
    StateRender.parse {} [fenceToken "# comment"] = Except.ok [codeBlock "# comment"] ∧
    serializeNode {} (codeBlock "# comment")
      = Except.ok ([some "```\n\\# comment\n```\n"], {}) ∧
    serializeNode {} (codeBlock "a * b * c")
      = Except.ok ([some "```\na \\* b \\* c\n```\n"], {}) := by
  refine ⟨rfl, rfl, rfl⟩

theorem serializeNode_code (t : String) (d0 d : Option Data) (v : Bool)
    (tag : Option String) (a : Option Attrs) (st : AbbrState) (hst : st.hasNewAbbr = false) :
    serializeNode st (Node.block "code" [Node.text [{ text := t }] d0] d v tag a)
      = Except.ok ([some ("```\n" ++ escapeText t ++ "\n```\n")], st) := by
  have hc : serializeNodes st [Node.text [{ text := t }] d0]
      = Except.ok (escapeText t, st) := by
    have h1 : serializeNodes st [Node.text [{ text := t }] d0]
        = Except.ok (joinDefined [serializeString t] ++ "", st) := rfl
    rw [h1, joinDefined_serializeString_eq]
    simp
  have h2 := serializeNode_block_eq st st "code" [Node.text [{ text := t }] d0] d v tag a _ hc
  have h3 : serializeNode st (Node.block "code" [Node.text [{ text := t }] d0] d v tag a)
      = Except.ok ([(finishNode st (d.getD {})
            (some ("```\n" ++ escapeText t ++ "\n```\n"))).1],
          (finishNode st (d.getD {})
            (some ("```\n" ++ escapeText t ++ "\n```\n"))).2) := h2
  rw [h3, finishNode_noNew st hst _ _ (append_ne_empty_right _ _ (by decide))]

theorem getBlockNode_code (token : Token) (htag : token.tag = "code") :
    ∃ d : Data, d.level = some token.level ∧
      getBlockNode token = Node.block "code" [] (some d) false (some "code") token.attrs := by
  unfold getBlockNode BlockNode
  simp only [htag]
  cases token.tmeta with
  | none => exact ⟨_, rfl, rfl⟩
  | some m => exact ⟨_, rfl, rfl⟩

/-- C18 (amended). For every code-tagged leaf token, whatever its type, markup, level
and attributes, `processing` builds a block of type `code` that holds exactly one text
node with one run, the content the token has at that moment, and puts it at the top
level (level 0) or among the children of the current block. Serializing such a block
with no abbreviation definition pending yields the opening fence line of three
backticks, then the stored content after leaf-text escaping, then the closing fence
line; the content is emitted as stored when escaping leaves it unchanged. -/
theorem C18_code_block_fenced (token : Token) (hleaf : isCodeLeaf token = true) :
    (∃ d : Data, d.level = some token.level ∧
      ∀ (s : StateRender) (previousType : String),
        StateRender.processToken s previousType token
          = if s.level == 0 then
              Except.ok (StateRender.saveCurrentBlock
                { s with currentBlock := some (codeBlockOf token d) })
            else
              match s.currentBlock with
              | some cur =>
                  Except.ok { s with currentBlock := some (cur.pushNode (codeBlockOf token d)) }
              | none => Except.error "TypeError: Cannot read property 'nodes' of null") ∧
    (∀ (d0 d : Option Data) (v : Bool) (tag : Option String) (a : Option Attrs)
        (st : AbbrState), st.hasNewAbbr = false →
      serializeNode st (Node.block "code" [Node.text [{ text := token.content }] d0] d v tag a)
        = Except.ok ([some ("```\n" ++ escapeText token.content ++ "\n```\n")], st)) ∧
    (escapeText token.content = token.content →
      ∀ (d0 d : Option Data) (v : Bool) (tag : Option String) (a : Option Attrs)
        (st : AbbrState), st.hasNewAbbr = false →
      serializeNode st (Node.block "code" [Node.text [{ text := token.content }] d0] d v tag a)
        = Except.ok ([some ("```\n" ++ token.content ++ "\n```\n")], st)) := by
  simp only [isCodeLeaf, Bool.and_eq_true, beq_iff_eq, bne_iff_ne, ne_eq] at hleaf
  obtain ⟨⟨⟨⟨htag, hty⟩, hinl⟩, hopen⟩, hclose⟩ := hleaf
  refine ⟨?_, ?_, ?_⟩
  · obtain ⟨d, hd, hb⟩ := getBlockNode_code token htag
    refine ⟨d, hd, fun s prev => ?_⟩
    have h1 : StateRender.processToken s prev token = StateRender.addCodeBlock s token := by
      simp [StateRender.processToken, hty, hinl, hopen, hclose, htag]
    rw [h1]
    unfold StateRender.addCodeBlock
    rw [hb]
    rfl
  · intro d0 d v tag a st hst
    exact serializeNode_code token.content d0 d v tag a st hst
  · intro he d0 d v tag a st hst
    have := serializeNode_code token.content d0 d v tag a st hst
    rw [he] at this
    exact this

/-- Witness for C18 (amended): an indented code token inside an open block. -/
theorem C18_code_block_fenced_witness :
    isCodeLeaf { type := "code_block", tag := "code", level := 1, content := "let x = 1;" }
      = true ∧
    escapeText "let x = 1;" = "let x = 1;" ∧
    serializeNode {} (Node.block "code" [Node.text [{ text := "let x = 1;" }] none]
        (some { level := some 1 }) false (some "code") none)
      = Except.ok ([some ("```\n" ++ "let x = 1;" ++ "\n```\n")], {}) :=
  ⟨by decide, by decide,
   (C18_code_block_fenced
      { type := "code_block", tag := "code", level := 1, content := "let x = 1;" }
      (by decide)).2.2 (by decide) none (some { level := some 1 }) false (some "code") none
      {} rfl⟩

/-! ## Inline builder: C19, C20 -/

/-- C19 (the code at the failing input). `createImage` assigns the image to `currNode`
without flushing it first, as the other creators do: the pending text node with the
run `see ` is overwritten and the result holds the image node alone. -/
theorem C19_text_before_image_discarded :
    Children.createNodes [textToken "see ", imageToken "logo" "/logo.png" (some "Logo")]
      = Except.ok [Node.inline "image" true []
          (some { title := some "logo", src := some "/logo.png", alt := some "Logo" })] := by
  rfl

/-- C20 (the code at the failing input). `addText` assigns the label instead of appending
to it: for link-open, text `a `, emphasis open, text `b`, emphasis close, link-close
the link's text child is `b`, not `a b`; two text tokens in a row behave alike. -/
theorem C20_link_label_overwritten :
    Children.createNodes
        [linkOpen "/u", textToken "a ", { type := "em_open", markup := "*" }, textToken "b",
         { type := "em_close", markup := "*" }, { type := "link_close" }]
      = Except.ok [Node.inline "link" false [Node.text [{ text := "b" }] none]
          (some { href := some "/u" })] ∧
    Children.createNodes
        [linkOpen "/u", textToken "a ", textToken "b", { type := "link_close" }]
      = Except.ok [Node.inline "link" false [Node.text [{ text := "b" }] none]
          (some { href := some "/u" })] := by
  refine ⟨rfl, rfl⟩

/-! ## Inline code, code content, nested lists, rules and links: C21, C23, C25, C28, C29 -/

/-- C21 (the code at the failing input). The `TextBlock` constructor finds the mark of an
inline-code token by `markups[token.markup]`, and the table holds the single backtick
only: for a token whose markup records two backticks the run is built without any
mark. A single backtick and an emoji token give their one mark. -/
theorem C21_double_backtick_code_unmarked :
    Children.createNodes [{ type := "code_inline", markup := "``", content := "a`b" }]
      = Except.ok [Node.text [{ text := "a`b", marks := none }] none] ∧
    Children.createNodes [{ type := "code_inline", markup := "`", content := "x" }]
      = Except.ok [Node.text
          [{ text := "x", marks := some [{ type := some "code", markup := "`" }] }] none] ∧
    Children.createNodes [{ type := "emoji", markup := "smile", content := ":)" }]
      = Except.ok [Node.text
          [{ text := ":)", marks := some [{ type := some "emoji", markup := "smile" }] }] none] := by
  refine ⟨rfl, rfl, rfl⟩

/-- C23 (the code at the failing input). The loop of `preprocessing` runs while
`i + 1 < tokens.length`, so the last token is never visited: a fenced code token that
is the only token keeps its trailing line feed, while the same token followed by
another one loses it. -/
theorem C23_last_code_token_untrimmed :
    (StateRender.preprocessing [fenceToken "code\n"]).map (fun t => t.content) = ["code\n"] ∧
    (StateRender.preprocessing (paragraphTokens "x" ++ [fenceToken "code\n"])).map
        (fun t => t.content) = ["", "x", "", "code\n"] ∧
    (StateRender.preprocessing [fenceToken "code\n", { type := "hr", tag := "hr" }]).map
        (fun t => t.content) = ["code", ""] := by
  refine ⟨rfl, rfl, rfl⟩

/-- C25 (the code at the failing input). For a bullet list directly inside a blockquote
the list is one of the items of the blockquote: its descendants are tagged with
`blockquote`, and the recursion continues with the children of the list, so the case
of the list itself never runs. The list item keeps `data.parent = blockquote`, and the
list-item rule takes the ordered branch and prints the missing `itemNum`. -/
theorem C25_list_in_blockquote_tagged_blockquote :
    StateRender.parse {} blockquoteListTokens = Except.ok blockquoteListForest ∧
    (serialize {} { nodes := blockquoteListForest }).map (fun r => r.1)
      = Except.ok "> \n>     undefined. a\n>" := by
  refine ⟨rfl, rfl⟩

/-- C28 (the code at the failing input). `addHRBlock` assigns the rule block to
`currentBlock` while the blockquote is the current block: the blockquote with its
paragraph is overwritten, the rule is saved at the top level, and the forest holds the
rule alone. -/
theorem C28_rule_overwrites_open_container :
    (StateRender.processing {} (StateRender.preprocessing blockquoteRuleTokens)).map
        (fun s => s.blocks)
      = Except.ok [Node.block "horizontal-rule" []
          (some { markup := some "***", level := some 1 }) true (some "hr") none] ∧
    (StateRender.parse {} blockquoteRuleTokens).map (fun blocks => blocks.map Node.type?)
      = Except.ok [some "horizontal-rule"] := by
  refine ⟨rfl, rfl⟩

/-- C29 (the code at the failing input). A `link_open` token also runs through
`addTextToNode`, which records its markup `linkify` as an active mark; `link_close`
takes another branch and never removes it: the text run after the closed link carries
the mark `linkify`. -/
theorem C29_linkify_markup_stays_active :
    Children.createNodes linkifyStream
      = Except.ok
          [Node.text [{ text := "see ", marks := some [] }] none,
           Node.inline "link" false [Node.text [{ text := "http://x.com" }] none]
             (some { href := some "http://x.com" }),
           Node.text [{ text := " now",
                        marks := some [{ type := some "linkify", markup := "linkify" }] }]
             none] := by
  rfl

/-! ## Table tagging: C26 -/

theorem nearestTableAncestor_append (chain : List String) (t : String) :
    nearestTableAncestor (chain ++ [t])
      = if TABLES.contains t then some t else nearestTableAncestor chain := by
  unfold nearestTableAncestor
  rw [List.filter_append]
  by_cases h : t ∈ TABLES
  · simp [List.filter_cons, h]
  · simp [List.filter_cons, h]

mutual
theorem setRecursiveParentItem_tagged (p : String) (chain : List String) (n : Node)
    (hp : nearestTableAncestor chain = some p) :
    ∀ q ∈ nodeDescendants chain (StateRender.setRecursiveParentItem p n),
      q.2.parent? = nearestTableAncestor q.1 := by
  cases n with
  | text r d =>
    intro q hq
    simp only [StateRender.setRecursiveParentItem, nodeDescendants, List.mem_singleton] at hq
    subst hq
    simp [Node.parent?, Node.data?, hp]
  | inline t v ns d =>
    intro q hq
    simp only [StateRender.setRecursiveParentItem, nodeDescendants, List.mem_cons] at hq
    rcases hq with hq | hq
    · subst hq
      simp [Node.parent?, Node.data?, hp]
    · refine setRecursiveParent_tagged _ (chain ++ [t]) ns ?_ q hq
      rw [nearestTableAncestor_append]
      by_cases h : t ∈ TABLES
      · simp [h]
      · simp [h, hp]
  | block t ns d v tag a =>
    intro q hq
    simp only [StateRender.setRecursiveParentItem, nodeDescendants, List.mem_cons] at hq
    rcases hq with hq | hq
    · subst hq
      simp [Node.parent?, Node.data?, hp]
    · refine setRecursiveParent_tagged _ (chain ++ [t]) ns ?_ q hq
      rw [nearestTableAncestor_append]
      by_cases h : t ∈ TABLES
      · simp [h]
      · simp [h, hp]
theorem setRecursiveParent_tagged (p : String) (chain : List String) (ns : List Node)
    (hp : nearestTableAncestor chain = some p) :
    ∀ q ∈ listDescendants chain (StateRender.setRecursiveParent p ns),
      q.2.parent? = nearestTableAncestor q.1 := by
  cases ns with
  | nil =>
    intro q hq
    simp [StateRender.setRecursiveParent, listDescendants] at hq
  | cons n rest =>
    intro q hq
    simp only [StateRender.setRecursiveParent, listDescendants, List.mem_append] at hq
    rcases hq with hq | hq
    · exact setRecursiveParentItem_tagged p chain n hp q hq
    · exact setRecursiveParent_tagged p chain rest hp q hq
end


theorem type?_setNodes (ns : List Node) (n : Node) : (n.setNodes ns).type? = n.type? := by
  cases n <;> rfl

theorem nodes?_setNodes (ns : List Node) (n : Node) (t : String) (h : n.type? = some t) :
    (n.setNodes ns).nodes? = some ns := by
  cases n with
  | text r d => cases h
  | inline _ _ _ _ => rfl
  | block _ _ _ _ _ _ => rfl

theorem type?_setType (t : String) (n : Node) (s : String) (h : n.type? = some s) :
    (n.setType t).type? = some t := by
  cases n with
  | text r d => cases h
  | inline _ _ _ _ => rfl
  | block _ _ _ _ _ _ => rfl

theorem mapE_mem {α β : Type} (f : α → Except String β) (l : List α) :
    ∀ res, StateRender.mapE f l = Except.ok res → ∀ b ∈ res, ∃ a ∈ l, f a = Except.ok b := by
  induction l with
  | nil =>
    intro res h b hb
    simp only [StateRender.mapE] at h
    cases h
    cases hb
  | cons x xs ih =>
    intro res h b hb
    simp only [StateRender.mapE] at h
    cases hx : f x with
    | error e => rw [hx] at h; cases h
    | ok y =>
      rw [hx] at h
      cases hxs : StateRender.mapE f xs with
      | error e => rw [hxs] at h; cases h
      | ok ys =>
        rw [hxs] at h
        cases h
        rcases List.mem_cons.1 hb with hb | hb
        · exact ⟨x, List.mem_cons_self x xs, hb ▸ hx⟩
        · obtain ⟨a, ha, hfa⟩ := ih ys hxs b hb
          exact ⟨a, List.mem_cons_of_mem x ha, hfa⟩

/-- The table case of `postprocessing`: a token of type table is answered by the
same token with its children tagged, and only such a token gives a table. -/
theorem postToken_table (post : List Node → Except String (List Node)) (a b : Node)
    (h : StateRender.postToken post a = Except.ok b) (hb : b.type? = some "table") :
    a.type? = some "table" ∧
    b = a.setNodes (StateRender.setRecursiveParent "table" (a.nodes?.getD [])) := by
  unfold StateRender.postToken at h
  cases htype : a.type? with
  | none =>
    rw [htype] at h
    simp only at h
    cases h
    rw [htype] at hb
    cases hb
  | some type =>
    rw [htype] at h
    simp only at h
    by_cases h1 : TABLES.contains type = true
    · rw [if_pos h1] at h
      cases h
      rw [type?_setNodes, htype] at hb
      cases hb
      exact ⟨rfl, rfl⟩
    · rw [if_neg h1] at h
      exfalso
      have hne : type ≠ "table" := by
        intro he
        subst he
        exact h1 (by decide)
      by_cases h2 : LISTS_BLOCKQUOTES.contains type = true
      · rw [if_pos h2] at h
        cases hl : StateRender.itemsLoop post (type == "ordered-list") (StateRender.startNum a)
            (StateRender.setRecursiveParent type (a.nodes?.getD [])) with
        | error e => rw [hl] at h; cases h
        | ok items =>
          rw [hl] at h
          cases h
          rw [type?_setNodes, htype] at hb
          cases hb
          exact hne rfl
      · rw [if_neg h2] at h
        by_cases h3 : (type == "dl") = true
        · rw [if_pos h3] at h
          split at h
          · cases hm : StateRender.mapE StateRender.simplifyItem (a.nodes?.getD []) with
            | error e => rw [hm] at h; cases h
            | ok items =>
              rw [hm] at h
              cases h
              rw [type?_setNodes, type?_setType _ _ _ htype] at hb
              exact absurd hb (by decide)
          · cases h
            rw [htype] at hb
            cases hb
            exact hne rfl
        · rw [if_neg h3] at h
          cases h
          rw [htype] at hb
          cases hb
          exact hne rfl


/-- C26. Postprocessing a table succeeds and tags its children with `setRecursiveParent`;
and for every top-level table of a postprocessed forest, every descendant node (thead,
tbody, tr, th, td, inline and text nodes, nested tables and their descendants) has
`data.parent` equal to the type of its nearest proper ancestor among table, thead and
tbody. -/
theorem C26_table_descendants_tagged (tokens res : List Node) :
    (∀ (nodes : List Node) (d : Option Data) (v : Bool) (tag : Option String)
        (a : Option Attrs),
      StateRender.postprocessing [Node.block "table" nodes d v tag a]
        = Except.ok [Node.block "table" (StateRender.setRecursiveParent "table" nodes)
            d v tag a]) ∧
    (StateRender.postprocessing tokens = Except.ok res →
      ∀ T ∈ res, T.type? = some "table" →
        ∀ q ∈ listDescendants ["table"] (T.nodes?.getD []),
          q.2.parent? = nearestTableAncestor q.1) := by
  constructor
  · intro nodes d v tag a
    rfl
  · intro h T hT hty q hq
    have h1 : StateRender.mapE
        (StateRender.postToken (StateRender.postprocessingAux (StateRender.depthList tokens)))
        tokens = Except.ok res := h
    obtain ⟨src, _, hsrc⟩ := mapE_mem _ tokens res h1 T hT
    obtain ⟨hsty, hTeq⟩ := postToken_table _ src T hsrc hty
    rw [hTeq, nodes?_setNodes _ _ _ hsty] at hq
    exact setRecursiveParent_tagged "table" ["table"] (src.nodes?.getD []) rfl q hq

/-- Witness for C26: a table with a header row and a nested table in a body cell. -/
theorem C26_table_descendants_tagged_witness :
    StateRender.postprocessing [nestedTable]
      = Except.ok [nestedTable.setNodes
          (StateRender.setRecursiveParent "table" (nestedTable.nodes?.getD []))] ∧
    ∀ q ∈ listDescendants ["table"]
        ((nestedTable.setNodes
          (StateRender.setRecursiveParent "table" (nestedTable.nodes?.getD []))).nodes?.getD []),
      q.2.parent? = nearestTableAncestor q.1 :=
  ⟨rfl,
   (C26_table_descendants_tagged [nestedTable]
      [nestedTable.setNodes
        (StateRender.setRecursiveParent "table" (nestedTable.nodes?.getD []))]).2 rfl _
      (List.mem_singleton_self _) rfl⟩

/-! ## The block stack: C27 -/

theorem createBlock_openState (ctx blocks : List Node) (level : Int) (t : Token) :
    StateRender.createBlock (openState ctx blocks level) t
      = openState (getBlockNode t :: ctx) blocks (level + 1) := by
  cases ctx with
  | nil => rfl
  | cons c r =>
    cases r with
    | nil => rfl
    | cons p r' =>
      simp [StateRender.createBlock, openState]

theorem closeBlock_openState (c : Node) (ctx blocks : List Node) (level : Int) :
    StateRender.closeBlock (openState (c :: ctx) blocks level)
      = openStateWith ctx blocks (level - 1) c := by
  cases ctx with
  | nil => rfl
  | cons p r =>
    cases r with
    | nil => rfl
    | cons q r' =>
      simp [StateRender.closeBlock, StateRender.saveCurrentBlock,
        StateRender.moveParentBlockToCurrent, openState, openStateWith]


theorem processToken_open (s : StateRender) (prev : String) (t : Token)
    (h : getLastElemTokenType t.type = "open") :
    StateRender.processToken s prev t = Except.ok (StateRender.createBlock s t) := by
  have hne : (t.type != "") = true := by
    have : t.type ≠ "" := by
      intro he
      rw [he] at h
      exact absurd h (by decide)
    simpa using this
  simp [StateRender.processToken, hne, h]

theorem processToken_close (s : StateRender) (prev : String) (t : Token)
    (h : getLastElemTokenType t.type = "close") :
    StateRender.processToken s prev t = Except.ok (StateRender.closeBlock s) := by
  have hne : (t.type != "") = true := by
    have : t.type ≠ "" := by
      intro he
      rw [he] at h
      exact absurd h (by decide)
    simpa using this
  have hin : (t.type == "inline") = false := by
    have : t.type ≠ "inline" := by
      intro he
      rw [he] at h
      exact absurd h (by decide)
    simpa using this
  simp [StateRender.processToken, hne, h, hin]

theorem getBlockNode_shape (t : Token) :
    ∃ ty d v tag a, getBlockNode t = Node.block ty [] d v tag a := by
  unfold getBlockNode BlockNode
  split <;> exact ⟨_, _, _, _, _, rfl⟩

theorem foldl_pushNode_block (ty : String) (d : Option Data) (v : Bool) (tag : Option String)
    (a : Option Attrs) (bs : List Node) :
    ∀ ns, bs.foldl Node.pushNode (Node.block ty ns d v tag a)
      = Node.block ty (ns ++ bs) d v tag a := by
  induction bs with
  | nil => intro ns; simp
  | cons b rest ih =>
    intro ns
    simp only [List.foldl_cons, Node.pushNode]
    rw [ih]
    simp

theorem foldl_pushNode_getBlockNode (t : Token) (bs : List Node) :
    bs.foldl Node.pushNode (getBlockNode t) = (getBlockNode t).setNodes bs := by
  obtain ⟨ty, d, v, tag, a, h⟩ := getBlockNode_shape t
  rw [h, foldl_pushNode_block]
  rfl

theorem openStateWithAll_cons (ctx blocks : List Node) (level : Int) (b : Node)
    (bs : List Node) :
    openStateWithAll ctx blocks level (b :: bs)
      = (match ctx with
          | [] => openStateWithAll [] (blocks ++ [b]) level bs
          | c :: rest => openStateWithAll (c.pushNode b :: rest) blocks level bs) := by
  cases ctx with
  | nil => simp [openStateWithAll]
  | cons c rest => simp [openStateWithAll]


theorem processingFrom_cons (s : StateRender) (prev : String) (t : Token) (ts : List Token)
    (s1 : StateRender) (h : StateRender.processToken s prev t = Except.ok s1) :
    StateRender.processingFrom s prev (t :: ts) = StateRender.processingFrom s1 t.type ts := by
  have h0 : StateRender.processingFrom s prev (t :: ts)
      = (do
          let x ← StateRender.processToken s prev t
          StateRender.processingFrom x t.type ts) := rfl
  rw [h0, h]
  rfl

mutual
theorem processingFrom_tree (t : TokenTree) (ht : t.wellFormed = true) :
    ∀ (ctx blocks : List Node) (level : Int) (prev : String) (rest : List Token),
      ∃ prev', StateRender.processingFrom (openState ctx blocks level) prev (t.tokens ++ rest)
        = StateRender.processingFrom (openStateWith ctx blocks level t.block) prev' rest := by
  cases t with
  | node o c children =>
    intro ctx blocks level prev rest
    have hwf : (getLastElemTokenType o.type == "open"
        && getLastElemTokenType c.type == "close" && forestWellFormed children) = true := ht
    simp only [Bool.and_eq_true, beq_iff_eq] at hwf
    obtain ⟨⟨ho, hc⟩, hch⟩ := hwf
    obtain ⟨prev1, h1⟩ := processingFrom_forest children hch (getBlockNode o :: ctx) blocks
      (level + 1) o.type (c :: rest)
    refine ⟨c.type, ?_⟩
    have htok : (TokenTree.node o c children).tokens ++ rest
        = o :: (forestTokens children ++ c :: rest) := by
      simp [TokenTree.tokens]
    rw [htok, processingFrom_cons _ _ _ _ _ (processToken_open _ _ _ ho),
      createBlock_openState, h1]
    have hstate : openStateWithAll (getBlockNode o :: ctx) blocks (level + 1)
          (forestBlocks children)
        = openState ((getBlockNode o).setNodes (forestBlocks children) :: ctx) blocks
            (level + 1) := by
      simp only [openStateWithAll, foldl_pushNode_getBlockNode]
    rw [hstate, processingFrom_cons _ _ _ _ _ (processToken_close _ _ _ hc),
      closeBlock_openState]
    have hl : level + 1 - 1 = level := by omega
    rw [hl]
    rfl
theorem processingFrom_forest (f : List TokenTree) (hf : forestWellFormed f = true) :
    ∀ (ctx blocks : List Node) (level : Int) (prev : String) (rest : List Token),
      ∃ prev', StateRender.processingFrom (openState ctx blocks level) prev
          (forestTokens f ++ rest)
        = StateRender.processingFrom (openStateWithAll ctx blocks level (forestBlocks f))
            prev' rest := by
  cases f with
  | nil =>
    intro ctx blocks level prev rest
    refine ⟨prev, ?_⟩
    cases ctx <;> simp [forestTokens, forestBlocks, openStateWithAll]
  | cons t ts =>
    intro ctx blocks level prev rest
    have hwf : (t.wellFormed && forestWellFormed ts) = true := hf
    simp only [Bool.and_eq_true] at hwf
    obtain ⟨ht, hts⟩ := hwf
    obtain ⟨prev1, h1⟩ := processingFrom_tree t ht ctx blocks level prev
      (forestTokens ts ++ rest)
    have htok : forestTokens (t :: ts) ++ rest = t.tokens ++ (forestTokens ts ++ rest) := by
      simp [forestTokens]
    rw [htok, h1]
    have hb : forestBlocks (t :: ts) = t.block :: forestBlocks ts := by
      simp [forestBlocks]
    rw [hb, openStateWithAll_cons]
    cases ctx with
    | nil =>
      obtain ⟨prev2, h2⟩ := processingFrom_forest ts hts [] (blocks ++ [t.block]) level prev1 rest
      exact ⟨prev2, h2⟩
    | cons c r =>
      obtain ⟨prev2, h2⟩ := processingFrom_forest ts hts (c.pushNode t.block :: r) blocks level
        prev1 rest
      exact ⟨prev2, h2⟩
end


/-- C27. For every stream made only of open and close tokens that is well nested (the
token stream of a forest of open/close pairs), `processing` builds exactly the blocks
of that forest: one block per open token, each block holding as children the blocks of
the pairs nested directly in it, top-level blocks and siblings in token order; on
completion the stack is empty, `currentBlock` and `parentBlock` are `null` and the
level counter is back at 0. -/
theorem C27_processing_builds_nesting (forest : List TokenTree)
    (hwf : forestWellFormed forest = true) :
    StateRender.processing {} (forestTokens forest)
      = Except.ok { stack := [], level := 0, currentBlock := none,
                    blocks := forestBlocks forest, parentBlock := none } := by
  obtain ⟨prev, h⟩ := processingFrom_forest forest hwf [] [] 0 "" []
  have h0 : StateRender.processing {} (forestTokens forest)
      = StateRender.processingFrom (openState [] [] 0) "" (forestTokens forest ++ []) := by
    rw [List.append_nil]
    rfl
  rw [h0, h]
  simp [openStateWithAll, openState, StateRender.processingFrom]

/-- Witness for C27: a blockquote with two nested pairs followed by a list with one
item. -/
theorem C27_processing_builds_nesting_witness :
    forestWellFormed sampleForest = true ∧
    StateRender.processing {} (forestTokens sampleForest)
      = Except.ok { stack := [], level := 0, currentBlock := none,
                    blocks := forestBlocks sampleForest, parentBlock := none } :=
  ⟨by decide, C27_processing_builds_nesting sampleForest (by decide)⟩

theorem isMarkOpen_facts (t : InlineToken) (h : isMarkOpen t = true) :
    getLastElemTokenType t.type = "open" ∧ t.type ≠ "link_open" ∧ t.type ≠ "abbr_open"
      ∧ t.markup ≠ "" ∧ t.type ≠ "text" ∧ t.type ≠ "image" ∧ t.type ≠ "autocomplete"
      ∧ t.type ≠ "softbreak" ∧ t.type ≠ "link_close" ∧ t.type ≠ "abbr_close"
      ∧ t.type ≠ "code_inline" ∧ t.type ≠ "emoji" := by
  simp only [isMarkOpen, Bool.and_eq_true, beq_iff_eq, bne_iff_ne, ne_eq] at h
  obtain ⟨⟨⟨h1, h2⟩, h3⟩, h4⟩ := h
  refine ⟨h1, h2, h3, h4, ?_, ?_, ?_, ?_, ?_, ?_, ?_, ?_⟩ <;>
    (intro e; rw [e] at h1; exact absurd h1 (by decide))

theorem isMarkClose_facts (t : InlineToken) (h : isMarkClose t = true) :
    getLastElemTokenType t.type = "close" ∧ t.type ≠ "link_close" ∧ t.type ≠ "abbr_close"
      ∧ t.type ≠ "text" ∧ t.type ≠ "image" ∧ t.type ≠ "autocomplete"
      ∧ t.type ≠ "softbreak" ∧ t.type ≠ "link_open" ∧ t.type ≠ "abbr_open"
      ∧ t.type ≠ "code_inline" ∧ t.type ≠ "emoji" := by
  simp only [isMarkClose, Bool.and_eq_true, beq_iff_eq, bne_iff_ne, ne_eq] at h
  obtain ⟨⟨h1, h2⟩, h3⟩ := h
  refine ⟨h1, h2, h3, ?_, ?_, ?_, ?_, ?_, ?_, ?_, ?_⟩ <;>
    (intro e; rw [e] at h1; exact absurd h1 (by decide))

theorem isMarkOpen_not_close (t : InlineToken) (h : isMarkOpen t = true) :
    isMarkClose t = false := by
  have h1 := (isMarkOpen_facts t h).1
  simp [isMarkClose, h1]

theorem isMarkClose_not_open (t : InlineToken) (h : isMarkClose t = true) :
    isMarkOpen t = false := by
  have h1 := (isMarkClose_facts t h).1
  simp [isMarkOpen, h1]

theorem isPlainText_not_mark (t : InlineToken) (h : isPlainText t = true) :
    isMarkOpen t = false ∧ isMarkClose t = false := by
  have h1 : t.type = "text" := by simpa [isPlainText] using h
  have e : getLastElemTokenType "text" = "text" := by decide
  simp [isMarkOpen, isMarkClose, h1, e]


theorem ordinaryDelimiter_ne_proto (d : String) (h : ordinaryDelimiter d = true) :
    d ≠ "__proto__" := by
  intro e
  rw [e] at h
  exact absurd h (by decide)

theorem arrayIndex?_ordinary (d : String) (h : ordinaryDelimiter d = true) :
    arrayIndex? d = none := by
  have hd : (d.data.all Char.isDigit) = false := by
    simp only [ordinaryDelimiter, Bool.and_eq_true, Bool.not_eq_true'] at h
    exact h.2
  unfold arrayIndex?
  simp only [hd, Bool.and_false, Bool.false_and]
  rfl

theorem forInOrder_ordinary (keys : List String)
    (h : ∀ d ∈ keys, ordinaryDelimiter d = true) : forInOrder keys = keys := by
  have h1 : keys.filterMap (fun k => (arrayIndex? k).map (fun n => (n, k))) = [] := by
    rw [List.filterMap_eq_nil_iff]
    intro k hk
    rw [arrayIndex?_ordinary k (h k hk)]
    rfl
  have h2 : keys.filter (fun k => (arrayIndex? k).isNone) = keys := by
    rw [List.filter_eq_self]
    intro k hk
    rw [arrayIndex?_ordinary k (h k hk)]
    rfl
  unfold forInOrder
  rw [h1, h2]
  rfl

theorem step_markOpen (runs : List TextBlock) (M : List String) (t : InlineToken)
    (h : isMarkOpen t = true) (hd : M.contains t.markup = false)
    (ho : ordinaryDelimiter t.markup = true) :
    Children.step (collecting runs M) t = Except.ok (collecting runs (M ++ [t.markup])) := by
  obtain ⟨h1, h2, h3, h4, h5, h6, h7, h8, h9, h10, h11, h12⟩ := isMarkOpen_facts t h
  have hne : ("open" == "close") = false := by decide
  have hd1 : t.markup ∉ M := by simpa using hd
  have hp := ordinaryDelimiter_ne_proto t.markup ho
  simp [Children.step, Children.addTextToNode, collecting, h1, h2, h3, h4, h5, h6, h7, h8,
    h9, h10, h11, h12, hd1, hne, hp, bind, Except.bind, pure, Except.pure]

theorem step_markClose (runs : List TextBlock) (M : List String) (t : InlineToken)
    (h : isMarkClose t = true) (hM : M.contains "" = false) :
    Children.step (collecting runs M) t
      = Except.ok (collecting runs (M.filter (· != t.markup))) := by
  obtain ⟨h1, h2, h3, h5, h6, h7, h8, h9, h10, h11, h12⟩ := isMarkClose_facts t h
  have hne : ("close" == "open") = false := by decide
  by_cases hm : t.markup = ""
  · have hf : M.filter (· != "") = M := by
      rw [List.filter_eq_self]
      intro a ha
      simp only [bne_iff_ne, ne_eq]
      intro e
      subst e
      simp at hM
      exact hM ha
    simp [Children.step, Children.addTextToNode, collecting, h1, h2, h3, h5, h6, h7, h8,
      h9, h10, h11, h12, hne, hm, hf, bind, Except.bind, pure, Except.pure]
  · simp [Children.step, Children.addTextToNode, collecting, h1, h2, h3, h5, h6, h7, h8,
      h9, h10, h11, h12, hne, hm, bind, Except.bind, pure, Except.pure]

theorem step_plainText (runs : List TextBlock) (M : List String) (t : InlineToken)
    (h : isPlainText t = true) (hM : M.contains "" = false)
    (hord : ∀ d ∈ M, ordinaryDelimiter d = true) :
    Children.step (collecting runs M) t
      = Except.ok (collecting (runs ++ [{ text := t.content, marks := some (M.map markOf) }]) M) := by
  have h1 : t.type = "text" := by simpa [isPlainText] using h
  have e : getLastElemTokenType "text" = "text" := by decide
  have hf : M.filter (· != "") = M := by
    rw [List.filter_eq_self]
    intro a ha
    simp only [bne_iff_ne, ne_eq]
    intro e
    subst e
    simp at hM
    exact hM ha
  have e1 : ("text" == "open") = false := by decide
  have e2 : ("text" == "close") = false := by decide
  have hfo := forInOrder_ordinary M hord
  simp [Children.step, Children.addTextToNode, Children.addTextBlock, collecting, h1, e, e1, e2,
    TextBlock.setMarks, TextBlock.new, hfo, hf, Node.type?, bind, Except.bind, pure,
    Except.pure]
  split <;> simp [markOf]

theorem step_initial (t : InlineToken)
    (h : (isMarkOpen t || isMarkClose t || isPlainText t) = true) :
    Children.step {} t = Children.step (collecting [] []) t := by
  have hs : ∀ c : Children, (c.currNode = none ∨ c.currNode = some (.text [] none)) →
      Children.step c t = Children.addTextToNode c t := by
    intro c hc
    simp only [Bool.or_eq_true] at h
    rcases h with (h | h) | h
    · obtain ⟨h1, h2, h3, h4, h5, h6, h7, h8, h9, h10, h11, h12⟩ := isMarkOpen_facts t h
      simp [Children.step, h2, h3, h5, h6, h7, h8, h9, h10, bind, Except.bind]
    · obtain ⟨h1, h2, h3, h5, h6, h7, h8, h9, h10, h11, h12⟩ := isMarkClose_facts t h
      simp [Children.step, h2, h3, h5, h6, h7, h8, h9, h10, bind, Except.bind]
    · have h1 : t.type = "text" := by simpa [isPlainText] using h
      rcases hc with hc | hc <;>
        simp [Children.step, h1, hc, Node.type?, bind, Except.bind]
  rw [hs _ (Or.inl rfl), hs _ (Or.inr rfl)]
  rfl


theorem activeDelimiters_cons (u : InlineToken) (rest : List InlineToken) :
    activeDelimiters (u :: rest)
      = if (isMarkOpen u && !(rest.any (closesDelimiter u.markup))) = true then
          u.markup :: activeDelimiters rest
        else activeDelimiters rest := rfl

theorem any_closes_append (d : String) (rest : List InlineToken) (t : InlineToken) :
    (rest ++ [t]).any (closesDelimiter d) = (rest.any (closesDelimiter d) || closesDelimiter d t) := by
  simp [List.any_append]

theorem activeDelimiters_snoc_open (pre : List InlineToken) (t : InlineToken)
    (h : isMarkOpen t = true) :
    activeDelimiters (pre ++ [t]) = activeDelimiters pre ++ [t.markup] := by
  have hc : ∀ d, closesDelimiter d t = false := by
    intro d
    simp [closesDelimiter, isMarkOpen_not_close t h]
  induction pre with
  | nil => simp [activeDelimiters, h]
  | cons u rest ih =>
      rw [List.cons_append, activeDelimiters_cons, activeDelimiters_cons, any_closes_append,
        hc, Bool.or_false, ih]
      split <;> rfl

theorem activeDelimiters_snoc_text (pre : List InlineToken) (t : InlineToken)
    (h : isPlainText t = true) :
    activeDelimiters (pre ++ [t]) = activeDelimiters pre := by
  have hc : ∀ d, closesDelimiter d t = false := by
    intro d
    simp [closesDelimiter, (isPlainText_not_mark t h).2]
  induction pre with
  | nil => simp [activeDelimiters, (isPlainText_not_mark t h).1]
  | cons u rest ih =>
      rw [List.cons_append, activeDelimiters_cons, activeDelimiters_cons, any_closes_append,
        hc, Bool.or_false, ih]

theorem activeDelimiters_snoc_close (pre : List InlineToken) (t : InlineToken)
    (h : isMarkClose t = true) :
    activeDelimiters (pre ++ [t]) = (activeDelimiters pre).filter (· != t.markup) := by
  induction pre with
  | nil => simp [activeDelimiters, isMarkClose_not_open t h]
  | cons u rest ih =>
      rw [List.cons_append, activeDelimiters_cons, activeDelimiters_cons, any_closes_append, ih]
      by_cases hu : (isMarkOpen u && !(rest.any (closesDelimiter u.markup))) = true
      · by_cases hm : t.markup = u.markup
        · have hcl : closesDelimiter u.markup t = true := by simp [closesDelimiter, h, hm]
          have hu1 : (isMarkOpen u && !(rest.any (closesDelimiter u.markup) || closesDelimiter u.markup t)) = false := by
            rw [hcl]
            simp
          have hm1 : (u.markup != t.markup) = false := by simp [hm]
          rw [hu1, if_pos hu, List.filter_cons, hm1]
        · have hcl : closesDelimiter u.markup t = false := by simp [closesDelimiter, h, hm]
          have hm1 : (u.markup != t.markup) = true := by
            simp only [bne_iff_ne, ne_eq]
            exact fun e => hm e.symm
          rw [hcl, Bool.or_false, if_pos hu, if_pos hu, List.filter_cons, if_pos hm1]
      · have hu1 : (isMarkOpen u && !(rest.any (closesDelimiter u.markup) || closesDelimiter u.markup t)) = false := by
          simp only [Bool.not_eq_true] at hu
          simp only [Bool.and_eq_false_iff, Bool.not_eq_false_eq_eq_true, Bool.or_eq_true] at hu ⊢
          rcases hu with hu | hu
          · exact Or.inl hu
          · exact Or.inr (Or.inl (by simpa using hu))
        rw [if_neg hu, hu1]
        simp

theorem activeDelimiters_noEmpty (pre : List InlineToken) :
    (activeDelimiters pre).contains "" = false := by
  induction pre with
  | nil => rfl
  | cons u rest ih =>
      rw [activeDelimiters_cons]
      split
      · rename_i hu
        have h4 := (isMarkOpen_facts u (by simp only [Bool.and_eq_true] at hu; exact hu.1)).2.2.2.1
        simp only [List.contains_cons, ih, Bool.or_false, beq_eq_false_iff_ne, ne_eq]
        exact fun e => h4 e.symm
      · exact ih


theorem ordinaryDelimiters_append (a b : List InlineToken) :
    ordinaryDelimiters (a ++ b) = (ordinaryDelimiters a && ordinaryDelimiters b) := by
  simp [ordinaryDelimiters, List.all_append]

theorem activeDelimiters_ordinary (pre : List InlineToken)
    (h : ordinaryDelimiters pre = true) :
    ∀ d ∈ activeDelimiters pre, ordinaryDelimiter d = true := by
  induction pre with
  | nil => intro d hd; simp [activeDelimiters] at hd
  | cons u rest ih =>
      have hu : (!isMarkOpen u || ordinaryDelimiter u.markup) = true
          ∧ ordinaryDelimiters rest = true := by
        simpa [ordinaryDelimiters] using h
      intro d hd
      rw [activeDelimiters_cons] at hd
      split at hd
      · rename_i hc
        simp only [Bool.and_eq_true] at hc
        rcases List.mem_cons.1 hd with e | hm
        · rw [e]
          simpa [hc.1] using hu.1
        · exact ih hu.2 d hm
      · exact ih hu.2 d hd

theorem loop_cons (c : Children) (t : InlineToken) (ts : List InlineToken) :
    Children.loop c (t :: ts) = (Children.step c t).bind (fun c1 => Children.loop c1 ts) := rfl

theorem loop_collecting : ∀ (rest pre : List InlineToken) (runs : List TextBlock),
    markStreamOnly rest = true → distinctOpenFrom pre rest = true →
    ordinaryDelimiters pre = true → ordinaryDelimiters rest = true →
    Children.loop (collecting runs (activeDelimiters pre)) rest
      = Except.ok (collecting (runs ++ expectedRuns pre rest) (activeDelimiters (pre ++ rest)))
  | [], pre, runs, _, _, _, _ => by simp [Children.loop, expectedRuns]
  | t :: rest, pre, runs, hk, hd, hop, hor => by
      have hk1 : (isMarkOpen t || isMarkClose t || isPlainText t) = true
          ∧ markStreamOnly rest = true := by
        simpa [markStreamOnly] using hk
      have hd1 : (!(isMarkOpen t) || !((activeDelimiters pre).contains t.markup)) = true
          ∧ distinctOpenFrom (pre ++ [t]) rest = true := by
        have : distinctOpenFrom pre (t :: rest)
            = ((!(isMarkOpen t) || !((activeDelimiters pre).contains t.markup))
                && distinctOpenFrom (pre ++ [t]) rest) := rfl
        rw [this, Bool.and_eq_true] at hd
        exact hd
      have hor1 : (!isMarkOpen t || ordinaryDelimiter t.markup) = true
          ∧ ordinaryDelimiters rest = true := by
        simpa [ordinaryDelimiters] using hor
      have hop1 : ordinaryDelimiters (pre ++ [t]) = true := by
        rw [ordinaryDelimiters_append, hop]
        simpa [ordinaryDelimiters] using hor1.1
      have hMord := activeDelimiters_ordinary pre hop
      have ih := fun runs hk hd => loop_collecting rest (pre ++ [t]) runs hk hd hop1 hor1.2
      have happ : pre ++ [t] ++ rest = pre ++ t :: rest := by simp
      have hexp : expectedRuns pre (t :: rest)
          = if isPlainText t = true then
              { text := t.content, marks := some ((activeDelimiters pre).map markOf) }
                :: expectedRuns (pre ++ [t]) rest
            else expectedRuns (pre ++ [t]) rest := rfl
      rw [loop_cons]
      have hcases := hk1.1
      simp only [Bool.or_eq_true] at hcases
      rcases hcases with (ho | hc) | ht
      · have hnot : (activeDelimiters pre).contains t.markup = false := by
          have := hd1.1
          simpa [ho] using this
        have hpt : isPlainText t = false := by
          have h5 := (isMarkOpen_facts t ho).2.2.2.2.1
          simp [isPlainText, h5]
        have hot : ordinaryDelimiter t.markup = true := by simpa [ho] using hor1.1
        rw [step_markOpen runs _ t ho hnot hot, ← activeDelimiters_snoc_open pre t ho]
        show Children.loop (collecting runs (activeDelimiters (pre ++ [t]))) rest = _
        rw [ih runs hk1.2 hd1.2, happ, hexp, hpt]
        simp
      · have hpt : isPlainText t = false := by
          have h5 := (isMarkClose_facts t hc).2.2.2.1
          simp [isPlainText, h5]
        rw [step_markClose runs _ t hc (activeDelimiters_noEmpty pre),
          ← activeDelimiters_snoc_close pre t hc]
        show Children.loop (collecting runs (activeDelimiters (pre ++ [t]))) rest = _
        rw [ih runs hk1.2 hd1.2, happ, hexp, hpt]
        simp
      · rw [step_plainText runs _ t ht (activeDelimiters_noEmpty pre) hMord]
        show Children.loop (collecting _ (activeDelimiters pre)) rest = _
        rw [← activeDelimiters_snoc_text pre t ht, ih _ hk1.2 hd1.2, happ, hexp, if_pos ht]
        simp [activeDelimiters_snoc_text pre t ht]

theorem expectedRuns_append : ∀ (a p b : List InlineToken),
    expectedRuns p (a ++ b) = expectedRuns p a ++ expectedRuns (p ++ a) b
  | [], p, b => by simp [expectedRuns]
  | t :: a, p, b => by
      have ih := expectedRuns_append a (p ++ [t]) b
      have happ : p ++ [t] ++ a = p ++ t :: a := by simp
      rw [happ] at ih
      show expectedRuns p (t :: (a ++ b)) = _
      simp only [expectedRuns, ih]
      split <;> simp

theorem expectedRuns_length : ∀ (a p : List InlineToken),
    (expectedRuns p a).length = textCount a
  | [], _ => rfl
  | t :: a, p => by
      have ih := expectedRuns_length a (p ++ [t])
      simp only [expectedRuns, textCount, List.filter_cons] at ih ⊢
      split <;> simp [ih]


/-- C22 (counterexample). The active marks are the keys of a plain object. For a mark
whose delimiter is `__proto__` the assignment `this.marks[markup] = true` creates no
key: the text between the open and the close token gets no mark, although the
delimiter is opened and not yet closed before it. For the delimiters `2` and `1`,
opened in this order, the keys are visited as `1`, `2`. -/
theorem C22_proto_delimiter_not_recorded :
    markStreamOnly protoMarks = true ∧ distinctOpenFrom [] protoMarks = true ∧
    activeDelimiters [{ type := "strong_open", markup := "__proto__" }] = ["__proto__"] ∧
    Children.createNodes protoMarks
      = Except.ok [Node.text [{ text := "a", marks := some [] }] none] ∧
    activeDelimiters [{ type := "strong_open", markup := "2" },
                      { type := "em_open", markup := "1" }] = ["2", "1"] ∧
    Children.createNodes digitMarks
      = Except.ok [Node.text
          [{ text := "a", marks := some [{ type := none, markup := "1" },
                                         { type := none, markup := "2" }] }] none] := by
  refine ⟨by decide, by decide, by decide, rfl, by decide, rfl⟩

/-- C22 (amended). For every inline stream made only of mark-open, mark-close and n ≥ 1
plain text tokens, in which no mark-open token repeats a delimiter that is open at its
position and no mark-open token has as delimiter a property name of `Object.prototype`
(such as `__proto__`) or a string of digits, `createNodes` returns exactly one text
node; its ranges are n runs, and the run of each text token (at the index given by the
number of text tokens before it) has the token's content as text and as marks exactly
the descriptors of the delimiters opened and not yet closed before the token, in the
order of their opening (the empty list if there are none). -/
theorem C22_mark_stream_runs (tokens : List InlineToken)
    (hkind : markStreamOnly tokens = true) (hn : 1 ≤ textCount tokens)
    (hdist : distinctOpenFrom [] tokens = true)
    (hord : ordinaryDelimiters tokens = true) :
    ∃ runs : List TextBlock,
      Children.createNodes tokens = Except.ok [Node.text runs none] ∧
      runs.length = textCount tokens ∧
      ∀ (pre : List InlineToken) (tok : InlineToken) (post : List InlineToken),
        tokens = pre ++ tok :: post → isPlainText tok = true →
        runs[textCount pre]? = some { text := tok.content,
                                      marks := some ((activeDelimiters pre).map markOf) } := by
  refine ⟨expectedRuns [] tokens, ?_, expectedRuns_length tokens [], ?_⟩
  · cases tokens with
    | nil => exact absurd hn (by decide)
    | cons t rest =>
        have hk1 : (isMarkOpen t || isMarkClose t || isPlainText t) = true := by
          have : (isMarkOpen t || isMarkClose t || isPlainText t) = true
              ∧ markStreamOnly rest = true := by
            simpa [markStreamOnly] using hkind
          exact this.1
        have hl : Children.loop {} (t :: rest)
            = Children.loop (collecting [] (activeDelimiters [])) (t :: rest) := by
          rw [loop_cons, loop_cons, step_initial t hk1]
          rfl
        have h := loop_collecting (t :: rest) [] [] hkind hdist rfl hord
        have hc : Children.createNodes (t :: rest)
            = (Children.loop {} (t :: rest)).bind (fun c =>
                match c.currNode with
                | none => .ok c._nodes
                | some _ => do
                    let c1 ← if c.currTextBlock.isSome then Children.addTextBlock c else .ok c
                    let c2 ← Children.addCurrNode c1
                    .ok c2._nodes) := rfl
        rw [hc, hl, h]
        rfl
  · intro pre tok post hsplit htext
    have happ := expectedRuns_append pre [] (tok :: post)
    have hcons : expectedRuns ([] ++ pre) (tok :: post)
        = { text := tok.content, marks := some ((activeDelimiters pre).map markOf) }
            :: expectedRuns ([] ++ pre ++ [tok]) post := by
      show (if isPlainText tok = true then _ else _) = _
      rw [if_pos htext]
      rfl
    rw [hsplit, happ, hcons, ← expectedRuns_length pre [], List.getElem?_append_right (le_refl _)]
    simp

/-- Witness for C22 (amended): the stream of `a **b *c* d** e`. -/
theorem C22_mark_stream_runs_witness :
    markStreamOnly nestedMarks = true ∧ 1 ≤ textCount nestedMarks ∧
    distinctOpenFrom [] nestedMarks = true ∧ ordinaryDelimiters nestedMarks = true ∧
    ∃ runs : List TextBlock,
      Children.createNodes nestedMarks = Except.ok [Node.text runs none] ∧
      runs.length = textCount nestedMarks ∧
      ∀ (pre : List InlineToken) (tok : InlineToken) (post : List InlineToken),
        nestedMarks = pre ++ tok :: post → isPlainText tok = true →
        runs[textCount pre]? = some { text := tok.content,
                                      marks := some ((activeDelimiters pre).map markOf) } :=
  ⟨by decide, by decide, by decide, by decide,
   C22_mark_stream_runs nestedMarks (by decide) (by decide) (by decide) (by decide)⟩

theorem openDepth_snoc (o c : String) (seen : List Token) (t : Token) :
    openDepth o c (seen ++ [t])
      = openDepth o c seen + (if t.type = o then 1 else 0) - (if t.type = c then 1 else 0) := by
  simp only [openDepth, List.countP_append, List.countP_cons, List.countP_nil, beq_iff_eq]
  split <;> split <;> push_cast <;> omega

theorem update_eq (l : Levels) (t : Token) :
    l.update t
      = ({ blockquoteLevel := l.blockquoteLevel + (if t.type = "blockquote_open" then 1 else 0)
              - (if t.type = "blockquote_close" then 1 else 0)
           bulletListLevel := l.bulletListLevel + (if t.type = "bullet_list_open" then 1 else 0)
              - (if t.type = "bullet_list_close" then 1 else 0)
           orderedListLevel := l.orderedListLevel + (if t.type = "ordered_list_open" then 1 else 0)
              - (if t.type = "ordered_list_close" then 1 else 0)
           ddLevel := l.ddLevel + (if t.type = "dd_open" then 1 else 0)
              - (if t.type = "dd_close" then 1 else 0)
           anchorLevel := l.anchorLevel + (if t.type = "anchor_open" then 1 else 0)
              - (if t.type = "anchor_close" then 1 else 0) },
         if t.type = "code_block" ∨ t.type = "fence" then
           { t with content := trimTrailingNewline t.content }
         else t) := by
  by_cases h1 : t.type = "blockquote_open"
  · simp [Levels.update, h1]
  by_cases h2 : t.type = "blockquote_close"
  · simp [Levels.update, h2]
  by_cases h3 : t.type = "bullet_list_open"
  · simp [Levels.update, h3]
  by_cases h4 : t.type = "bullet_list_close"
  · simp [Levels.update, h4]
  by_cases h5 : t.type = "ordered_list_open"
  · simp [Levels.update, h5]
  by_cases h6 : t.type = "ordered_list_close"
  · simp [Levels.update, h6]
  by_cases h7 : t.type = "dd_open"
  · simp [Levels.update, h7]
  by_cases h8 : t.type = "dd_close"
  · simp [Levels.update, h8]
  by_cases h9 : t.type = "anchor_open"
  · simp [Levels.update, h9]
  by_cases h10 : t.type = "anchor_close"
  · simp [Levels.update, h10]
  by_cases h11 : t.type = "code_block" ∨ t.type = "fence"
  · rcases h11 with h | h <;> simp [Levels.update, h]
  · have h12 := h11
    simp only [not_or] at h12
    simp [Levels.update, h1, h2, h3, h4, h5, h6, h7, h8, h9, h10, h12.1, h12.2]

theorem update_type (l : Levels) (t : Token) : (l.update t).2.type = t.type := by
  rw [update_eq]
  show (if _ then _ else _ : Token).type = _
  split <;> rfl

theorem update_eraseContent (l : Levels) (t : Token) :
    eraseContent (l.update t).2 = eraseContent t := by
  rw [update_eq]
  show eraseContent (if _ then _ else _ : Token) = _
  split <;> rfl

theorem levelsOf_update (seen : List Token) (t : Token) :
    ((levelsOf seen).update t).1 = levelsOf (seen ++ [t]) := by
  rw [update_eq]
  simp only [levelsOf, openDepth_snoc]

theorem update_levels_of_type (l : Levels) (t u : Token) (h : u.type = t.type) :
    (l.update u).1 = (l.update t).1 := by
  rw [update_eq, update_eq, h]

theorem levelsOf_snoc_congr (seen out : List Token) (t u : Token)
    (h : u.type = t.type) (hl : levelsOf out = levelsOf seen) :
    levelsOf (out ++ [u]) = levelsOf (seen ++ [t]) := by
  rw [← levelsOf_update, ← levelsOf_update, hl, update_levels_of_type _ t u h]

theorem levelsOf_snoc_removed (seen : List Token) (t : Token)
    (h : isNestedEmpty t = true ∨ isParagraphToken t = true) :
    levelsOf (seen ++ [t]) = levelsOf seen := by
  rw [← levelsOf_update, update_eq]
  have ht : t.type = "empty" ∨ t.type = "paragraph_open" ∨ t.type = "paragraph_close" := by
    rcases h with h | h
    · simp only [isNestedEmpty, Bool.and_eq_true, beq_iff_eq] at h
      exact Or.inl h.1
    · simp only [isParagraphToken, Bool.or_eq_true, beq_iff_eq] at h
      exact Or.inr h
  rcases ht with h | h | h <;> simp [h]

theorem levelsOf_snoc_pair (seen : List Token) (t n : Token)
    (ht : t.type = "bullet_list_close") (hn : n.type = "bullet_list_open") :
    levelsOf (seen ++ [t, n]) = levelsOf seen := by
  have happ : seen ++ [t, n] = seen ++ [t] ++ [n] := by simp
  rw [happ, ← levelsOf_update, ← levelsOf_update, update_eq, update_eq]
  simp [ht, hn]


theorem preprocessingFrom_cons2 (l : Levels) (t n : Token) (rest : List Token) :
    preprocessingFrom l (t :: n :: rest)
      = if isNestedEmpty t = true then preprocessingFrom l (n :: rest)
        else if (l.active && isParagraphToken t) = true then preprocessingFrom l (n :: rest)
        else if (decide (l.bulletListLevel > 1) && t.type == "bullet_list_close"
                  && n.type == "bullet_list_open") = true then preprocessingFrom l rest
        else (l.update t).2 :: preprocessingFrom (l.update t).1 (n :: rest) := rfl

theorem keptBySpec_cons2 (seen : List Token) (t n : Token) (rest : List Token) :
    keptBySpec seen (t :: n :: rest)
      = if (isNestedEmpty t || (isParagraphToken t && enclosed seen)) = true then
          keptBySpec (seen ++ [t]) (n :: rest)
        else if (decide (openDepth "bullet_list_open" "bullet_list_close" seen > 1)
            && t.type == "bullet_list_close" && n.type == "bullet_list_open") = true then
          keptBySpec (seen ++ [t, n]) rest
        else t :: keptBySpec (seen ++ [t]) (n :: rest) := rfl

theorem lastStays_tail (seen : List Token) (t : Token) (rest : List Token)
    (h : lastStays seen (t :: rest)) : lastStays (seen ++ [t]) rest := by
  intro init last e
  have := h (t :: init) last (by rw [e]; rfl)
  simpa using this

theorem removal_iff (seen : List Token) (t : Token) :
    (isNestedEmpty t || (isParagraphToken t && enclosed seen)) = true
      ↔ (isNestedEmpty t = true ∨ ((levelsOf seen).active && isParagraphToken t) = true) := by
  simp only [enclosed, Bool.or_eq_true, Bool.and_eq_true]
  constructor
  · rintro (h | ⟨h1, h2⟩)
    · exact Or.inl h
    · exact Or.inr ⟨h2, h1⟩
  · rintro (h | ⟨h1, h2⟩)
    · exact Or.inl h
    · exact Or.inr ⟨h2, h1⟩

theorem preprocessingFrom_kept : ∀ (rest seen : List Token), lastStays seen rest →
    (preprocessingFrom (levelsOf seen) rest).map eraseContent
      = (keptBySpec seen rest).map eraseContent
  | [], _, _ => rfl
  | [t], seen, h => by
      have h0 := h [] t rfl
      rw [List.append_nil] at h0
      have hk : keptBySpec seen [t]
          = if (isNestedEmpty t || (isParagraphToken t && enclosed seen)) = true then []
            else [t] := rfl
      have hp : preprocessingFrom (levelsOf seen) [t] = [t] := rfl
      rw [hk, hp, if_neg (by simp [h0])]
  | t :: n :: rest, seen, h => by
      have h1 := lastStays_tail seen t (n :: rest) h
      have h2 : lastStays (seen ++ [t, n]) rest := by
        have := lastStays_tail (seen ++ [t]) n rest h1
        simpa using this
      rw [preprocessingFrom_cons2, keptBySpec_cons2]
      by_cases c1 : isNestedEmpty t = true
      · rw [if_pos c1, if_pos ((removal_iff seen t).2 (Or.inl c1)),
          ← levelsOf_snoc_removed seen t (Or.inl c1)]
        exact preprocessingFrom_kept (n :: rest) (seen ++ [t]) h1
      · by_cases c2 : ((levelsOf seen).active && isParagraphToken t) = true
        · have hp : isParagraphToken t = true := by
            simp only [Bool.and_eq_true] at c2
            exact c2.2
          rw [if_neg c1, if_pos c2, if_pos ((removal_iff seen t).2 (Or.inr c2)),
            ← levelsOf_snoc_removed seen t (Or.inr hp)]
          exact preprocessingFrom_kept (n :: rest) (seen ++ [t]) h1
        · have c12 : ¬ (isNestedEmpty t || (isParagraphToken t && enclosed seen)) = true := by
            rw [removal_iff]
            rintro (h | h)
            · exact c1 h
            · exact c2 h
          rw [if_neg c1, if_neg c2, if_neg c12]
          have hb : (levelsOf seen).bulletListLevel
              = openDepth "bullet_list_open" "bullet_list_close" seen := rfl
          rw [hb]
          by_cases c3 : (decide (openDepth "bullet_list_open" "bullet_list_close" seen > 1)
              && t.type == "bullet_list_close" && n.type == "bullet_list_open") = true
          · have c3a := c3
            simp only [Bool.and_eq_true, beq_iff_eq] at c3a
            rw [if_pos c3, if_pos c3, ← levelsOf_snoc_pair seen t n c3a.1.2 c3a.2]
            exact preprocessingFrom_kept rest (seen ++ [t, n]) h2
          · rw [if_neg c3, if_neg c3, List.map_cons, List.map_cons, update_eraseContent,
              levelsOf_update, preprocessingFrom_kept (n :: rest) (seen ++ [t]) h1]

theorem preprocessingFrom_sublist : ∀ (rest : List Token) (l : Levels),
    ((preprocessingFrom l rest).map eraseContent).Sublist (rest.map eraseContent)
  | [], _ => List.Sublist.refl _
  | [_], _ => List.Sublist.refl _
  | t :: n :: rest, l => by
      rw [preprocessingFrom_cons2]
      split
      · exact (preprocessingFrom_sublist (n :: rest) l).cons _
      · split
        · exact (preprocessingFrom_sublist (n :: rest) l).cons _
        · split
          · exact ((preprocessingFrom_sublist rest l).cons _).cons _
          · rw [List.map_cons, List.map_cons, update_eraseContent]
            exact (preprocessingFrom_sublist (n :: rest) _).cons₂ _


theorem isParagraphToken_congr (t u : Token) (h : u.type = t.type) :
    isParagraphToken u = isParagraphToken t := by
  simp [isParagraphToken, h]

theorem preprocessingFrom_no_enclosed_paragraph : ∀ (rest seen out : List Token),
    levelsOf out = levelsOf seen → lastStays seen rest →
    ∀ (pre : List Token) (tok : Token) (post : List Token),
      preprocessingFrom (levelsOf seen) rest = pre ++ tok :: post →
      isParagraphToken tok = true → enclosed (out ++ pre) = false
  | [], seen, _, _, _ => by
      intro pre tok post e _
      have : preprocessingFrom (levelsOf seen) [] = [] := rfl
      rw [this] at e
      cases pre <;> simp at e
  | [t], seen, out, hl, h => by
      intro pre tok post e hp
      have h0 := h [] t rfl
      rw [List.append_nil] at h0
      have : preprocessingFrom (levelsOf seen) [t] = [t] := rfl
      rw [this] at e
      cases pre with
      | nil =>
          simp only [List.nil_append, List.cons.injEq] at e
          rw [← e.1] at hp
          have he : enclosed seen = false := by
            have h3 : isNestedEmpty t = false ∧ enclosed seen = false := by simpa [hp] using h0
            exact h3.2
          rw [List.append_nil]
          show (levelsOf out).active = false
          rw [hl]
          exact he
      | cons p ps => simp at e
  | t :: n :: rest, seen, out, hl, h => by
      intro pre tok post e hp
      have h1 := lastStays_tail seen t (n :: rest) h
      have h2 : lastStays (seen ++ [t, n]) rest := by
        have := lastStays_tail (seen ++ [t]) n rest h1
        simpa using this
      rw [preprocessingFrom_cons2] at e
      by_cases c1 : isNestedEmpty t = true
      · rw [if_pos c1, ← levelsOf_snoc_removed seen t (Or.inl c1)] at e
        exact preprocessingFrom_no_enclosed_paragraph (n :: rest) (seen ++ [t]) out
          (by rw [hl, levelsOf_snoc_removed seen t (Or.inl c1)]) h1 pre tok post e hp
      · by_cases c2 : ((levelsOf seen).active && isParagraphToken t) = true
        · have hpt : isParagraphToken t = true := by
            simp only [Bool.and_eq_true] at c2
            exact c2.2
          rw [if_neg c1, if_pos c2, ← levelsOf_snoc_removed seen t (Or.inr hpt)] at e
          exact preprocessingFrom_no_enclosed_paragraph (n :: rest) (seen ++ [t]) out
            (by rw [hl, levelsOf_snoc_removed seen t (Or.inr hpt)]) h1 pre tok post e hp
        · rw [if_neg c1, if_neg c2] at e
          by_cases c3 : (decide ((levelsOf seen).bulletListLevel > 1)
              && t.type == "bullet_list_close" && n.type == "bullet_list_open") = true
          · have c3a := c3
            simp only [Bool.and_eq_true, beq_iff_eq] at c3a
            rw [if_pos c3, ← levelsOf_snoc_pair seen t n c3a.1.2 c3a.2] at e
            exact preprocessingFrom_no_enclosed_paragraph rest (seen ++ [t, n]) out
              (by rw [hl, levelsOf_snoc_pair seen t n c3a.1.2 c3a.2]) h2 pre tok post e hp
          · rw [if_neg c3] at e
            cases pre with
            | nil =>
                simp only [List.nil_append, List.cons.injEq] at e
                rw [← e.1, isParagraphToken_congr t _ (update_type _ t)] at hp
                have ha : (levelsOf seen).active = false := by simpa [hp] using c2
                rw [List.append_nil]
                show (levelsOf out).active = false
                rw [hl]
                exact ha
            | cons p ps =>
                simp only [List.cons_append, List.cons.injEq] at e
                have hty : p.type = t.type := by rw [← e.1]; exact update_type _ t
                have e2 := e.2
                rw [levelsOf_update] at e2
                have := preprocessingFrom_no_enclosed_paragraph (n :: rest) (seen ++ [t]) (out ++ [p])
                  (levelsOf_snoc_congr seen out t p hty hl) h1 ps tok post e2 hp
                simpa using this


theorem pairTypes_iff (k x y : String) (h : pairTypes x y = true) :
    x = k ++ "_open" ↔ y = k ++ "_close" := by
  simp only [pairTypes, Bool.and_eq_true, beq_iff_eq] at h
  obtain ⟨hx, hy⟩ := h
  rw [String.ext_iff, String.ext_iff, String.data_append, String.data_append]
  constructor
  · intro e
    rw [hx] at e
    have hs := List.append_cancel_right e
    rw [hy, hs]
  · intro e
    rw [hy] at e
    have hs := List.append_cancel_right e
    rw [hx, hs]

theorem nesting_cons (st : List String) (t : Token) (rest : List Token) :
    nesting st (t :: rest)
      = if getLastElemTokenType t.type = "open" then
          if t.level = (st.length : Int) then nesting (t.type :: st) rest else none
        else if getLastElemTokenType t.type = "close" then
          match st with
          | o :: s =>
              if pairTypes o t.type = true ∧ t.level = (s.length : Int) then nesting s rest
              else none
          | [] => none
        else if t.level = (st.length : Int) then nesting st rest else none := by
  cases st <;> simp [nesting]

theorem nesting_append : ∀ (a : List Token) (st : List String) (b : List Token),
    nesting st (a ++ b) = (nesting st a).bind (fun s => nesting s b)
  | [], st, b => rfl
  | t :: a, st, b => by
      rw [List.cons_append, nesting_cons, nesting_cons]
      split
      · split
        · exact nesting_append a _ b
        · rfl
      · split
        · cases st with
          | nil => rfl
          | cons o s =>
              show (if _ then _ else _) = Option.bind (if _ then _ else _) _
              split
              · exact nesting_append a _ b
              · rfl
        · split
          · exact nesting_append a _ b
          · rfl

theorem openDepth_cons (o c : String) (t : Token) (ts : List Token) :
    openDepth o c (t :: ts)
      = (if t.type = o then 1 else 0) - (if t.type = c then 1 else 0) + openDepth o c ts := by
  simp only [openDepth, List.countP_cons, beq_iff_eq]
  split <;> split <;> push_cast <;> omega

theorem nesting_depth (o c : String) (ho : getLastElemTokenType o = "open")
    (hc : getLastElemTokenType c = "close")
    (hp : ∀ x y, pairTypes x y = true → (x = o ↔ y = c)) :
    ∀ (ts : List Token) (st st' : List String), nesting st ts = some st' →
      (st'.count o : Int) = st.count o + openDepth o c ts
  | [], st, st', h => by
      have : nesting st [] = some st := rfl
      rw [this] at h
      cases h
      simp [openDepth]
  | t :: ts, st, st', h => by
      rw [nesting_cons] at h
      rw [openDepth_cons]
      by_cases h1 : getLastElemTokenType t.type = "open"
      · rw [if_pos h1] at h
        have hnc : t.type ≠ c := by
          intro e
          rw [e, hc] at h1
          exact absurd h1 (by decide)
        split at h
        · have ih := nesting_depth o c ho hc hp ts _ _ h
          rw [ih, List.count_cons, if_neg hnc]
          by_cases e : t.type = o
          · simp [e]
            omega
          · simp [e]
        · exact absurd h (by simp)
      · rw [if_neg h1] at h
        have hno : t.type ≠ o := by
          intro e
          rw [e] at h1
          exact h1 ho
        by_cases h2 : getLastElemTokenType t.type = "close"
        · rw [if_pos h2] at h
          cases st with
          | nil => exact absurd h (by simp)
          | cons o1 s =>
              simp only at h
              split at h
              · rename_i hpl
                have ih := nesting_depth o c ho hc hp ts _ _ h
                have hiff := hp o1 t.type hpl.1
                rw [ih, List.count_cons, if_neg hno]
                by_cases e : o1 = o
                · have e2 := hiff.1 e
                  simp [e, e2]
                  omega
                · have e2 : t.type ≠ c := fun e3 => e (hiff.2 e3)
                  simp [e, e2]
              · exact absurd h (by simp)
        · rw [if_neg h2] at h
          have hnc : t.type ≠ c := by
            intro e
            rw [e] at h2
            exact h2 hc
          split at h
          · have ih := nesting_depth o c ho hc hp ts _ _ h
            rw [ih, if_neg hno, if_neg hnc]
            omega
          · exact absurd h (by simp)


theorem closed_depth_zero (k : String) (init : List Token) (o1 : String) (ty : String)
    (ho : getLastElemTokenType (k ++ "_open") = "open")
    (hc : getLastElemTokenType (k ++ "_close") = "close")
    (hn : nesting [] init = some [o1]) (hpair : pairTypes o1 ty = true)
    (hty : ty ≠ k ++ "_close") :
    openDepth (k ++ "_open") (k ++ "_close") init = 0 := by
  have h := nesting_depth (k ++ "_open") (k ++ "_close") ho hc
    (fun x y hxy => pairTypes_iff k x y hxy) init [] [o1] hn
  have ho1 : o1 ≠ k ++ "_open" := fun e => hty ((pairTypes_iff k o1 ty hpair).1 e)
  rw [List.count_cons, if_neg (by simpa using ho1)] at h
  simpa using h.symm

theorem wellNested_lastStays (tokens : List Token) (h : wellNested tokens = true) :
    lastStays [] tokens := by
  intro init last e
  subst e
  have hn : nesting [] (init ++ [last]) = some [] := by
    simpa [wellNested] using h
  rw [nesting_append] at hn
  cases h1 : nesting [] init with
  | none => rw [h1] at hn; exact absurd hn (by simp)
  | some st1 =>
      rw [h1] at hn
      have h2 : nesting st1 [last] = some [] := hn
      rw [nesting_cons] at h2
      have hnil : ∀ s : List String, nesting s [] = some s := fun _ => rfl
      rw [List.nil_append]
      by_cases hopen : getLastElemTokenType last.type = "open"
      · rw [if_pos hopen] at h2
        split at h2
        · rw [hnil] at h2
          exact absurd h2 (by simp)
        · exact absurd h2 (by simp)
      · rw [if_neg hopen] at h2
        have hnpo : last.type ≠ "paragraph_open" := by
          intro e
          rw [e] at hopen
          exact hopen (by decide)
        by_cases hclose : getLastElemTokenType last.type = "close"
        · rw [if_pos hclose] at h2
          have hne : last.type ≠ "empty" := by
            intro e
            rw [e] at hclose
            exact absurd hclose (by decide)
          cases st1 with
          | nil => exact absurd h2 (by simp)
          | cons o1 s =>
              simp only at h2
              split at h2
              · rename_i hpl
                rw [hnil] at h2
                have hs : s = [] := by simpa using h2
                subst hs
                by_cases hpc : last.type = "paragraph_close"
                · have d1 := closed_depth_zero "blockquote" init o1 last.type (by decide)
                    (by decide) h1 hpl.1 (by rw [hpc]; decide)
                  have d2 := closed_depth_zero "bullet_list" init o1 last.type (by decide)
                    (by decide) h1 hpl.1 (by rw [hpc]; decide)
                  have d3 := closed_depth_zero "ordered_list" init o1 last.type (by decide)
                    (by decide) h1 hpl.1 (by rw [hpc]; decide)
                  have d4 := closed_depth_zero "dd" init o1 last.type (by decide)
                    (by decide) h1 hpl.1 (by rw [hpc]; decide)
                  have d5 := closed_depth_zero "anchor" init o1 last.type (by decide)
                    (by decide) h1 hpl.1 (by rw [hpc]; decide)
                  have e1 : "blockquote" ++ "_open" = "blockquote_open" := by decide
                  have e2 : "blockquote" ++ "_close" = "blockquote_close" := by decide
                  have e3 : "bullet_list" ++ "_open" = "bullet_list_open" := by decide
                  have e4 : "bullet_list" ++ "_close" = "bullet_list_close" := by decide
                  have e5 : "ordered_list" ++ "_open" = "ordered_list_open" := by decide
                  have e6 : "ordered_list" ++ "_close" = "ordered_list_close" := by decide
                  have e7 : "dd" ++ "_open" = "dd_open" := by decide
                  have e8 : "dd" ++ "_close" = "dd_close" := by decide
                  have e9 : "anchor" ++ "_open" = "anchor_open" := by decide
                  have e10 : "anchor" ++ "_close" = "anchor_close" := by decide
                  rw [e1, e2] at d1
                  rw [e3, e4] at d2
                  rw [e5, e6] at d3
                  rw [e7, e8] at d4
                  rw [e9, e10] at d5
                  have hen : enclosed init = false := by
                    simp [enclosed, levelsOf, Levels.active, d1, d2, d3, d4, d5]
                  simp [isNestedEmpty, hne, hen]
                · simp [isNestedEmpty, isParagraphToken, hne, hnpo, hpc]
              · exact absurd h2 (by simp)
        · rw [if_neg hclose] at h2
          have hnpc : last.type ≠ "paragraph_close" := by
            intro e
            rw [e] at hclose
            exact hclose (by decide)
          split at h2
          · rename_i hlev
            rw [hnil] at h2
            have hs : st1 = [] := by simpa using h2
            subst hs
            have hl0 : last.level = 0 := by simpa using hlev
            simp [isNestedEmpty, isParagraphToken, hnpo, hnpc, hl0]
          · exact absurd h2 (by simp)

/-- C24. For every well-nested token stream: after preprocessing no paragraph-open or
paragraph-close token stands at a position enclosed by an open blockquote, bullet list,
ordered list, definition description or footnote anchor; the tokens kept are, up to the
content of code tokens, exactly the tokens that are neither nested empty-line markers,
nor paragraph tokens at an enclosed position, nor part of a collapsed bullet-list
close/open pair; and the kept tokens stand in their original order. -/
theorem C24_preprocessing_keeps (tokens : List Token) (hwn : wellNested tokens = true) :
    (∀ (pre : List Token) (tok : Token) (post : List Token),
        StateRender.preprocessing tokens = pre ++ tok :: post →
        isParagraphToken tok = true → enclosed pre = false) ∧
    (StateRender.preprocessing tokens).map eraseContent
      = (keptBySpec [] tokens).map eraseContent ∧
    ((StateRender.preprocessing tokens).map eraseContent).Sublist
      (tokens.map eraseContent) := by
  have hl := wellNested_lastStays tokens hwn
  have h0 : levelsOf [] = ({} : Levels) := rfl
  refine ⟨?_, ?_, ?_⟩
  · intro pre tok post e hp
    have e1 : preprocessingFrom (levelsOf []) tokens = pre ++ tok :: post := e
    have := preprocessingFrom_no_enclosed_paragraph tokens [] [] rfl hl pre tok post e1 hp
    simpa using this
  · exact preprocessingFrom_kept tokens [] hl
  · exact preprocessingFrom_sublist tokens {}

/-- Witness for C24: a blockquote holding a paragraph, an empty line and a list,
followed by a top-level paragraph. -/
theorem C24_preprocessing_keeps_witness :
    wellNested quotedStream = true ∧
    (∀ (pre : List Token) (tok : Token) (post : List Token),
        StateRender.preprocessing quotedStream = pre ++ tok :: post →
        isParagraphToken tok = true → enclosed pre = false) ∧
    (StateRender.preprocessing quotedStream).map eraseContent
      = (keptBySpec [] quotedStream).map eraseContent ∧
    ((StateRender.preprocessing quotedStream).map eraseContent).Sublist
      (quotedStream.map eraseContent) :=
  ⟨by decide, C24_preprocessing_keeps quotedStream (by decide)⟩

end ReactMarkdown
